import Mathlib

/-!
The advertisement-demo chaincode: a shallow embedding.

Source: `src/chaincode/advertisement_demo.go`.

The chaincode talks to two collaborators that are not part of the sources:

* the ledger (`shim.ChaincodeStub`, with `GetState` and `PutState`), embedded as a
  key/value state together with a schedule of storage faults;
* `encoding/json` (and the conversion `[]byte(s)`), embedded as a parameter `Codec β`
  over an arbitrary type `β` of stored byte strings. The general statements hold for every
  `Codec`; the examples run in two instances, `demoCodec`, in which an encoded record reads
  as a record of its own kind only, and `jsonCodec`, in which every object reads as a bid,
  as a slot and as an account, as it does for `encoding/json`.

`int64` fields are integers; the two arithmetic operations of the source wrap modulo `2^64`.
-/

namespace AdvertisementDemo

/-! ## int64 arithmetic -/

/-- Membership in the range of `int64`. -/
def InInt64 (x : Int) : Prop := -9223372036854775808 ≤ x ∧ x ≤ 9223372036854775807

instance (x : Int) : Decidable (InInt64 x) := by
  unfold InInt64; exact inferInstance

/-- Two's complement wrap-around of an integer into the range of `int64`. -/
def wrap64 (x : Int) : Int :=
  (x + 9223372036854775808) % 18446744073709551616 - 9223372036854775808

/-- The `int64` subtraction `x - y` of Go. -/
def sub64 (x y : Int) : Int := wrap64 (x - y)

/-- The `int64` addition `x + y` of Go. -/
def add64 (x y : Int) : Int := wrap64 (x + y)

/-! ## Structure definitions (source lines 20-60) -/

/-- The Go struct `Bid`. -/
structure Bid where
  Id : String
  SlotId : String
  Amount : Int
  Content : String
  Username : String
deriving DecidableEq, Repr

/-- The Go struct `Slot`. -/
structure Slot where
  Id : String
  StartTime : Int
  EndTime : Int
  Bids : List Bid
  BidDeadline : Int
  DeviceId : String
  HighestBidAmount : Int
deriving DecidableEq, Repr

/-- The Go struct `Account`. -/
structure Account where
  Hash : String
  Salt : String
  Username : String
  Balance : Int
  Bids : List Bid
deriving DecidableEq, Repr

/-! ## Index collections (source lines 65-68) -/

def accountIndexStr : String := "_accounts"
def slotIndexStr : String := "_slots"
def bidIndexStr : String := "_bids"
def deviceIndexStr : String := "_devices"

/-! ## Collaborators -/

deriving instance DecidableEq for Except

/-- Modelled from the spec: the encoding collaborator (`encoding/json` and the conversion
`[]byte(s)`), which is not part of the sources. `β` is the type of stored byte strings.
A decoder whose error the source checks returns no value on failure; `unmarshalSlot`
reports on failure the `Id` left in the partially filled struct, which one error message
of `payout_bid` prints; `unmarshalIndex` returns the slice left in the target, because
`append_id` discards the error, and `indexFails` tells whether that decoding returned an
error, which the queries check; `slotLeft` and `bidLeft` return the struct left in the
target, because the queries discard the error. `json.Marshal` does not fail on these
structs and slices, so the encoders are total. -/
structure Codec (β : Type) where
  bytes : String → β
  unmarshalBid : β → Option Bid
  unmarshalAccount : β → Option Account
  unmarshalSlot : β → Except String Slot
  unmarshalIndex : β → List String
  marshalSlot : Slot → β
  marshalAccount : Account → β
  marshalIndex : List String → β
  indexFails : β → Bool
  slotLeft : β → Slot
  bidLeft : β → Bid
  marshalSlots : List Slot → β
  marshalBids : List Bid → β

variable {β : Type}

/-- Decoding of what `GetState` returned as an `Account`: `json.Unmarshal` of the nil slice
returned for a key never written is an error. -/
def Codec.decodeAccount (J : Codec β) : Option β → Option Account
  | none => none
  | some v => J.unmarshalAccount v

/-- Decoding of what `GetState` returned as a `Slot`; the nil slice is an error and leaves
the zero value, whose `Id` is empty. -/
def Codec.decodeSlot (J : Codec β) : Option β → Except String Slot
  | none => .error ""
  | some v => J.unmarshalSlot v

/-- Decoding of what `GetState` returned as an index; the nil slice leaves the nil slice. -/
def Codec.decodeIndex (J : Codec β) : Option β → List String
  | none => []
  | some v => J.unmarshalIndex v

/-- Whether decoding what `GetState` returned as an index is an error; it is for the nil
slice. -/
def Codec.decodeIndexFails (J : Codec β) : Option β → Bool
  | none => true
  | some v => J.indexFails v

/-- The zero value of the Go struct `Slot`. -/
def Slot.zero : Slot :=
  { Id := "", StartTime := 0, EndTime := 0, Bids := [], BidDeadline := 0, DeviceId := "",
    HighestBidAmount := 0 }

/-- The zero value of the Go struct `Bid`. -/
def Bid.zero : Bid := { Id := "", SlotId := "", Amount := 0, Content := "", Username := "" }

/-- The slot left in a fresh target by decoding what `GetState` returned, the error being
discarded; the nil slice leaves the zero value. -/
def Codec.decodeSlotLeft (J : Codec β) : Option β → Slot
  | none => Slot.zero
  | some v => J.slotLeft v

/-- The bid left in a fresh target by decoding what `GetState` returned, the error being
discarded; the nil slice leaves the zero value. -/
def Codec.decodeBidLeft (J : Codec β) : Option β → Bid
  | none => Bid.zero
  | some v => J.bidLeft v

/-- The round-trip law of the encoding for the records the chaincode writes:
decoding an encoded record gives the record back. -/
structure Codec.RoundTrip (J : Codec β) : Prop where
  account : ∀ a, J.unmarshalAccount (J.marshalAccount a) = some a
  slot : ∀ s, J.unmarshalSlot (J.marshalSlot s) = .ok s
  index : ∀ l, J.unmarshalIndex (J.marshalIndex l) = l

/-- Modelled from the spec: the ledger collaborator (`shim.ChaincodeStub`), which is not
part of the sources. `state` is the key/value world state, a key never written holding
nothing: it reads as the nil slice without error, and the `NotFound` of the spec arises
when that slice is decoded. Every storage call consumes one entry of the fault schedule
`faults`, at position `clock`, and fails when that entry is `true`. A write is durable at
once. -/
structure ChaincodeStub (β : Type) where
  state : String → Option β
  faults : Nat → Bool
  clock : Nat

/-- No storage call on this stub fails. -/
def ChaincodeStub.NoFault (stub : ChaincodeStub β) : Prop := ∀ n, stub.faults n = false

/-- The function `stub.GetState(key)`: the stored bytes (nil for a key never written), or
an error. -/
def GetState (stub : ChaincodeStub β) (key : String) :
    Except String (Option β) × ChaincodeStub β :=
  if stub.faults stub.clock then
    (.error "GetState failed", { stub with clock := stub.clock + 1 })
  else
    (.ok (stub.state key), { stub with clock := stub.clock + 1 })

/-- The function `stub.PutState(key, value)`: `none` is the nil error. -/
def PutState (stub : ChaincodeStub β) (key : String) (value : β) :
    Option String × ChaincodeStub β :=
  if stub.faults stub.clock then
    (some "PutState failed", { stub with clock := stub.clock + 1 })
  else
    (none, { stub with
      state := fun k => if k = key then some value else stub.state k
      clock := stub.clock + 1 })

/-- What a chaincode function hands back: the Go pair `([]byte, error)`, or a run-time
panic (an argument index out of range). -/
inductive Reply (β : Type) where
  | ok (payload : Option β)
  | err (msg : String)
  | crash
deriving DecidableEq, Repr

/-- The call returned a nil error. -/
def Reply.isOk : Reply β → Bool
  | .ok _ => true
  | _ => false

/-! ## Utility functions (source lines 429-459) -/

/-- The function `append_id`. -/
def append_id (J : Codec β) (stub : ChaincodeStub β) (indexStr : String) (id : String)
    (create : Bool) : Except String String × ChaincodeStub β :=
  match GetState stub indexStr with
  | (.error _, stub1) => (.error ("Failed to get " ++ indexStr), stub1)
  | (.ok indexAsBytes, stub1) =>
    let tmpIndex := J.decodeIndex indexAsBytes
    let newId := if create then id ++ toString (tmpIndex.length + 1) else id
    let tmpIndex := tmpIndex ++ [newId]
    let jsonAsBytes := J.marshalIndex tmpIndex
    match PutState stub1 indexStr jsonAsBytes with
    | (some _, stub2) => (.error ("Error storing new " ++ indexStr ++ " into ledger"), stub2)
    | (none, stub2) => (.ok newId, stub2)

/-! ## Invoke functions (source lines 125-307) -/

/-- The function `add_account`. -/
def add_account (J : Codec β) (stub : ChaincodeStub β) (args : List String) :
    Reply β × ChaincodeStub β :=
  match args with
  | [] => (.crash, stub)
  | arg0 :: rest =>
    match append_id J stub accountIndexStr arg0 false with
    | (.error _, stub1) => (.err ("Error creating new id for user " ++ arg0), stub1)
    | (.ok id, stub1) =>
      match rest with
      | [] => (.crash, stub1)
      | arg1 :: _ =>
        match PutState stub1 id (J.bytes arg1) with
        | (some _, stub2) => (.err "Error putting user data on ledger", stub2)
        | (none, stub2) => (.ok none, stub2)

/-- The function `add_slot`. -/
def add_slot (J : Codec β) (stub : ChaincodeStub β) (args : List String) :
    Reply β × ChaincodeStub β :=
  match args with
  | [] => (.crash, stub)
  | arg0 :: rest =>
    match append_id J stub slotIndexStr arg0 false with
    | (.error _, stub1) => (.err ("Error creating new slot with id " ++ arg0), stub1)
    | (.ok id, stub1) =>
      match rest with
      | [] => (.crash, stub1)
      | arg1 :: _ =>
        match PutState stub1 id (J.bytes arg1) with
        | (some _, stub2) => (.err "Error putting slot on ledger", stub2)
        | (none, stub2) => (.ok none, stub2)

/-- The function `add_device`. -/
def add_device (J : Codec β) (stub : ChaincodeStub β) (args : List String) :
    Reply β × ChaincodeStub β :=
  match args with
  | [] => (.crash, stub)
  | arg0 :: rest =>
    match append_id J stub deviceIndexStr arg0 false with
    | (.error _, stub1) => (.err ("Error creating new device with id " ++ arg0), stub1)
    | (.ok id, stub1) =>
      match rest with
      | [] => (.crash, stub1)
      | arg1 :: _ =>
        match PutState stub1 id (J.bytes arg1) with
        | (some _, stub2) => (.err "Error putting device on ledger", stub2)
        | (none, stub2) => (.ok none, stub2)

/-- The function `place_bid`. -/
def place_bid (J : Codec β) (stub : ChaincodeStub β) (args : List String) :
    Reply β × ChaincodeStub β :=
  match args with
  | arg0 :: arg1 :: _ =>
    -- 0a. Unmarshal bid JSON
    match J.unmarshalBid (J.bytes arg1) with
    | none => (.err ("Failed to Unmarshal payload of ID: " ++ arg0), stub)
    | some b =>
      -- 0b. fetch account
      match GetState stub b.Username with
      | (.error _, stub1) => (.err "Could not retrieve information for this account", stub1)
      | (.ok accountBytes, stub1) =>
        match J.decodeAccount accountBytes with
        | none => (.err ("Failed to unmarshal account of " ++ b.Username), stub1)
        | some a =>
          -- 0c. Get slot
          match GetState stub1 b.SlotId with
          | (.error _, stub2) => (.err "Could not retrieve slot", stub2)
          | (.ok slotBytes, stub2) =>
            -- 0d. Unmarshal slot
            match J.decodeSlot slotBytes with
            | .error _ => (.err ("Error unmarshalling slot with ID: " ++ b.SlotId), stub2)
            | .ok s =>
              -- 0e. Check: User has enough balance
              if a.Balance < b.Amount then
                (.err "Unsufficient balance to place bid.", stub2)
              -- 0f. Check: If bid is equal or lower than highest bid amount, dismiss
              else if s.HighestBidAmount ≥ b.Amount then
                (.err "Bid is not high enough", stub2)
              else
                let s := { s with HighestBidAmount := b.Amount }
                -- 0e. Take bid amount out of balance of account
                let a := { a with Balance := sub64 a.Balance b.Amount }
                -- 1. append new bid
                match append_id J stub2 bidIndexStr b.Id false with
                | (.error _, stub3) => (.err ("Error creating new slot with id " ++ arg0), stub3)
                | (.ok id, stub3) =>
                  -- 2. put new bid to state
                  match PutState stub3 id (J.bytes arg1) with
                  | (some _, stub4) => (.err "Error putting slot on ledger", stub4)
                  | (none, stub4) =>
                    -- 3c. Append bid to bids on slot and account
                    let s := { s with Bids := s.Bids ++ [b] }
                    let a := { a with Bids := a.Bids ++ [b] }
                    -- Storing the updated slot
                    match PutState stub4 s.Id (J.marshalSlot s) with
                    | (some _, stub5) =>
                      (.err "Error putting slot back on ledger after adding bid", stub5)
                    | (none, stub5) =>
                      -- Place Account back on state
                      match PutState stub5 a.Username (J.marshalAccount a) with
                      | (some _, stub6) =>
                        (.err "Error putting Account back on ledger after placing bid", stub6)
                      | (none, stub6) => (.ok none, stub6)
  | _ => (.crash, stub)

/-- The loop `for _, bid := range s.Bids` of `payout_bid` (source lines 281-304), followed
by the final `return nil, nil`; `highest` is `s.HighestBidAmount`. -/
def payout_loop (J : Codec β) (highest : Int) :
    List Bid → ChaincodeStub β → Reply β × ChaincodeStub β
  | [], stub => (.ok none, stub)
  | bid :: rest, stub =>
    -- 3. return amounts to non-winning bid
    if bid.Amount < highest then
      -- 3a. get account
      match GetState stub bid.Username with
      | (.error _, stub1) => (.err "Could not get account while processing bid ", stub1)
      | (.ok accountAsBytes, stub1) =>
        match J.decodeAccount accountAsBytes with
        | none =>
          (.err ("Error unmarshalling account with username: " ++ bid.Username), stub1)
        | some a =>
          -- 3b. add amount back on account balance
          let a := { a with Balance := add64 a.Balance bid.Amount }
          -- 3c. Marshall & Place account back on ledger
          match PutState stub1 a.Username (J.marshalAccount a) with
          | (some _, stub2) =>
            (.err "Error putting Account back on ledger after paying back balance", stub2)
          | (none, stub2) => payout_loop J highest rest stub2
    else payout_loop J highest rest stub

/-- The function `payout_bid`. -/
def payout_bid (J : Codec β) (stub : ChaincodeStub β) (args : List String) :
    Reply β × ChaincodeStub β :=
  match args with
  | [] => (.crash, stub)
  | arg0 :: _ =>
    -- 1a. fetch slot
    match GetState stub arg0 with
    | (.error _, stub1) => (.err "Could not retrieve slot", stub1)
    | (.ok slotAsBytes, stub1) =>
      -- 1b. unmarshal slot
      match J.decodeSlot slotAsBytes with
      | .error leftId => (.err ("Error Unmarshalling slot with ID: " ++ leftId), stub1)
      | .ok s =>
        -- 2. loop through bids
        payout_loop J s.HighestBidAmount s.Bids stub1

/-- The function `Init`. -/
def Init (stub : ChaincodeStub β) (_function : String) (_args : List String) :
    Reply β × ChaincodeStub β :=
  (.ok none, stub)

/-- The function `Invoke` (source lines 80-98). -/
def Invoke (J : Codec β) (stub : ChaincodeStub β) (function : String) (args : List String) :
    Reply β × ChaincodeStub β :=
  if function = "init" then Init stub "init" args
  else if function = "add_slot" then add_slot J stub args
  else if function = "place_bid" then place_bid J stub args
  else if function = "payout_bid" then payout_bid J stub args
  else if function = "add_device" then add_device J stub args
  else if function = "add_account" then add_account J stub args
  else (.err "Received unknown invoke function name", stub)

/-! ## Query functions (source lines 104-119 and 313-403) -/

/-- The function `get_account`. -/
def get_account (stub : ChaincodeStub β) (username : String) : Reply β × ChaincodeStub β :=
  match GetState stub username with
  | (.error _, stub1) => (.err "Could not retrieve information for this user", stub1)
  | (.ok bytes, stub1) => (.ok bytes, stub1)

/-- The loop `for _, slotId := range slotIndex` of `get_all_slots` (source lines 335-342):
the slots collected, or the error of a failed read. -/
def get_all_slots_loop (J : Codec β) :
    List String → List Slot → ChaincodeStub β → Except String (List Slot) × ChaincodeStub β
  | [], slots, stub => (.ok slots, stub)
  | slotId :: rest, slots, stub =>
    match GetState stub slotId with
    | (.error _, stub1) => (.error "Not able to get slot", stub1)
    | (.ok bytes, stub1) =>
      let s := J.decodeSlotLeft bytes
      get_all_slots_loop J rest (slots ++ [s]) stub1

/-- The function `get_all_slots`. -/
def get_all_slots (J : Codec β) (stub : ChaincodeStub β) (_args : List String) :
    Reply β × ChaincodeStub β :=
  match GetState stub slotIndexStr with
  | (.error _, stub1) => (.err "Failed to get slots index", stub1)
  | (.ok slotsIndexBytes, stub1) =>
    if J.decodeIndexFails slotsIndexBytes then (.err "Could not marshal slot indexes", stub1)
    else
      match get_all_slots_loop J (J.decodeIndex slotsIndexBytes) [] stub1 with
      | (.error msg, stub2) => (.err msg, stub2)
      | (.ok slots, stub2) => (.ok (some (J.marshalSlots slots)), stub2)

/-- The loop `for _, bidId := range bidIndex` of `get_all_bids` (source lines 361-368): the
bids collected, or the error of a failed read. -/
def get_all_bids_loop (J : Codec β) :
    List String → List Bid → ChaincodeStub β → Except String (List Bid) × ChaincodeStub β
  | [], bids, stub => (.ok bids, stub)
  | bidId :: rest, bids, stub =>
    match GetState stub bidId with
    | (.error _, stub1) => (.error "Not able to get bid", stub1)
    | (.ok bytes, stub1) =>
      let b := J.decodeBidLeft bytes
      get_all_bids_loop J rest (bids ++ [b]) stub1

/-- The function `get_all_bids`. -/
def get_all_bids (J : Codec β) (stub : ChaincodeStub β) (_args : List String) :
    Reply β × ChaincodeStub β :=
  match GetState stub bidIndexStr with
  | (.error _, stub1) => (.err "Failed to get bids index", stub1)
  | (.ok bidIndexBytes, stub1) =>
    if J.decodeIndexFails bidIndexBytes then (.err "Could not marshal bid indexes", stub1)
    else
      match get_all_bids_loop J (J.decodeIndex bidIndexBytes) [] stub1 with
      | (.error msg, stub2) => (.err msg, stub2)
      | (.ok bids, stub2) => (.ok (some (J.marshalBids bids)), stub2)

/-- The function `get_slot`. -/
def get_slot (stub : ChaincodeStub β) (args : List String) : Reply β × ChaincodeStub β :=
  match args with
  | [] => (.crash, stub)
  | arg0 :: _ =>
    match GetState stub arg0 with
    | (.error _, stub1) => (.err "Error getting slot from ledger", stub1)
    | (.ok bytes, stub1) => (.ok bytes, stub1)

/-- The function `get_device`. -/
def get_device (stub : ChaincodeStub β) (args : List String) : Reply β × ChaincodeStub β :=
  match args with
  | [] => (.crash, stub)
  | arg0 :: _ =>
    match GetState stub arg0 with
    | (.error _, stub1) => (.err "Error getting device from ledger", stub1)
    | (.ok bytes, stub1) => (.ok bytes, stub1)

/-- The function `Query` (source lines 104-119); `get_account` is handed `args[1]`. -/
def Query (J : Codec β) (stub : ChaincodeStub β) (function : String) (args : List String) :
    Reply β × ChaincodeStub β :=
  if function = "get_account" then
    match args with
    | _ :: arg1 :: _ => get_account stub arg1
    | _ => (.crash, stub)
  else if function = "get_all_slots" then get_all_slots J stub args
  else if function = "get_all_bids" then get_all_bids J stub args
  else if function = "get_slot" then get_slot stub args
  else if function = "get_device" then get_device stub args
  else (.err "Received unknown query function name", stub)

/-! ## A concrete encoding, for the examples -/

/-- Stored byte strings of the concrete encoding: text as received in an argument, or an
encoded record. -/
inductive Stored where
  | text (s : String)
  | account (a : Account)
  | slot (s : Slot)
  | index (l : List String)
  | slots (l : List Slot)
  | bids (l : List Bid)
deriving DecidableEq, Repr

/-- Splits a text at every occurrence of `sep`. -/
def splitAt (sep : Char) : List Char → List (List Char)
  | [] => [[]]
  | c :: cs =>
    if c = sep then [] :: splitAt sep cs
    else
      match splitAt sep cs with
      | [] => [[c]]
      | w :: ws => (c :: w) :: ws

/-- Reads a natural number in decimal, `acc` being the value of the digits read so far. -/
def readNat (acc : Nat) : List Char → Option Nat
  | [] => some acc
  | c :: cs => if c.isDigit then readNat (10 * acc + (c.toNat - 48)) cs else none

/-- The integer if it is an `int64`. -/
def asInt64 (x : Int) : Option Int := if InInt64 x then some x else none

/-- Reads an `int64` in decimal, with an optional leading minus sign; a number outside the
range of `int64` is not read, as `encoding/json` does not decode it into an `int64`. -/
def readInt : List Char → Option Int
  | [] => none
  | '-' :: cs => if cs = [] then none else (readNat 0 cs).bind fun n => asInt64 (-(n : Int))
  | cs => (readNat 0 cs).bind fun n => asInt64 (n : Int)

/-- Reads a bid written as `id,slotId,amount,content,username`. -/
def readBid (s : String) : Option Bid :=
  match splitAt ',' s.data with
  | [id, slotId, amount, content, username] =>
    (readInt amount).map fun n =>
      { Id := String.mk id, SlotId := String.mk slotId, Amount := n,
        Content := String.mk content, Username := String.mk username }
  | _ => none

/-- Reads an account without bids written as `hash,salt,username,balance`. -/
def readAccount (s : String) : Option Account :=
  match splitAt ',' s.data with
  | [hash, salt, username, balance] =>
    (readInt balance).map fun n =>
      { Hash := String.mk hash, Salt := String.mk salt, Username := String.mk username,
        Balance := n, Bids := [] }
  | _ => none

/-- Reads a slot without bids written as `id,deviceId,highestBidAmount`, its three times
being zero. -/
def readSlot (s : String) : Option Slot :=
  match splitAt ',' s.data with
  | [id, deviceId, highest] =>
    (readInt highest).map fun n =>
      { Id := String.mk id, StartTime := 0, EndTime := 0, Bids := [], BidDeadline := 0,
        DeviceId := String.mk deviceId, HighestBidAmount := n }
  | _ => none

/-- The concrete encoding: an argument text is stored as it is and decodes as the record it
reads as; an encoded record decodes as the record of its own kind only. -/
def demoCodec : Codec Stored where
  bytes := .text
  unmarshalBid := fun v => match v with
    | .text s => readBid s
    | _ => none
  unmarshalAccount := fun v => match v with
    | .text s => readAccount s
    | .account a => some a
    | _ => none
  unmarshalSlot := fun v => match v with
    | .text s => match readSlot s with
      | some x => .ok x
      | none => .error ""
    | .slot s => .ok s
    | _ => .error ""
  unmarshalIndex := fun v => match v with
    | .index l => l
    | _ => []
  marshalSlot := .slot
  marshalAccount := .account
  marshalIndex := .index
  indexFails := fun v => match v with
    | .index _ => false
    | _ => true
  slotLeft := fun v => match v with
    | .text s => (readSlot s).getD Slot.zero
    | .slot s => s
    | _ => Slot.zero
  bidLeft := fun v => match v with
    | .text s => (readBid s).getD Bid.zero
    | _ => Bid.zero
  marshalSlots := .slots
  marshalBids := .bids

/-- A stub holding the listed records, on which no storage call fails. -/
def stubOf (records : List (String × Stored)) : ChaincodeStub Stored where
  state := fun k => (records.find? fun r => r.1 = k).map Prod.snd
  faults := fun _ => false
  clock := 0

/-! ## A second concrete encoding, reading objects as `encoding/json` does -/

/-- A JSON object as the decoders of the chaincode see it: the values of the fields that
the structs `Bid`, `Slot` and `Account` name. A field the object lacks holds the zero
value, which is what decoding into a fresh struct leaves there. A number field holds `none`
when the object gives it a value that is no `int64`: decoding into a struct with that field
then fails, and decoding into a struct without it does not look at it. -/
structure JsonObject where
  id : String
  slotId : String
  amount : Option Int
  content : String
  username : String
  hash : String
  salt : String
  balance : Option Int
  bids : List Bid
  startTime : Option Int
  endTime : Option Int
  bidDeadline : Option Int
  deviceId : String
  highestBidAmount : Option Int
deriving DecidableEq, Repr

/-- The object without fields. -/
def JsonObject.empty : JsonObject :=
  { id := "", slotId := "", amount := some 0, content := "", username := "", hash := "",
    salt := "", balance := some 0, bids := [], startTime := some 0, endTime := some 0,
    bidDeadline := some 0, deviceId := "", highestBidAmount := some 0 }

/-- Stored byte strings of the second encoding: a JSON object, a JSON array of strings, the
arrays of slots and of bids the queries return, or bytes that are no JSON value. -/
inductive Json where
  | object (o : JsonObject)
  | strings (l : List String)
  | slots (l : List Slot)
  | bids (l : List Bid)
  | invalid
deriving DecidableEq, Repr

/-- The object `o` with the field named `key` set to the value written as `value`; a key
that no struct names is skipped, as `encoding/json` skips it. -/
def JsonObject.set (o : JsonObject) (key value : List Char) : JsonObject :=
  if key = "id".data then { o with id := String.mk value }
  else if key = "slotId".data then { o with slotId := String.mk value }
  else if key = "amount".data then { o with amount := readInt value }
  else if key = "content".data then { o with content := String.mk value }
  else if key = "username".data then { o with username := String.mk value }
  else if key = "hash".data then { o with hash := String.mk value }
  else if key = "salt".data then { o with salt := String.mk value }
  else if key = "balance".data then { o with balance := readInt value }
  else if key = "startTime".data then { o with startTime := readInt value }
  else if key = "endTime".data then { o with endTime := readInt value }
  else if key = "bidDeadline".data then { o with bidDeadline := readInt value }
  else if key = "deviceId".data then { o with deviceId := String.mk value }
  else if key = "highestBidAmount".data then { o with highestBidAmount := readInt value }
  else o

/-- Reads the fields `key=value` of an object into `o`, one after the other. -/
def readFields : List (List Char) → JsonObject → Option JsonObject
  | [], o => some o
  | item :: rest, o =>
    match splitAt '=' item with
    | [key, value] => readFields rest (o.set key value)
    | _ => none

/-- Reads an argument text: `key=value;key=value` stands for the JSON object with these
fields, every other text for bytes that are no JSON value. A `bids` field cannot be
written this way. -/
def readJson (s : String) : Json :=
  match readFields (splitAt ';' s.data) JsonObject.empty with
  | some o => .object o
  | none => .invalid

/-- The `Bid` that decoding the object fills, if the `amount` field is an `int64`. -/
def JsonObject.toBid (o : JsonObject) : Option Bid :=
  o.amount.map fun n =>
    { Id := o.id, SlotId := o.slotId, Amount := n, Content := o.content,
      Username := o.username }

/-- The `Account` that decoding the object fills, if the `balance` field is an `int64`. -/
def JsonObject.toAccount (o : JsonObject) : Option Account :=
  o.balance.map fun n =>
    { Hash := o.hash, Salt := o.salt, Username := o.username, Balance := n, Bids := o.bids }

/-- The `Slot` that decoding the object leaves, a number field that is no `int64` being left
at zero. -/
def JsonObject.slotLeft (o : JsonObject) : Slot :=
  { Id := o.id, StartTime := o.startTime.getD 0, EndTime := o.endTime.getD 0, Bids := o.bids,
    BidDeadline := o.bidDeadline.getD 0, DeviceId := o.deviceId,
    HighestBidAmount := o.highestBidAmount.getD 0 }

/-- The `Slot` that decoding the object fills, if its four number fields are `int64`. -/
def JsonObject.toSlot (o : JsonObject) : Except String Slot :=
  if o.startTime.isSome ∧ o.endTime.isSome ∧ o.bidDeadline.isSome ∧ o.highestBidAmount.isSome
  then .ok o.slotLeft
  else .error o.id

/-- The second concrete encoding. Like `encoding/json` it keeps no record of the struct an
object was encoded from: every object decodes as a `Bid`, as a `Slot` and as an `Account`,
the fields the struct does not name being skipped and the fields the object lacks being
left at their zero value. An encoded struct is the object with the fields of the struct. -/
def jsonCodec : Codec Json where
  bytes := readJson
  unmarshalBid := fun v => match v with
    | .object o => o.toBid
    | _ => none
  unmarshalAccount := fun v => match v with
    | .object o => o.toAccount
    | _ => none
  unmarshalSlot := fun v => match v with
    | .object o => o.toSlot
    | _ => .error ""
  unmarshalIndex := fun v => match v with
    | .strings l => l
    | _ => []
  marshalSlot := fun s => .object
    { JsonObject.empty with
      id := s.Id, startTime := some s.StartTime, endTime := some s.EndTime, bids := s.Bids,
      bidDeadline := some s.BidDeadline, deviceId := s.DeviceId,
      highestBidAmount := some s.HighestBidAmount }
  marshalAccount := fun a => .object
    { JsonObject.empty with
      hash := a.Hash, salt := a.Salt, username := a.Username, balance := some a.Balance,
      bids := a.Bids }
  marshalIndex := .strings
  indexFails := fun v => match v with
    | .strings _ => false
    | _ => true
  slotLeft := fun v => match v with
    | .object o => o.slotLeft
    | _ => Slot.zero
  bidLeft := fun v => match v with
    | .object o =>
      { Id := o.id, SlotId := o.slotId, Amount := o.amount.getD 0, Content := o.content,
        Username := o.username }
    | _ => Bid.zero
  marshalSlots := .slots
  marshalBids := .bids

/-- A stub of the second encoding holding the listed records, on which no storage call
fails. -/
def jsonStub (records : List (String × Json)) : ChaincodeStub Json where
  state := fun k => (records.find? fun r => r.1 = k).map Prod.snd
  faults := fun _ => false
  clock := 0

/-! ## Vocabulary of the statements -/

/-- The state a successful `place_bid` leaves: the four writes, the last one on top. -/
def placedState (J : Codec β) (st : String → Option β) (arg1 : String) (b : Bid)
    (a : Account) (s : Slot) : String → Option β :=
  fun k =>
    if k = a.Username then
      some (J.marshalAccount
        { a with Balance := sub64 a.Balance b.Amount, Bids := a.Bids ++ [b] })
    else if k = s.Id then
      some (J.marshalSlot { s with HighestBidAmount := b.Amount, Bids := s.Bids ++ [b] })
    else if k = b.Id then some (J.bytes arg1)
    else if k = bidIndexStr then
      some (J.marshalIndex (J.decodeIndex (st bidIndexStr) ++ [b.Id]))
    else st k

/-- The bid is refunded by `payout_bid` to the account of `u`: it is a bid of `u` whose
amount is strictly below the slot's highest amount. -/
def Bid.refundedTo (u : String) (highest : Int) (bid : Bid) : Prop :=
  bid.Username = u ∧ bid.Amount < highest

instance (u : String) (highest : Int) (bid : Bid) : Decidable (bid.refundedTo u highest) := by
  unfold Bid.refundedTo; exact inferInstance

/-- The sum of the amounts of the bids of `u` strictly below `highest`. -/
def refundOf (u : String) (highest : Int) (bids : List Bid) : Int :=
  ((bids.filter fun bid => bid.refundedTo u highest).map fun bid => bid.Amount).sum

/-- The balance the loop of `payout_bid` computes for `u`, starting from `bal`: one `int64`
addition for each bid of `u` strictly below `highest`, in the order of the bids. -/
def refundFold (u : String) (highest : Int) (bal : Int) : List Bid → Int
  | [] => bal
  | bid :: rest =>
    refundFold u highest (if bid.refundedTo u highest then add64 bal bid.Amount else bal) rest

/-- Every record of the store that reads as an account has a balance that is not
negative. -/
def AccountsNonneg (J : Codec β) (st : String → Option β) : Prop :=
  ∀ k a, J.decodeAccount (st k) = some a → 0 ≤ a.Balance

/-- No encoded slot and no encoded index reads as an account with a negative balance. -/
structure Codec.NoNegativeStray (J : Codec β) : Prop where
  slot : ∀ s a, J.unmarshalAccount (J.marshalSlot s) = some a → 0 ≤ a.Balance
  index : ∀ l a, J.unmarshalAccount (J.marshalIndex l) = some a → 0 ≤ a.Balance

/-- The sum of the amounts of all bids strictly below `highest`. -/
def refundTotal (highest : Int) (bids : List Bid) : Int :=
  ((bids.filter fun bid => bid.Amount < highest).map fun bid => bid.Amount).sum

/-- The state left by a sequence of invocations, each given by its function name and its
arguments. -/
def invokeAll (J : Codec β) : ChaincodeStub β → List (String × List String) → ChaincodeStub β
  | stub, [] => stub
  | stub, c :: rest => invokeAll J (Invoke J stub c.1 c.2).2 rest

/-- The property `P` holds of every invocation of the sequence, on the stub the invocations
before it have left. -/
def Along (J : Codec β) (P : ChaincodeStub β → String → List String → Prop) :
    ChaincodeStub β → List (String × List String) → Prop
  | _, [] => True
  | stub, c :: rest => P stub c.1 c.2 ∧ Along J P (Invoke J stub c.1 c.2).2 rest

/-- The invocation returns without error. -/
def Succeeds (J : Codec β) (stub : ChaincodeStub β) (function : String) (args : List String) :
    Prop :=
  (Invoke J stub function args).1.isOk = true

/-- The key of the index to which a function appends an identifier. -/
def indexKey (function : String) : Option String :=
  if function = "add_slot" then some slotIndexStr
  else if function = "place_bid" then some bidIndexStr
  else if function = "add_device" then some deviceIndexStr
  else if function = "add_account" then some accountIndexStr
  else none

/-- No record that `place_bid` writes on this stub (the bid, the slot, the account) goes
under key `k`. -/
def placeAvoids (J : Codec β) (stub : ChaincodeStub β) (k : String) (args : List String) :
    Prop :=
  match args with
  | _ :: arg1 :: _ =>
    match J.unmarshalBid (J.bytes arg1) with
    | none => True
    | some b =>
      match J.decodeAccount (stub.state b.Username), J.decodeSlot (stub.state b.SlotId) with
      | some a, .ok s => k ≠ b.Id ∧ k ≠ s.Id ∧ k ≠ a.Username
      | _, _ => True
  | _ => True

/-- No account that `payout_bid` refunds on this stub is written under key `k`: the accounts
stored under the usernames of the bids below the highest amount carry another username. -/
def payoutAvoids (J : Codec β) (stub : ChaincodeStub β) (k : String) (args : List String) :
    Prop :=
  match args with
  | slotId :: _ =>
    match J.decodeSlot (stub.state slotId) with
    | .ok s =>
      ∀ bid ∈ s.Bids, bid.Amount < s.HighestBidAmount →
        match J.decodeAccount (stub.state bid.Username) with
        | some a => k ≠ a.Username
        | none => True
    | .error _ => True
  | _ => True

/-- No record that the invocation writes on this stub goes under key `k`; the write of the
index of the function's kind is not counted. -/
def RecordsAvoid (J : Codec β) (k : String) (stub : ChaincodeStub β) (function : String)
    (args : List String) : Prop :=
  if function = "place_bid" then placeAvoids J stub k args
  else if function = "payout_bid" then payoutAvoids J stub k args
  else if function = "add_slot" ∨ function = "add_device" ∨ function = "add_account" then
    args.head? ≠ some k
  else True

/-- The invocation writes nothing under key `k`, neither a record nor an index. -/
def Avoids (J : Codec β) (k : String) (stub : ChaincodeStub β) (function : String)
    (args : List String) : Prop :=
  indexKey function ≠ some k ∧ RecordsAvoid J k stub function args

instance (J : Codec β) (stub : ChaincodeStub β) (k : String) (args : List String) :
    Decidable (placeAvoids J stub k args) := by
  unfold placeAvoids
  split
  · split
    · exact inferInstance
    · split <;> exact inferInstance
  · exact inferInstance

instance (J : Codec β) (stub : ChaincodeStub β) (k : String) (args : List String) :
    Decidable (payoutAvoids J stub k args) := by
  unfold payoutAvoids
  split
  · split
    · refine @List.decidableBAll _ _ (fun bid => ?_) _
      refine @instDecidableForall _ _ _ ?_
      split <;> exact inferInstance
    · exact inferInstance
  · exact inferInstance

instance (J : Codec β) (k : String) (stub : ChaincodeStub β) (function : String)
    (args : List String) : Decidable (RecordsAvoid J k stub function args) := by
  unfold RecordsAvoid
  exact inferInstance

instance (J : Codec β) (k : String) (stub : ChaincodeStub β) (function : String)
    (args : List String) : Decidable (Avoids J k stub function args) := by
  unfold Avoids
  exact inferInstance

instance (J : Codec β) (stub : ChaincodeStub β) (function : String) (args : List String) :
    Decidable (Succeeds J stub function args) := by
  unfold Succeeds
  exact inferInstance

/-- Decidability of a decidable property along a sequence of invocations. -/
def Along.decide (J : Codec β) (P : ChaincodeStub β → String → List String → Prop)
    [∀ stub f a, Decidable (P stub f a)] :
    ∀ (stub : ChaincodeStub β) (calls : List (String × List String)),
      Decidable (Along J P stub calls)
  | _, [] => isTrue trivial
  | stub, c :: rest =>
    match (inferInstance : Decidable (P stub c.1 c.2)),
      Along.decide J P (Invoke J stub c.1 c.2).2 rest with
    | isTrue h1, isTrue h2 => isTrue ⟨h1, h2⟩
    | isFalse h1, _ => isFalse fun h => h1 h.1
    | _, isFalse h2 => isFalse fun h => h2 h.2

instance (J : Codec β) (P : ChaincodeStub β → String → List String → Prop)
    [∀ stub f a, Decidable (P stub f a)] (stub : ChaincodeStub β)
    (calls : List (String × List String)) : Decidable (Along J P stub calls) :=
  Along.decide J P stub calls

/-- The identifier an invocation stores a record under and appends to the index of its
kind: the first argument of `add_account`, `add_slot` and `add_device`, the `Id` of the
decoded bid of `place_bid`. -/
def storedId (J : Codec β) (function : String) (args : List String) : Option String :=
  if function = "place_bid" then
    match args with
    | _ :: arg1 :: _ => (J.unmarshalBid (J.bytes arg1)).map fun b => b.Id
    | _ => none
  else args.head?

/-- What an invocation appends to the index stored under `ik`. -/
def appended (J : Codec β) (ik : String) (function : String) (args : List String) :
    List String :=
  if indexKey function = some ik then (storedId J function args).toList else []

/-- The identifiers a sequence of invocations appends to the index stored under `ik`, in the
order of the invocations. -/
def idsFor (J : Codec β) (ik : String) : List (String × List String) → List String
  | [] => []
  | c :: rest => appended J ik c.1 c.2 ++ idsFor J ik rest

/-- The four index keys. -/
def indexKeys : List String := [accountIndexStr, slotIndexStr, bidIndexStr, deviceIndexStr]

/-- The maximum of the amounts of the bids, zero when there is none. -/
def maxAmount : List Bid → Int
  | [] => 0
  | [bid] => bid.Amount
  | bid :: rest => max bid.Amount (maxAmount rest)

/-- The record under `sid` is a slot stored under its own id whose highest bid amount is the
maximum of the amounts of its bids. -/
def SlotTracksMax (J : Codec β) (st : String → Option β) (sid : String) : Prop :=
  ∃ s, J.decodeSlot (st sid) = .ok s ∧ s.Id = sid ∧ s.HighestBidAmount = maxAmount s.Bids

/-- The arguments are those of a `place_bid` on the slot `sid` by an account that is not
itself written under `sid`. -/
def placeOnSlot (J : Codec β) (stub : ChaincodeStub β) (sid : String) (args : List String) :
    Prop :=
  match args with
  | _ :: arg1 :: _ =>
    match J.unmarshalBid (J.bytes arg1) with
    | none => False
    | some b =>
      b.SlotId = sid ∧
        match J.decodeAccount (stub.state b.Username) with
        | some a => sid ≠ a.Username
        | none => True
  | _ => False

/-- The invocation collides with no key of the slot `sid`: it writes nothing under `sid`, or
it is a `place_bid` on that slot whose account goes under another key. -/
def SlotCall (J : Codec β) (sid : String) (stub : ChaincodeStub β) (function : String)
    (args : List String) : Prop :=
  Avoids J sid stub function args ∨ (function = "place_bid" ∧ placeOnSlot J stub sid args)

instance (J : Codec β) (stub : ChaincodeStub β) (sid : String) (args : List String) :
    Decidable (placeOnSlot J stub sid args) := by
  unfold placeOnSlot
  split
  · split
    · exact inferInstance
    · refine @instDecidableAnd _ _ _ ?_
      split <;> exact inferInstance
  · exact inferInstance

instance (J : Codec β) (sid : String) (stub : ChaincodeStub β) (function : String)
    (args : List String) : Decidable (SlotCall J sid stub function args) := by
  unfold SlotCall
  exact inferInstance

/-- The number of bids strictly below `highest`: the refunds a payout attempts. -/
def countBelow (highest : Int) (bids : List Bid) : Nat :=
  (bids.filter fun bid => bid.Amount < highest).length

/-- The bids of the slot are strictly increasing in amount and the amount of the last one is
the slot's highest bid amount; without bids, the highest bid amount is not negative. -/
def SlotIncreasing (s : Slot) : Prop :=
  (s.Bids.map fun bid => bid.Amount).Pairwise (· < ·) ∧
    match s.Bids.getLast? with
    | some last => last.Amount = s.HighestBidAmount
    | none => 0 ≤ s.HighestBidAmount

instance (s : Slot) : Decidable (SlotIncreasing s) := by
  unfold SlotIncreasing
  refine @instDecidableAnd _ _ inferInstance ?_
  split <;> exact inferInstance

/-- The balance of the account stored under `u`, zero when no account decodes there. -/
def balanceAt (J : Codec β) (st : String → Option β) (u : String) : Int :=
  match J.decodeAccount (st u) with
  | some a => a.Balance
  | none => 0

/-- The sum of the balances of the accounts stored under the keys `us`. -/
def totalBalance (J : Codec β) (st : String → Option β) (us : List String) : Int :=
  (us.map (balanceAt J st)).sum

/-- The bid that `place_bid` decodes from its arguments. -/
def bidOf (J : Codec β) (args : List String) : Option Bid :=
  match args with
  | _ :: arg1 :: _ => J.unmarshalBid (J.bytes arg1)
  | _ => none

/-- The arguments are those of a bid on the slot `sid` by one of the accounts stored under
the keys `us`, with an id that is none of these keys. -/
def BidOn (J : Codec β) (sid : String) (us : List String) (args : List String) : Prop :=
  match bidOf J args with
  | some b => b.SlotId = sid ∧ b.Username ∈ us ∧ b.Id ∉ us
  | none => False

instance (J : Codec β) (sid : String) (us : List String) (args : List String) :
    Decidable (BidOn J sid us args) := by
  unfold BidOn
  split <;> exact inferInstance

/-- An auction on the slot `sid`: the `place_bid` invocations with the given arguments, then
one `payout_bid` of the slot. -/
def auctionOn (sid : String) (bidCalls : List (List String)) : List (String × List String) :=
  bidCalls.map (fun args => ("place_bid", args)) ++ [("payout_bid", [sid])]

/-- The sum of the amounts of the bids of `u`: what the bids have debited from `u`. -/
def owed (u : String) (bids : List Bid) : Int :=
  ((bids.filter fun bid => bid.Username = u).map fun bid => bid.Amount).sum

/-- The state of a running auction on the slot `sid` with the accepted bids `bids`: the slot
is stored under its own id with these bids, strictly increasing, and a highest amount of
zero before the first bid; every bid has a positive amount and a bidder among `us`; every
key of `us` holds an account with that username and a balance that is not negative, which
together with the amounts of its bids is the balance `start u`. -/
def Escrow (J : Codec β) (us : List String) (sid : String) (start : String → Int)
    (st : String → Option β) (bids : List Bid) : Prop :=
  (∃ s, J.decodeSlot (st sid) = .ok s ∧ s.Id = sid ∧ s.Bids = bids ∧ SlotIncreasing s ∧
    (bids = [] → s.HighestBidAmount = 0)) ∧
  (∀ bid ∈ bids, 0 < bid.Amount ∧ bid.Username ∈ us) ∧
  (∀ u ∈ us, ∃ a, J.decodeAccount (st u) = some a ∧ a.Username = u ∧ 0 ≤ a.Balance ∧
    a.Balance + owed u bids = start u)

/-- Every refund that the loop of `payout_bid` writes on this stub has a sum, of the balance
it reads and the amount it adds, that is not negative and fits in `int64`. The loop is
followed as far as it runs: nothing is asked of a bid below the highest amount whose
account is not read or decoded, whose refund is not written, or which the loop does not
reach. -/
def refundsFit (J : Codec β) (highest : Int) : List Bid → ChaincodeStub β → Bool
  | [], _ => true
  | bid :: rest, stub =>
    if bid.Amount < highest then
      match GetState stub bid.Username with
      | (.error _, _) => true
      | (.ok accountAsBytes, stub1) =>
        match J.decodeAccount accountAsBytes with
        | none => true
        | some a =>
          match PutState stub1 a.Username
            (J.marshalAccount { a with Balance := add64 a.Balance bid.Amount }) with
          | (some _, _) => true
          | (none, stub2) =>
            decide (0 ≤ a.Balance + bid.Amount ∧
                a.Balance + bid.Amount ≤ 9223372036854775807) &&
              refundsFit J highest rest stub2
    else refundsFit J highest rest stub

/-- Every refund that `payout_bid` writes on this stub, called with these arguments, has a
sum, of the balance it reads and the amount it adds, that is not negative and fits in
`int64`. -/
def payoutFits (J : Codec β) (stub : ChaincodeStub β) (args : List String) : Bool :=
  match args with
  | [] => true
  | arg0 :: _ =>
    match GetState stub arg0 with
    | (.error _, _) => true
    | (.ok slotAsBytes, stub1) =>
      match J.decodeSlot slotAsBytes with
      | .error _ => true
      | .ok s => refundsFit J s.HighestBidAmount s.Bids stub1

/-- The balance after crediting to `bal`, in `int64` arithmetic, the amount of every bid of
`u` in the list, in the order of the bids. -/
def creditFold (u : String) (bal : Int) : List Bid → Int
  | [] => bal
  | bid :: rest => creditFold u (if bid.Username = u then add64 bal bid.Amount else bal) rest

/-! ## Example records and stores -/

/-- An account without bids, with empty hash and salt. -/
def mkAccount (username : String) (balance : Int) : Account :=
  { Hash := "", Salt := "", Username := username, Balance := balance, Bids := [] }

/-- A slot whose times and device are left at their zero values. -/
def mkSlot (id : String) (bids : List Bid) (highest : Int) : Slot :=
  { Id := id, StartTime := 0, EndTime := 0, Bids := bids, BidDeadline := 0, DeviceId := "",
    HighestBidAmount := highest }

/-- A bid with empty content. -/
def mkBid (id slotId : String) (amount : Int) (username : String) : Bid :=
  { Id := id, SlotId := slotId, Amount := amount, Content := "", Username := username }

/-- Scenario A of the spec: alice holds 100 and slot `s1` has no bid yet. -/
def scenarioA : ChaincodeStub Stored :=
  stubOf [("alice", .account (mkAccount "alice" 100)), ("bob", .account (mkAccount "bob" 100)),
    ("s1", .slot (mkSlot "s1" [] 0))]

/-- A store in which alice holds the largest `int64` and the slot `s1` was stored with a
negative highest bid amount. -/
def richStore : ChaincodeStub Stored :=
  stubOf [("alice", .account (mkAccount "alice" 9223372036854775807)),
    ("s1", .slot (mkSlot "s1" [] (-2)))]

/-- A store whose slot `s1` was stored with a negative highest bid amount. -/
def negativeSlotStore : ChaincodeStub Stored :=
  stubOf [("alice", .account (mkAccount "alice" 0)), ("s1", .slot (mkSlot "s1" [] (-10)))]

/-- The slot `s1` of scenario C of the spec. -/
def slotC : Slot := mkSlot "s1" [mkBid "b1" "s1" 50 "alice", mkBid "b2" "s1" 80 "bob"] 80

/-- Scenario C of the spec: alice has bid 50 and bob 80 on slot `s1`. -/
def scenarioC : ChaincodeStub Stored :=
  stubOf [("alice", .account { mkAccount "alice" 50 with Bids := [mkBid "b1" "s1" 50 "alice"] }),
    ("bob", .account { mkAccount "bob" 20 with Bids := [mkBid "b2" "s1" 80 "bob"] }),
    ("s1", .slot slotC)]

/-- A slot on which alice lost with a bid of 1. -/
def slotNearMax : Slot := mkSlot "s1" [mkBid "b1" "s1" 1 "alice", mkBid "b2" "s1" 5 "bob"] 5

/-- A store in which alice holds `2^63 - 2` and lost on `slotNearMax`. -/
def nearMaxStore : ChaincodeStub Stored :=
  stubOf [("alice", .account (mkAccount "alice" 9223372036854775806)),
    ("bob", .account (mkAccount "bob" 0)), ("s1", .slot slotNearMax)]

/-- A slot, stored as it is by `add_slot`, whose two losing bids of alice have amounts 5
and -5. -/
def slotCancel : Slot :=
  mkSlot "s1"
    [mkBid "b1" "s1" 5 "alice", mkBid "b2" "s1" (-5) "alice", mkBid "b3" "s1" 10 "bob"] 10

/-- A store in which alice holds 7 and lost twice on `slotCancel`. -/
def cancelStore : ChaincodeStub Stored :=
  stubOf [("alice", .account (mkAccount "alice" 7)), ("bob", .account (mkAccount "bob" 0)),
    ("s1", .slot slotCancel)]

/-- A slot on which alice lost with a bid of 1 and bob won with 5. -/
def slotAtMax : Slot := mkSlot "s1" [mkBid "b1" "s1" 1 "alice", mkBid "b2" "s1" 5 "bob"] 5

/-- A store in which alice holds the largest `int64` and lost on `slotAtMax`. -/
def atMaxStore : ChaincodeStub Stored :=
  stubOf [("alice", .account (mkAccount "alice" 9223372036854775807)),
    ("bob", .account (mkAccount "bob" 0)), ("s1", .slot slotAtMax)]

/-- Invocations after alice's first bid in scenario A: a new account, bob's bid of 80 and
the payout of the slot. -/
def laterCalls : List (String × List String) :=
  [("add_account", ["carol", "h,s,carol,10"]), ("place_bid", ["b2", "b2,s1,80,,bob"]),
    ("payout_bid", ["s1"])]

/-- The empty store. -/
def emptyStub : ChaincodeStub Stored := stubOf []

/-- The set-up of scenario A from the empty store, followed by alice's bid. -/
def setupCalls : List (String × List String) :=
  [("add_account", ["alice", "h,s,alice,100"]), ("add_slot", ["s1", "s1,,0"]),
    ("add_account", ["bob", "h,s,bob,100"]), ("place_bid", ["b1", "b1,s1,50,,alice"])]

/-- The auction of the spec's scenarios on slot `s1`: alice bids 50, bob bids 80, and the
slot is paid out. -/
def auctionCalls : List (String × List String) :=
  [("place_bid", ["b1", "b1,s1,50,,alice"]), ("place_bid", ["b2", "b2,s1,80,,bob"]),
    ("payout_bid", ["s1"])]

/-- A store whose account index lists alice and bob. -/
def indexedStub : ChaincodeStub Stored :=
  stubOf [(accountIndexStr, .index ["alice", "bob"])]

/-- Scenario A on a ledger whose seventh storage call fails: in alice's first bid this is
the write of the account. -/
def scenarioAFailing : ChaincodeStub Stored :=
  { scenarioA with faults := fun n => decide (n = 6) }

/-- The account stored under `k1` in `misKeyedStore`: its username field is `u1`. -/
def strayAccount : Account := mkAccount "u1" 100

/-- The slot stored under `s1` in `misKeyedStore`: its id field is `s2`, and it holds a
losing bid of 1 by `k1` and a winning bid of 5 by bob. -/
def straySlot : Slot := mkSlot "s2" [mkBid "b1" "s1" 1 "k1", mkBid "b2" "s1" 5 "bob"] 5

/-- A store with an account stored under a key other than its username and a slot stored
under a key other than its id; the key `u1` holds carol's account. -/
def misKeyedStore : ChaincodeStub Stored :=
  stubOf [("k1", .account strayAccount), ("u1", .account (mkAccount "carol" 7)),
    ("bob", .account (mkAccount "bob" 0)), ("s1", .slot straySlot)]

/-- A slot with losing bids of 1 by `x` and of 2 by `y`, and a winning bid of 5 by bob. -/
def slotXY : Slot :=
  mkSlot "s1" [mkBid "b1" "s1" 1 "x", mkBid "b2" "s1" 2 "y", mkBid "b3" "s1" 5 "bob"] 5

/-- A store in which the key `x` holds an account whose username field is `y`, and nothing
is stored under `y`. -/
def chainedStore : ChaincodeStub Stored :=
  stubOf [("x", .account (mkAccount "y" 10)), ("bob", .account (mkAccount "bob" 0)),
    ("s1", .slot slotXY)]

/-- A slot with losing bids of 1 by alice and of 2 by carol, and a winning bid of 5 by
bob. -/
def slotAbort : Slot :=
  mkSlot "s1" [mkBid "b1" "s1" 1 "alice", mkBid "b2" "s1" 2 "carol", mkBid "b3" "s1" 5 "bob"] 5

/-- A store with accounts of alice and bob and none of carol. -/
def abortStore : ChaincodeStub Stored :=
  stubOf [("alice", .account (mkAccount "alice" 10)), ("bob", .account (mkAccount "bob" 0)),
    ("s1", .slot slotAbort)]

/-- The store `abortStore` on a ledger whose third storage call fails: in a payout of `s1`
this is the write of alice's refund. -/
def abortStoreFailing : ChaincodeStub Stored :=
  { abortStore with faults := fun n => decide (n = 2) }

/-- The set-up of a store through the invocations of the chaincode in which the slot added
under the key `s1` carries the id `s2`. -/
def otherIdSetup : List (String × List String) :=
  [("add_account", ["alice", ",,alice,100"]), ("add_slot", ["s1", "s2,,0"])]

/-- The store `otherIdSetup` leaves from the empty store. -/
def otherIdStore : ChaincodeStub Stored := invokeAll demoCodec emptyStub otherIdSetup

/-- A slot, stored as it is by `add_slot`, on which alice lost with a bid of -5. -/
def slotNegative : Slot :=
  mkSlot "s1" [mkBid "b1" "s1" (-5) "alice", mkBid "b2" "s1" 10 "bob"] 10

/-- A store in which alice holds 3 and lost on `slotNegative`. -/
def negativeRefundStore : ChaincodeStub Stored :=
  stubOf [("alice", .account (mkAccount "alice" 3)), ("bob", .account (mkAccount "bob" 0)),
    ("s1", .slot slotNegative)]

/-- Scenario C with a third account, carol, who holds the largest `int64` and has no bid. -/
def bystanderStore : ChaincodeStub Stored :=
  stubOf [("alice", .account { mkAccount "alice" 50 with Bids := [mkBid "b1" "s1" 50 "alice"] }),
    ("bob", .account { mkAccount "bob" 20 with Bids := [mkBid "b2" "s1" 80 "bob"] }),
    ("carol", .account (mkAccount "carol" 9223372036854775807)), ("s1", .slot slotC)]

/-- Scenario C of the spec in the second encoding, with the record of alice's bid and the
index of the bids. -/
def scenarioCJson : ChaincodeStub Json :=
  jsonStub
    [("alice", jsonCodec.marshalAccount
        { mkAccount "alice" 50 with Bids := [mkBid "b1" "s1" 50 "alice"] }),
      ("bob", jsonCodec.marshalAccount
        { mkAccount "bob" 20 with Bids := [mkBid "b2" "s1" 80 "bob"] }),
      ("s1", jsonCodec.marshalSlot slotC),
      ("b1", readJson "id=b1;slotId=s1;amount=50;username=alice"),
      (bidIndexStr, .strings ["b1", "b2"])]

/-- The bids of the record `slotAndAccount`: a losing bid of 50 in the name of `s1` and a
winning bid of 80 by bob. -/
def bidsOnOwnKey : List Bid := [mkBid "b1" "s1" 50 "s1", mkBid "b2" "s1" 80 "bob"]

/-- A JSON object with the fields of a slot and of an account: id `s1`, highest bid amount
80 and the bids `bidsOnOwnKey`, username `s1` and balance 5. -/
def slotAndAccount : JsonObject :=
  { JsonObject.empty with
    id := "s1", username := "s1", balance := some 5, bids := bidsOnOwnKey,
    highestBidAmount := some 80 }

/-- A store holding `slotAndAccount` under the key `s1` and bob's account under `bob`. -/
def doubleStore : ChaincodeStub Json :=
  jsonStub [("s1", .object slotAndAccount),
    ("bob", jsonCodec.marshalAccount (mkAccount "bob" 20))]

/-- A store of the second encoding in which the account stored under `k1` has the username
field `s1`, which is the key and the id of the slot. -/
def slotNamedJson : ChaincodeStub Json :=
  jsonStub [("k1", jsonCodec.marshalAccount (mkAccount "s1" 100)),
    ("s1", jsonCodec.marshalSlot (mkSlot "s1" [] 0))]

/-- The store `slotNamedJson` in the first encoding. -/
def slotNamedStore : ChaincodeStub Stored :=
  stubOf [("k1", .account (mkAccount "s1" 100)), ("s1", .slot (mkSlot "s1" [] 0))]

/-- Scenario A of the spec in the second encoding: alice holds 100 and slot `s1` has no bid
yet. -/
def scenarioAJson : ChaincodeStub Json :=
  jsonStub [("alice", jsonCodec.marshalAccount (mkAccount "alice" 100)),
    ("s1", jsonCodec.marshalSlot (mkSlot "s1" [] 0))]

/-! ## Basic facts -/

theorem wrap64_of_inInt64 {x : Int} (h : InInt64 x) : wrap64 x = x := by
  unfold InInt64 at h
  unfold wrap64
  omega

theorem demoCodec_roundTrip : demoCodec.RoundTrip :=
  ⟨fun _ => rfl, fun _ => rfl, fun _ => rfl⟩

theorem GetState_of_noFault {stub : ChaincodeStub β} (h : stub.NoFault) (key : String) :
    GetState stub key = (.ok (stub.state key), { stub with clock := stub.clock + 1 }) := by
  simp [GetState, h stub.clock]

theorem PutState_of_noFault {stub : ChaincodeStub β} (h : stub.NoFault) (key : String)
    (value : β) :
    PutState stub key value =
      (none, { stub with
        state := fun k => if k = key then some value else stub.state k
        clock := stub.clock + 1 }) := by
  simp [PutState, h stub.clock]

/-- What `place_bid` does when nothing fails and both amount checks pass. -/
theorem place_bid_accept (J : Codec β) (stub : ChaincodeStub β) (arg0 arg1 : String)
    (rest : List String) (b : Bid) (a : Account) (s : Slot)
    (hf : stub.NoFault)
    (hb : J.unmarshalBid (J.bytes arg1) = some b)
    (ha : J.decodeAccount (stub.state b.Username) = some a)
    (hs : J.decodeSlot (stub.state b.SlotId) = .ok s)
    (hbal : b.Amount ≤ a.Balance) (hhigh : s.HighestBidAmount < b.Amount) :
    place_bid J stub (arg0 :: arg1 :: rest) =
      (.ok none,
        { state := placedState J stub.state arg1 b a s
          faults := stub.faults
          clock := stub.clock + 7 }) := by
  have hf' : ∀ n, stub.faults n = false := hf
  have hbal' : ¬ a.Balance < b.Amount := not_lt.mpr hbal
  have hhigh' : ¬ s.HighestBidAmount ≥ b.Amount := not_le.mpr hhigh
  simp only [place_bid, hb, GetState, hf', ha, hs, hbal', hhigh', append_id, PutState,
    Bool.false_eq_true, if_false, placedState, Nat.add_assoc, Nat.reduceAdd]
  rfl

/-- Whatever the fault schedule, a `place_bid` that returns without error has decoded the
bid, the account and the slot, passed both amount checks and made its four writes. -/
theorem place_bid_ok_inv (J : Codec β) (stub : ChaincodeStub β) (args : List String)
    (v : Option β) (h : (place_bid J stub args).1 = .ok v) :
    ∃ arg0 arg1 rest b a s, args = arg0 :: arg1 :: rest ∧
      J.unmarshalBid (J.bytes arg1) = some b ∧
      J.decodeAccount (stub.state b.Username) = some a ∧
      J.decodeSlot (stub.state b.SlotId) = .ok s ∧
      b.Amount ≤ a.Balance ∧ s.HighestBidAmount < b.Amount ∧
      (place_bid J stub args).2.state = placedState J stub.state arg1 b a s ∧
      (place_bid J stub args).2.faults = stub.faults := by
  match args with
  | [] => simp [place_bid] at h
  | [_] => simp [place_bid] at h
  | arg0 :: arg1 :: rest =>
    refine ⟨arg0, arg1, rest, ?_⟩
    cases hb : J.unmarshalBid (J.bytes arg1) with
    | none => simp [place_bid, hb] at h
    | some b =>
    by_cases f0 : stub.faults stub.clock = true
    · simp [place_bid, hb, GetState, f0] at h
    cases ha : J.decodeAccount (stub.state b.Username) with
    | none => simp [place_bid, hb, GetState, f0, ha] at h
    | some a =>
    by_cases f1 : stub.faults (stub.clock + 1) = true
    · simp [place_bid, hb, GetState, f0, ha, f1] at h
    cases hs : J.decodeSlot (stub.state b.SlotId) with
    | error e => simp [place_bid, hb, GetState, f0, ha, f1, hs] at h
    | ok s =>
    by_cases hbal : a.Balance < b.Amount
    · simp [place_bid, hb, GetState, f0, ha, f1, hs, hbal] at h
    by_cases hhigh : s.HighestBidAmount ≥ b.Amount
    · simp [place_bid, hb, GetState, f0, ha, f1, hs, hbal, hhigh] at h
    by_cases f2 : stub.faults (stub.clock + 1 + 1) = true
    · simp [place_bid, hb, GetState, f0, ha, f1, hs, hbal, hhigh, append_id, f2] at h
    by_cases f3 : stub.faults (stub.clock + 1 + 1 + 1) = true
    · simp [place_bid, hb, GetState, f0, ha, f1, hs, hbal, hhigh, append_id, f2, PutState,
        f3] at h
    by_cases f4 : stub.faults (stub.clock + 1 + 1 + 1 + 1) = true
    · simp [place_bid, hb, GetState, f0, ha, f1, hs, hbal, hhigh, append_id, f2, PutState,
        f3, f4] at h
    by_cases f5 : stub.faults (stub.clock + 1 + 1 + 1 + 1 + 1) = true
    · simp [place_bid, hb, GetState, f0, ha, f1, hs, hbal, hhigh, append_id, f2, PutState,
        f3, f4, f5] at h
    by_cases f6 : stub.faults (stub.clock + 1 + 1 + 1 + 1 + 1 + 1) = true
    · simp [place_bid, hb, GetState, f0, ha, f1, hs, hbal, hhigh, append_id, f2, PutState,
        f3, f4, f5, f6] at h
    simp only [Bool.not_eq_true] at f0 f1 f2 f3 f4 f5 f6
    refine ⟨b, a, s, rfl, rfl, ha, hs, not_lt.mp hbal, not_le.mp hhigh, ?_, ?_⟩
    · simp only [place_bid, hb, GetState, f0, ha, f1, hs, hbal, hhigh, append_id, f2,
        PutState, f3, f4, f5, f6, if_false, Bool.false_eq_true]
      rfl
    · simp only [place_bid, hb, GetState, f0, ha, f1, hs, hbal, hhigh, append_id, f2,
        PutState, f3, f4, f5, f6, if_false, Bool.false_eq_true]

/-! ## `place_bid` -/

/-- C1 (as stated, refuted): with balance `2^63 - 1`, a slot stored with highest bid amount
`-2` and a bid of `-1`, every premise of the claim holds and `place_bid` succeeds, but the
stored balance is `-2^63`, not `old balance - bid.amount`. -/
theorem place_bid_debit_overflow :
    demoCodec.unmarshalBid (demoCodec.bytes "b1,s1,-1,,alice") = some (mkBid "b1" "s1" (-1) "alice") ∧
    demoCodec.decodeAccount (richStore.state "alice")
      = some (mkAccount "alice" 9223372036854775807) ∧
    demoCodec.decodeSlot (richStore.state "s1") = .ok (mkSlot "s1" [] (-2)) ∧
    (place_bid demoCodec richStore ["b1", "b1,s1,-1,,alice"]).1 = .ok none ∧
    demoCodec.decodeAccount
        ((place_bid demoCodec richStore ["b1", "b1,s1,-1,,alice"]).2.state "alice")
      = some { mkAccount "alice" (-9223372036854775808) with
          Bids := [mkBid "b1" "s1" (-1) "alice"] } ∧
    (-9223372036854775808 : Int) ≠ 9223372036854775807 - (-1) := by
  decide

/-- C1 (amended): when the account and the slot are stored under the bid's username and
slot id, the four keys are pairwise distinct, both amount checks pass and no storage call
fails, `place_bid` succeeds and leaves (i) the account with the bid appended and the balance
`old balance - bid.amount` computed in `int64`, which is the exact difference whenever that
difference is in the range of `int64`, (ii) the slot with the new highest amount and the bid
appended, (iii) the payload under the bid's id, and (iv) the bid index extended by the bid's
id. -/
theorem place_bid_success_post (J : Codec β) (hJ : J.RoundTrip) (stub : ChaincodeStub β)
    (arg0 arg1 : String) (rest : List String) (b : Bid) (a : Account) (s : Slot)
    (hf : stub.NoFault)
    (hb : J.unmarshalBid (J.bytes arg1) = some b)
    (ha : J.decodeAccount (stub.state b.Username) = some a)
    (hau : a.Username = b.Username)
    (hs : J.decodeSlot (stub.state b.SlotId) = .ok s)
    (hsi : s.Id = b.SlotId)
    (hk1 : b.Id ≠ b.SlotId) (hk2 : b.Id ≠ b.Username) (hk3 : b.Id ≠ bidIndexStr)
    (hk4 : b.SlotId ≠ b.Username) (hk5 : b.SlotId ≠ bidIndexStr)
    (hk6 : b.Username ≠ bidIndexStr)
    (hbal : a.Balance ≥ b.Amount) (hhigh : b.Amount > s.HighestBidAmount) :
    (place_bid J stub (arg0 :: arg1 :: rest)).1 = .ok none ∧
    J.decodeAccount ((place_bid J stub (arg0 :: arg1 :: rest)).2.state b.Username)
      = some { a with Balance := sub64 a.Balance b.Amount, Bids := a.Bids ++ [b] } ∧
    (InInt64 (a.Balance - b.Amount) → sub64 a.Balance b.Amount = a.Balance - b.Amount) ∧
    J.decodeSlot ((place_bid J stub (arg0 :: arg1 :: rest)).2.state b.SlotId)
      = .ok { s with HighestBidAmount := b.Amount, Bids := s.Bids ++ [b] } ∧
    (place_bid J stub (arg0 :: arg1 :: rest)).2.state b.Id = some (J.bytes arg1) ∧
    J.decodeIndex ((place_bid J stub (arg0 :: arg1 :: rest)).2.state bidIndexStr)
      = J.decodeIndex (stub.state bidIndexStr) ++ [b.Id] := by
  rw [place_bid_accept J stub arg0 arg1 rest b a s hf hb ha hs hbal hhigh]
  refine ⟨rfl, ?_, fun hov => wrap64_of_inInt64 hov, ?_, ?_, ?_⟩
  · simp [placedState, hau, Codec.decodeAccount, hJ.account]
  · simp [placedState, hau, hsi, hk4, Codec.decodeSlot, hJ.slot]
  · simp [placedState, hau, hsi, hk1, hk2]
  · simp [placedState, hau, hsi, hk5.symm, hk6.symm, hk3.symm, Codec.decodeIndex, hJ.index]

/-- C1 (witness): scenario A of the spec, alice bidding 50 on the empty slot `s1`. -/
theorem place_bid_success_post_witness :
    (place_bid demoCodec scenarioA ["b1", "b1,s1,50,,alice"]).1 = .ok none ∧
    demoCodec.decodeAccount
        ((place_bid demoCodec scenarioA ["b1", "b1,s1,50,,alice"]).2.state "alice")
      = some { mkAccount "alice" 100 with
          Balance := sub64 100 50, Bids := [] ++ [mkBid "b1" "s1" 50 "alice"] } ∧
    (InInt64 (100 - 50) → sub64 100 50 = 100 - 50) ∧
    demoCodec.decodeSlot
        ((place_bid demoCodec scenarioA ["b1", "b1,s1,50,,alice"]).2.state "s1")
      = .ok { mkSlot "s1" [] 0 with
          HighestBidAmount := 50, Bids := [] ++ [mkBid "b1" "s1" 50 "alice"] } ∧
    (place_bid demoCodec scenarioA ["b1", "b1,s1,50,,alice"]).2.state "b1"
      = some (demoCodec.bytes "b1,s1,50,,alice") ∧
    demoCodec.decodeIndex
        ((place_bid demoCodec scenarioA ["b1", "b1,s1,50,,alice"]).2.state bidIndexStr)
      = demoCodec.decodeIndex (scenarioA.state bidIndexStr) ++ ["b1"] :=
  place_bid_success_post demoCodec demoCodec_roundTrip scenarioA "b1" "b1,s1,50,,alice" []
    (mkBid "b1" "s1" 50 "alice") (mkAccount "alice" 100) (mkSlot "s1" [] 0)
    (fun _ => rfl) (by decide) (by decide) (by decide) (by decide) (by decide)
    (by decide) (by decide) (by decide) (by decide) (by decide) (by decide)
    (by decide) (by decide)

/-- C2: when the bid, its account and its slot decode and no storage call fails, `place_bid`
returns success exactly when `account.balance >= bid.amount` and
`bid.amount > slot.highestBidAmount`; a tie with the highest amount is rejected, and a bid
of the whole balance that beats the highest amount is accepted. -/
theorem place_bid_accepted_iff (J : Codec β) (stub : ChaincodeStub β) (arg0 arg1 : String)
    (rest : List String) (b : Bid) (a : Account) (s : Slot)
    (hf : stub.NoFault)
    (hb : J.unmarshalBid (J.bytes arg1) = some b)
    (ha : J.decodeAccount (stub.state b.Username) = some a)
    (hs : J.decodeSlot (stub.state b.SlotId) = .ok s) :
    ((place_bid J stub (arg0 :: arg1 :: rest)).1 = .ok none ↔
      (a.Balance ≥ b.Amount ∧ b.Amount > s.HighestBidAmount)) ∧
    (b.Amount = s.HighestBidAmount →
      ∃ msg, (place_bid J stub (arg0 :: arg1 :: rest)).1 = .err msg) ∧
    (b.Amount = a.Balance → b.Amount > s.HighestBidAmount →
      (place_bid J stub (arg0 :: arg1 :: rest)).1 = .ok none) := by
  have hiff : (place_bid J stub (arg0 :: arg1 :: rest)).1 = .ok none ↔
      (a.Balance ≥ b.Amount ∧ b.Amount > s.HighestBidAmount) := by
    constructor
    · intro h
      obtain ⟨_, arg1', _, b', a', s', hargs, hb', ha', hs', h1, h2, _⟩ :=
        place_bid_ok_inv J stub _ _ h
      have e1 : arg1' = arg1 := by
        have := List.cons.inj hargs
        exact ((List.cons.inj this.2).1).symm
      subst e1
      rw [hb] at hb'
      cases hb'
      rw [ha] at ha'
      rw [hs] at hs'
      cases ha'
      cases hs'
      exact ⟨h1, h2⟩
    · rintro ⟨h1, h2⟩
      rw [place_bid_accept J stub arg0 arg1 rest b a s hf hb ha hs h1 h2]
  refine ⟨hiff, ?_, ?_⟩
  · intro htie
    have hf' : ∀ n, stub.faults n = false := hf
    by_cases hbal : a.Balance < b.Amount
    · exact ⟨_, by simp [place_bid, hb, GetState, hf', ha, hs, hbal]; rfl⟩
    · have hge : s.HighestBidAmount ≥ b.Amount := le_of_eq htie
      exact ⟨_, by simp [place_bid, hb, GetState, hf', ha, hs, hbal, hge]; rfl⟩
  · intro hall hhigh
    exact hiff.mpr ⟨le_of_eq hall, hhigh⟩

/-- C2 (witness): in scenario A, alice's bid of her whole balance of 100 is accepted. -/
theorem place_bid_accepted_iff_witness :
    ((place_bid demoCodec scenarioA ["b1", "b1,s1,100,,alice"]).1 = .ok none ↔
      ((mkAccount "alice" 100).Balance ≥ (mkBid "b1" "s1" 100 "alice").Amount ∧
        (mkBid "b1" "s1" 100 "alice").Amount > (mkSlot "s1" [] 0).HighestBidAmount)) ∧
    ((mkBid "b1" "s1" 100 "alice").Amount = (mkSlot "s1" [] 0).HighestBidAmount →
      ∃ msg, (place_bid demoCodec scenarioA ["b1", "b1,s1,100,,alice"]).1 = .err msg) ∧
    ((mkBid "b1" "s1" 100 "alice").Amount = (mkAccount "alice" 100).Balance →
      (mkBid "b1" "s1" 100 "alice").Amount > (mkSlot "s1" [] 0).HighestBidAmount →
      (place_bid demoCodec scenarioA ["b1", "b1,s1,100,,alice"]).1 = .ok none) :=
  place_bid_accepted_iff demoCodec scenarioA "b1" "b1,s1,100,,alice" []
    (mkBid "b1" "s1" 100 "alice") (mkAccount "alice" 100) (mkSlot "s1" [] 0)
    (fun _ => rfl) (by decide) (by decide) (by decide)

/-- C3: a `place_bid` whose payload does not decode, whose account or slot is missing or
does not decode, whose amount exceeds the balance or does not exceed the slot's highest
amount, returns an error and leaves the whole store as it was, whatever the fault
schedule. -/
theorem place_bid_rejected_unchanged (J : Codec β) (stub : ChaincodeStub β)
    (arg0 arg1 : String) (rest : List String)
    (h : J.unmarshalBid (J.bytes arg1) = none ∨
      (∃ b, J.unmarshalBid (J.bytes arg1) = some b ∧
        J.decodeAccount (stub.state b.Username) = none) ∨
      (∃ b e, J.unmarshalBid (J.bytes arg1) = some b ∧
        J.decodeSlot (stub.state b.SlotId) = .error e) ∨
      (∃ b a, J.unmarshalBid (J.bytes arg1) = some b ∧
        J.decodeAccount (stub.state b.Username) = some a ∧ a.Balance < b.Amount) ∨
      (∃ b s, J.unmarshalBid (J.bytes arg1) = some b ∧
        J.decodeSlot (stub.state b.SlotId) = .ok s ∧ b.Amount ≤ s.HighestBidAmount)) :
    (∃ msg, (place_bid J stub (arg0 :: arg1 :: rest)).1 = .err msg) ∧
    (place_bid J stub (arg0 :: arg1 :: rest)).2.state = stub.state := by
  cases hb : J.unmarshalBid (J.bytes arg1) with
  | none => exact ⟨⟨_, by simp [place_bid, hb]; rfl⟩, by simp [place_bid, hb]⟩
  | some b =>
  by_cases f0 : stub.faults stub.clock = true
  · exact ⟨⟨_, by simp [place_bid, hb, GetState, f0]; rfl⟩, by simp [place_bid, hb, GetState, f0]⟩
  cases ha : J.decodeAccount (stub.state b.Username) with
  | none =>
    exact ⟨⟨_, by simp [place_bid, hb, GetState, f0, ha]; rfl⟩,
      by simp [place_bid, hb, GetState, f0, ha]⟩
  | some a =>
  by_cases f1 : stub.faults (stub.clock + 1) = true
  · exact ⟨⟨_, by simp [place_bid, hb, GetState, f0, ha, f1]; rfl⟩,
      by simp [place_bid, hb, GetState, f0, ha, f1]⟩
  cases hs : J.decodeSlot (stub.state b.SlotId) with
  | error e =>
    exact ⟨⟨_, by simp [place_bid, hb, GetState, f0, ha, f1, hs]; rfl⟩,
      by simp [place_bid, hb, GetState, f0, ha, f1, hs]⟩
  | ok s =>
  by_cases hbal : a.Balance < b.Amount
  · exact ⟨⟨_, by simp [place_bid, hb, GetState, f0, ha, f1, hs, hbal]; rfl⟩,
      by simp [place_bid, hb, GetState, f0, ha, f1, hs, hbal]⟩
  by_cases hhigh : s.HighestBidAmount ≥ b.Amount
  · exact ⟨⟨_, by simp [place_bid, hb, GetState, f0, ha, f1, hs, hbal, hhigh]; rfl⟩,
      by simp [place_bid, hb, GetState, f0, ha, f1, hs, hbal, hhigh]⟩
  exfalso
  rcases h with h | ⟨b', h1, h2⟩ | ⟨b', e, h1, h2⟩ | ⟨b', a', h1, h2, h3⟩ | ⟨b', s', h1, h2, h3⟩
  · rw [hb] at h; cases h
  · rw [hb] at h1; cases h1; rw [ha] at h2; cases h2
  · rw [hb] at h1; cases h1; rw [hs] at h2; cases h2
  · rw [hb] at h1; cases h1; rw [ha] at h2; cases h2; exact hbal h3
  · rw [hb] at h1; cases h1; rw [hs] at h2; cases h2; exact hhigh h3

/-- C3 (witness): scenario E of the spec, a bid of 50 from an account holding 30. -/
theorem place_bid_rejected_unchanged_witness :
    (∃ msg, (place_bid demoCodec
        (stubOf [("carol", .account (mkAccount "carol" 30)), ("s1", .slot (mkSlot "s1" [] 0))])
        ["b9", "b9,s1,50,,carol"]).1 = .err msg) ∧
    (place_bid demoCodec
        (stubOf [("carol", .account (mkAccount "carol" 30)), ("s1", .slot (mkSlot "s1" [] 0))])
        ["b9", "b9,s1,50,,carol"]).2.state =
      (stubOf [("carol", .account (mkAccount "carol" 30)),
        ("s1", .slot (mkSlot "s1" [] 0))]).state :=
  place_bid_rejected_unchanged demoCodec
    (stubOf [("carol", .account (mkAccount "carol" 30)), ("s1", .slot (mkSlot "s1" [] 0))])
    "b9" "b9,s1,50,,carol" []
    (Or.inr (Or.inr (Or.inr (Or.inl
      ⟨mkBid "b9" "s1" 50 "carol", mkAccount "carol" 30, by decide, by decide, by decide⟩))))

/-- C8 (as stated, refuted): on a slot stored with highest bid amount `-10`, a bid of `-5`
from an account holding 0 is accepted. -/
theorem place_bid_accepts_negative_amount :
    demoCodec.unmarshalBid (demoCodec.bytes "b1,s1,-5,,alice")
      = some (mkBid "b1" "s1" (-5) "alice") ∧
    (place_bid demoCodec negativeSlotStore ["b1", "b1,s1,-5,,alice"]).1 = .ok none ∧
    ¬ ((mkBid "b1" "s1" (-5) "alice").Amount > 0) := by
  decide

/-- C8 (amended): if `place_bid` succeeds then the bid's amount is strictly greater than the
highest bid amount stored in its slot, hence positive whenever that stored amount is not
negative. -/
theorem place_bid_ok_amount_pos (J : Codec β) (stub : ChaincodeStub β) (arg0 arg1 : String)
    (rest : List String) (b : Bid) (s : Slot) (v : Option β)
    (hb : J.unmarshalBid (J.bytes arg1) = some b)
    (hs : J.decodeSlot (stub.state b.SlotId) = .ok s)
    (hok : (place_bid J stub (arg0 :: arg1 :: rest)).1 = .ok v) :
    b.Amount > s.HighestBidAmount ∧ (0 ≤ s.HighestBidAmount → b.Amount > 0) := by
  obtain ⟨_, arg1', _, b', a', s', hargs, hb', ha', hs', h1, h2, _⟩ :=
    place_bid_ok_inv J stub _ _ hok
  have e1 : arg1' = arg1 := ((List.cons.inj (List.cons.inj hargs).2).1).symm
  subst e1
  rw [hb] at hb'
  cases hb'
  rw [hs] at hs'
  cases hs'
  exact ⟨h2, fun h0 => lt_of_le_of_lt h0 h2⟩

/-- C8 (witness): alice's bid of 50 on the empty slot of scenario A. -/
theorem place_bid_ok_amount_pos_witness :
    (mkBid "b1" "s1" 50 "alice").Amount > (mkSlot "s1" [] 0).HighestBidAmount ∧
    (0 ≤ (mkSlot "s1" [] 0).HighestBidAmount → (mkBid "b1" "s1" 50 "alice").Amount > 0) :=
  place_bid_ok_amount_pos demoCodec scenarioA "b1" "b1,s1,50,,alice" []
    (mkBid "b1" "s1" 50 "alice") (mkSlot "s1" [] 0) none (by decide) (by decide) (by decide)

/-! ## `payout_bid` -/

theorem refundOf_nil (u : String) (highest : Int) : refundOf u highest [] = 0 := rfl

theorem refundOf_cons (u : String) (highest : Int) (bid : Bid) (rest : List Bid) :
    refundOf u highest (bid :: rest) =
      (if bid.refundedTo u highest then bid.Amount else 0) + refundOf u highest rest := by
  unfold refundOf
  by_cases h : bid.refundedTo u highest <;> simp [List.filter_cons, h]

/-- Without overflow the loop's balance is the starting balance plus the refunds. -/
theorem refundFold_eq_add (u : String) (highest : Int) :
    ∀ (bids : List Bid) (bal : Int),
      (∀ n, InInt64 (bal + refundOf u highest (bids.take n))) →
      refundFold u highest bal bids = bal + refundOf u highest bids
  | [], bal, _ => by simp [refundFold, refundOf_nil]
  | bid :: rest, bal, h => by
    by_cases hb : bid.refundedTo u highest
    · have h1 := h 1
      simp only [List.take_succ_cons, List.take_zero, refundOf_cons, hb, if_true,
        refundOf_nil, add_zero] at h1
      have ih := refundFold_eq_add u highest rest (bal + bid.Amount) (fun n => by
        have := h (n + 1)
        simpa [List.take_succ_cons, refundOf_cons, hb, add_assoc] using this)
      simp only [refundFold, hb, if_true, add64, wrap64_of_inInt64 h1, ih, refundOf_cons]
      ring
    · have ih := refundFold_eq_add u highest rest bal (fun n => by
        have := h (n + 1)
        simpa [List.take_succ_cons, refundOf_cons, hb] using this)
      simp only [refundFold, hb, if_false, ih, refundOf_cons]
      ring

/-- The loop of `payout_bid` on a store whose refunded accounts are stored under their own
username: it returns success, and every account stored under its own username, or under a
key that is no refunded bidder, ends with the balance `refundFold` computes. -/
theorem payout_loop_ok (J : Codec β) (hJ : J.RoundTrip) (highest : Int) :
    ∀ (bids : List Bid) (stub : ChaincodeStub β), stub.NoFault →
      (∀ bid ∈ bids, bid.Amount < highest →
        ∃ a, J.decodeAccount (stub.state bid.Username) = some a ∧ a.Username = bid.Username) →
      (payout_loop J highest bids stub).1 = .ok none ∧
      (payout_loop J highest bids stub).2.faults = stub.faults ∧
      (∀ u, (∀ bid ∈ bids, ¬ bid.refundedTo u highest) →
        (payout_loop J highest bids stub).2.state u = stub.state u) ∧
      (∀ u a, J.decodeAccount (stub.state u) = some a → a.Username = u →
        J.decodeAccount ((payout_loop J highest bids stub).2.state u)
          = some { a with Balance := refundFold u highest a.Balance bids })
  | [], stub, _, _ => by
    refine ⟨rfl, rfl, fun _ _ => rfl, ?_⟩
    intro u a ha _
    simpa [payout_loop, refundFold] using ha
  | bid :: rest, stub, hf, hacc => by
    have hf' : ∀ n, stub.faults n = false := hf
    by_cases hlt : bid.Amount < highest
    · obtain ⟨a0, ha0, hu0⟩ := hacc bid (List.mem_cons_self _ _) hlt
      -- the stub after the refund of `bid`
      have hstep : payout_loop J highest (bid :: rest) stub =
          payout_loop J highest rest
            { state := fun k => if k = bid.Username then
                some (J.marshalAccount { a0 with Balance := add64 a0.Balance bid.Amount })
                else stub.state k
              faults := stub.faults
              clock := stub.clock + 1 + 1 } := by
        simp only [payout_loop, hlt, if_true, GetState, hf', ha0, PutState, hu0,
          Bool.false_eq_true, if_false]
      rw [hstep]
      have ih := payout_loop_ok J hJ highest rest
        { state := fun k => if k = bid.Username then
            some (J.marshalAccount { a0 with Balance := add64 a0.Balance bid.Amount })
            else stub.state k
          faults := stub.faults
          clock := stub.clock + 1 + 1 } hf (by
            intro bid' hmem hlt'
            by_cases hk : bid'.Username = bid.Username
            · exact ⟨{ a0 with Balance := add64 a0.Balance bid.Amount },
                by simp [hk, Codec.decodeAccount, hJ.account], by simp [hu0, hk]⟩
            · obtain ⟨a', ha', hu'⟩ := hacc bid' (List.mem_cons_of_mem _ hmem) hlt'
              exact ⟨a', by simpa [hk] using ha', hu'⟩)
      obtain ⟨ih1, ih2, ih3, ih4⟩ := ih
      refine ⟨ih1, ih2, ?_, ?_⟩
      · intro u hu
        have hne : u ≠ bid.Username := fun h =>
          hu bid (List.mem_cons_self _ _) ⟨h.symm, hlt⟩
        rw [ih3 u (fun bid' hmem => hu bid' (List.mem_cons_of_mem _ hmem))]
        simp [hne]
      · intro u a ha hu
        by_cases hk : u = bid.Username
        · subst hk
          rw [ha0] at ha
          cases ha
          have := ih4 bid.Username { a0 with Balance := add64 a0.Balance bid.Amount }
            (by simp [Codec.decodeAccount, hJ.account]) hu
          rw [this]
          simp [refundFold, Bid.refundedTo, hlt]
        · have := ih4 u a (by simpa [hk] using ha) hu
          rw [this]
          have hnr : ¬ bid.refundedTo u highest := fun h => hk h.1.symm
          simp [refundFold, hnr]
    · have hstep : payout_loop J highest (bid :: rest) stub = payout_loop J highest rest stub := by
        simp only [payout_loop, hlt, if_false]
      rw [hstep]
      obtain ⟨ih1, ih2, ih3, ih4⟩ := payout_loop_ok J hJ highest rest stub hf
        (fun bid' hmem hlt' => hacc bid' (List.mem_cons_of_mem _ hmem) hlt')
      have hnr : ∀ u, ¬ bid.refundedTo u highest := fun u h => hlt h.2
      refine ⟨ih1, ih2, ?_, ?_⟩
      · intro u hu
        exact ih3 u (fun bid' hmem => hu bid' (List.mem_cons_of_mem _ hmem))
      · intro u a ha hu
        rw [ih4 u a ha hu]
        simp [refundFold, hnr u]

theorem refundOf_eq_zero (u : String) (highest : Int) (bids : List Bid)
    (h : ∀ bid ∈ bids, ¬ bid.refundedTo u highest) : refundOf u highest bids = 0 := by
  unfold refundOf
  rw [List.filter_eq_nil_iff.mpr (by simpa using h)]
  rfl

theorem payout_bid_eq_loop (J : Codec β) (stub : ChaincodeStub β) (slotId : String)
    (rest : List String) (s : Slot) (hf : stub.NoFault)
    (hs : J.decodeSlot (stub.state slotId) = .ok s) :
    payout_bid J stub (slotId :: rest) =
      payout_loop J s.HighestBidAmount s.Bids { stub with clock := stub.clock + 1 } := by
  have hf' : ∀ n, stub.faults n = false := hf
  simp only [payout_bid, GetState, hf', hs, Bool.false_eq_true, if_false]

/-- The run of `payout_bid` on a store whose refunded accounts are stored under their own
username: success, the fault schedule kept, the keys of no refunded bidder untouched, and the
balances `refundFold` computes. -/
theorem payout_bid_run (J : Codec β) (hJ : J.RoundTrip) (stub : ChaincodeStub β)
    (slotId : String) (rest : List String) (s : Slot)
    (hf : stub.NoFault)
    (hs : J.decodeSlot (stub.state slotId) = .ok s)
    (hacc : ∀ bid ∈ s.Bids, bid.Amount < s.HighestBidAmount →
      ∃ a, J.decodeAccount (stub.state bid.Username) = some a ∧ a.Username = bid.Username) :
    (payout_bid J stub (slotId :: rest)).1 = .ok none ∧
    (payout_bid J stub (slotId :: rest)).2.faults = stub.faults ∧
    (∀ u, (∀ bid ∈ s.Bids, ¬ bid.refundedTo u s.HighestBidAmount) →
      (payout_bid J stub (slotId :: rest)).2.state u = stub.state u) ∧
    (∀ u a, J.decodeAccount (stub.state u) = some a → a.Username = u →
      J.decodeAccount ((payout_bid J stub (slotId :: rest)).2.state u)
        = some { a with Balance := refundFold u s.HighestBidAmount a.Balance s.Bids }) := by
  rw [payout_bid_eq_loop J stub slotId rest s hf hs]
  exact payout_loop_ok J hJ s.HighestBidAmount s.Bids { stub with clock := stub.clock + 1 } hf hacc

/-- C4: when the slot decodes, every account named by a bid strictly below the slot's
highest amount is stored under its username with a matching username field, no storage call
fails and no addition overflows `int64`, `payout_bid` succeeds and every account ends with
its balance plus the sum of the amounts of its bids strictly below the highest amount; an
account none of whose bids is below the highest amount is not touched. -/
theorem payout_bid_refunds (J : Codec β) (hJ : J.RoundTrip) (stub : ChaincodeStub β)
    (slotId : String) (rest : List String) (s : Slot)
    (hf : stub.NoFault)
    (hs : J.decodeSlot (stub.state slotId) = .ok s)
    (hacc : ∀ bid ∈ s.Bids, bid.Amount < s.HighestBidAmount →
      ∃ a, J.decodeAccount (stub.state bid.Username) = some a ∧ a.Username = bid.Username)
    (hov : ∀ bid ∈ s.Bids, bid.Amount < s.HighestBidAmount →
      ∀ a, J.decodeAccount (stub.state bid.Username) = some a →
        ∀ n, InInt64 (a.Balance + refundOf bid.Username s.HighestBidAmount (s.Bids.take n))) :
    (payout_bid J stub (slotId :: rest)).1 = .ok none ∧
    (∀ u a, J.decodeAccount (stub.state u) = some a →
      J.decodeAccount ((payout_bid J stub (slotId :: rest)).2.state u)
        = some { a with Balance := a.Balance + refundOf u s.HighestBidAmount s.Bids }) ∧
    (∀ u, (∀ bid ∈ s.Bids, bid.Username = u → ¬ bid.Amount < s.HighestBidAmount) →
      (payout_bid J stub (slotId :: rest)).2.state u = stub.state u) := by
  obtain ⟨h1, _, h3, h4⟩ := payout_bid_run J hJ stub slotId rest s hf hs hacc
  refine ⟨h1, ?_, ?_⟩
  · intro u a ha
    by_cases hr : ∃ bid ∈ s.Bids, bid.refundedTo u s.HighestBidAmount
    · obtain ⟨bid, hmem, hu, hlt⟩ := hr
      subst hu
      obtain ⟨a', ha', hu'⟩ := hacc bid hmem hlt
      rw [ha] at ha'
      cases ha'
      rw [h4 bid.Username a ha hu',
        refundFold_eq_add bid.Username s.HighestBidAmount s.Bids a.Balance
          (hov bid hmem hlt a ha)]
    · have hr' : ∀ bid ∈ s.Bids, ¬ bid.refundedTo u s.HighestBidAmount :=
        fun bid hmem h => hr ⟨bid, hmem, h⟩
      rw [h3 u hr', refundOf_eq_zero u _ _ hr']
      simpa using ha
  · intro u hu
    exact h3 u (fun bid hmem h => hu bid hmem h.1 h.2)

/-- C4 (witness): scenario D of the spec, the payout of slot `s1` after alice bid 50 and
bob 80. -/
theorem payout_bid_refunds_witness :
    (payout_bid demoCodec scenarioC ["s1"]).1 = .ok none ∧
    (∀ u a, demoCodec.decodeAccount (scenarioC.state u) = some a →
      demoCodec.decodeAccount ((payout_bid demoCodec scenarioC ["s1"]).2.state u)
        = some { a with
            Balance := a.Balance + refundOf u slotC.HighestBidAmount slotC.Bids }) ∧
    (∀ u, (∀ bid ∈ slotC.Bids, bid.Username = u → ¬ bid.Amount < slotC.HighestBidAmount) →
      (payout_bid demoCodec scenarioC ["s1"]).2.state u = scenarioC.state u) :=
  payout_bid_refunds demoCodec demoCodec_roundTrip scenarioC "s1" [] slotC
    (fun _ => rfl) (by decide) (by decide) (by
      intro bid hmem hlt a ha n
      have hmem' : bid = mkBid "b1" "s1" 50 "alice" ∨ bid = mkBid "b2" "s1" 80 "bob" := by
        simpa [slotC, mkSlot] using hmem
      rcases hmem' with rfl | rfl
      · have ha' : demoCodec.decodeAccount (scenarioC.state (mkBid "b1" "s1" 50 "alice").Username)
            = some { mkAccount "alice" 50 with Bids := [mkBid "b1" "s1" 50 "alice"] } := by
          decide
        rw [ha'] at ha
        cases ha
        match n with
        | 0 => decide
        | 1 => decide
        | n + 2 => simp only [slotC, mkSlot, List.take_succ_cons, List.take_nil]; decide
      · exact absurd hlt (by decide))

/-- C7 (as stated, refuted): on `nearMaxStore` one payout overflows nothing, yet after two
payouts alice's balance is `-2^63`, not her balance plus twice her refund; on `cancelStore`
the slot has losing bids with non-zero amounts, yet the store after two payouts equals the
store after one. -/
theorem payout_bid_twice_counterexample :
    ((payout_bid demoCodec nearMaxStore ["s1"]).1 = .ok none ∧
      InInt64 (9223372036854775806 + refundOf "alice" 5 slotNearMax.Bids) ∧
      (payout_bid demoCodec (payout_bid demoCodec nearMaxStore ["s1"]).2 ["s1"]).1 = .ok none ∧
      demoCodec.decodeAccount
          ((payout_bid demoCodec (payout_bid demoCodec nearMaxStore ["s1"]).2 ["s1"]).2.state
            "alice")
        = some (mkAccount "alice" (-9223372036854775808)) ∧
      (-9223372036854775808 : Int)
        ≠ 9223372036854775806 + 2 * refundOf "alice" 5 slotNearMax.Bids) ∧
    ((∃ bid ∈ slotCancel.Bids, bid.Amount < slotCancel.HighestBidAmount ∧ bid.Amount ≠ 0) ∧
      (payout_bid demoCodec cancelStore ["s1"]).1 = .ok none ∧
      (payout_bid demoCodec (payout_bid demoCodec cancelStore ["s1"]).2 ["s1"]).1 = .ok none ∧
      (payout_bid demoCodec (payout_bid demoCodec cancelStore ["s1"]).2 ["s1"]).2.state
        = (payout_bid demoCodec cancelStore ["s1"]).2.state) := by
  refine ⟨by decide, by decide, by decide, by decide, ?_⟩
  funext k
  by_cases hk : k = "alice"
  · subst hk
    decide
  · simp [payout_bid, payout_loop, GetState, PutState, cancelStore, stubOf, slotCancel,
      mkSlot, mkBid, mkAccount, demoCodec, Codec.decodeSlot, Codec.decodeAccount, hk]

/-- C7 (amended): under the preconditions of a successful `payout_bid`, when the slot is not
stored under the username of a refunded bid and the additions of neither run overflow
`int64`, two payouts in a row both succeed and leave every account with its balance plus
twice its refund; the stores after one and after two payouts differ at every account whose
refund is not zero. -/
theorem payout_bid_twice (J : Codec β) (hJ : J.RoundTrip) (stub : ChaincodeStub β)
    (slotId : String) (rest : List String) (s : Slot)
    (hf : stub.NoFault)
    (hs : J.decodeSlot (stub.state slotId) = .ok s)
    (hacc : ∀ bid ∈ s.Bids, bid.Amount < s.HighestBidAmount →
      ∃ a, J.decodeAccount (stub.state bid.Username) = some a ∧ a.Username = bid.Username)
    (hkey : ∀ bid ∈ s.Bids, bid.Amount < s.HighestBidAmount → bid.Username ≠ slotId)
    (hov : ∀ bid ∈ s.Bids, bid.Amount < s.HighestBidAmount →
      ∀ a, J.decodeAccount (stub.state bid.Username) = some a →
        ∀ n, InInt64 (a.Balance + refundOf bid.Username s.HighestBidAmount (s.Bids.take n)))
    (hov2 : ∀ bid ∈ s.Bids, bid.Amount < s.HighestBidAmount →
      ∀ a, J.decodeAccount (stub.state bid.Username) = some a →
        ∀ n, InInt64 (a.Balance + refundOf bid.Username s.HighestBidAmount s.Bids
          + refundOf bid.Username s.HighestBidAmount (s.Bids.take n))) :
    (payout_bid J stub (slotId :: rest)).1 = .ok none ∧
    (payout_bid J (payout_bid J stub (slotId :: rest)).2 (slotId :: rest)).1 = .ok none ∧
    (∀ u a, J.decodeAccount (stub.state u) = some a →
      J.decodeAccount
          ((payout_bid J (payout_bid J stub (slotId :: rest)).2 (slotId :: rest)).2.state u)
        = some { a with Balance := a.Balance + 2 * refundOf u s.HighestBidAmount s.Bids }) ∧
    (∀ u, refundOf u s.HighestBidAmount s.Bids ≠ 0 →
      (payout_bid J (payout_bid J stub (slotId :: rest)).2 (slotId :: rest)).2.state u
        ≠ (payout_bid J stub (slotId :: rest)).2.state u) := by
  -- the first run
  obtain ⟨r1, hfaults, k1, b1⟩ := payout_bid_run J hJ stub slotId rest s hf hs hacc
  have hf1 : (payout_bid J stub (slotId :: rest)).2.NoFault := by
    intro n
    rw [hfaults]
    exact hf n
  have hs1 : J.decodeSlot ((payout_bid J stub (slotId :: rest)).2.state slotId) = .ok s := by
    rw [k1 slotId (fun bid hmem h => hkey bid hmem h.2 h.1)]
    exact hs
  have a1 : ∀ bid ∈ s.Bids, bid.Amount < s.HighestBidAmount →
      ∀ a, J.decodeAccount (stub.state bid.Username) = some a →
        J.decodeAccount ((payout_bid J stub (slotId :: rest)).2.state bid.Username)
          = some { a with
              Balance := a.Balance + refundOf bid.Username s.HighestBidAmount s.Bids } := by
    intro bid hmem hlt a ha
    obtain ⟨a', ha', hu'⟩ := hacc bid hmem hlt
    rw [ha] at ha'
    cases ha'
    rw [b1 bid.Username a ha hu', refundFold_eq_add _ _ _ _ (hov bid hmem hlt a ha)]
  have hacc1 : ∀ bid ∈ s.Bids, bid.Amount < s.HighestBidAmount →
      ∃ a, J.decodeAccount ((payout_bid J stub (slotId :: rest)).2.state bid.Username) = some a
        ∧ a.Username = bid.Username := by
    intro bid hmem hlt
    obtain ⟨a, ha, hu⟩ := hacc bid hmem hlt
    exact ⟨_, a1 bid hmem hlt a ha, hu⟩
  -- the second run
  obtain ⟨r2, _, k2, b2⟩ := payout_bid_run J hJ (payout_bid J stub (slotId :: rest)).2 slotId
    rest s hf1 hs1 hacc1
  have hbal : ∀ u a, J.decodeAccount (stub.state u) = some a →
      J.decodeAccount
          ((payout_bid J (payout_bid J stub (slotId :: rest)).2 (slotId :: rest)).2.state u)
        = some { a with Balance := a.Balance + 2 * refundOf u s.HighestBidAmount s.Bids } := by
    intro u a ha
    by_cases hr : ∃ bid ∈ s.Bids, bid.refundedTo u s.HighestBidAmount
    · obtain ⟨bid, hmem, hu, hlt⟩ := hr
      subst hu
      obtain ⟨a', ha', hu'⟩ := hacc bid hmem hlt
      rw [ha] at ha'
      cases ha'
      rw [b2 bid.Username _ (a1 bid hmem hlt a ha) hu',
        refundFold_eq_add _ _ _ _ (hov2 bid hmem hlt a ha)]
      simp only [Option.some.injEq, Account.mk.injEq, true_and, and_true]
      ring
    · have hr' : ∀ bid ∈ s.Bids, ¬ bid.refundedTo u s.HighestBidAmount :=
        fun bid hmem h => hr ⟨bid, hmem, h⟩
      rw [k2 u hr', k1 u hr', refundOf_eq_zero u _ _ hr']
      simpa using ha
  refine ⟨r1, r2, hbal, ?_⟩
  intro u hne heq
  have hex : ∃ bid ∈ s.Bids, bid.refundedTo u s.HighestBidAmount := by
    by_contra hcon
    exact hne (refundOf_eq_zero u _ _ (fun bid hmem h => hcon ⟨bid, hmem, h⟩))
  obtain ⟨bid, hmem, hu, hlt⟩ := hex
  subst hu
  obtain ⟨a, ha, _⟩ := hacc bid hmem hlt
  have h2 := hbal bid.Username a ha
  rw [heq, a1 bid hmem hlt a ha] at h2
  simp only [Option.some.injEq, Account.mk.injEq, true_and, and_true] at h2
  apply hne
  omega

/-- C7 (witness): two payouts of slot `s1` in scenario C credit alice's losing bid of 50
twice. -/
theorem payout_bid_twice_witness :
    (payout_bid demoCodec scenarioC ["s1"]).1 = .ok none ∧
    (payout_bid demoCodec (payout_bid demoCodec scenarioC ["s1"]).2 ["s1"]).1 = .ok none ∧
    (∀ u a, demoCodec.decodeAccount (scenarioC.state u) = some a →
      demoCodec.decodeAccount
          ((payout_bid demoCodec (payout_bid demoCodec scenarioC ["s1"]).2 ["s1"]).2.state u)
        = some { a with
            Balance := a.Balance + 2 * refundOf u slotC.HighestBidAmount slotC.Bids }) ∧
    (∀ u, refundOf u slotC.HighestBidAmount slotC.Bids ≠ 0 →
      (payout_bid demoCodec (payout_bid demoCodec scenarioC ["s1"]).2 ["s1"]).2.state u
        ≠ (payout_bid demoCodec scenarioC ["s1"]).2.state u) :=
  payout_bid_twice demoCodec demoCodec_roundTrip scenarioC "s1" [] slotC
    (fun _ => rfl) (by decide) (by decide) (by decide)
    (by
      intro bid hmem hlt a ha n
      have hmem' : bid = mkBid "b1" "s1" 50 "alice" ∨ bid = mkBid "b2" "s1" 80 "bob" := by
        simpa [slotC, mkSlot] using hmem
      rcases hmem' with rfl | rfl
      · have ha' : demoCodec.decodeAccount (scenarioC.state (mkBid "b1" "s1" 50 "alice").Username)
            = some { mkAccount "alice" 50 with Bids := [mkBid "b1" "s1" 50 "alice"] } := by
          decide
        rw [ha'] at ha
        cases ha
        match n with
        | 0 => decide
        | 1 => decide
        | n + 2 => simp only [slotC, mkSlot, List.take_succ_cons, List.take_nil]; decide
      · exact absurd hlt (by decide))
    (by
      intro bid hmem hlt a ha n
      have hmem' : bid = mkBid "b1" "s1" 50 "alice" ∨ bid = mkBid "b2" "s1" 80 "bob" := by
        simpa [slotC, mkSlot] using hmem
      rcases hmem' with rfl | rfl
      · have ha' : demoCodec.decodeAccount (scenarioC.state (mkBid "b1" "s1" 50 "alice").Username)
            = some { mkAccount "alice" 50 with Bids := [mkBid "b1" "s1" 50 "alice"] } := by
          decide
        rw [ha'] at ha
        cases ha
        match n with
        | 0 => decide
        | 1 => decide
        | n + 2 => simp only [slotC, mkSlot, List.take_succ_cons, List.take_nil]; decide
      · exact absurd hlt (by decide))

/-! ## Balances -/

theorem demoCodec_noNegativeStray : demoCodec.NoNegativeStray :=
  ⟨fun _ _ h => by simp [demoCodec] at h, fun _ _ h => by simp [demoCodec] at h⟩

/-- What holds of every listed record that reads as an account holds of every account of the
listed store. -/
theorem forall_account_stubOf (P : Account → Prop) (records : List (String × Stored))
    (h : ∀ r ∈ records, ∀ a ∈ demoCodec.unmarshalAccount r.2, P a) :
    ∀ k a, demoCodec.decodeAccount ((stubOf records).state k) = some a → P a := by
  intro k a ha
  simp only [stubOf] at ha
  cases hfind : records.find? (fun r => decide (r.1 = k)) with
  | none => simp [hfind, Codec.decodeAccount] at ha
  | some r =>
    rw [hfind] at ha
    exact h r (List.mem_of_find?_eq_some hfind) a (by simpa [Codec.decodeAccount] using ha)

/-- The accounts of a listed store are not negative when the listed accounts are not. -/
theorem accountsNonneg_stubOf (records : List (String × Stored))
    (h : ∀ r ∈ records, ∀ a ∈ demoCodec.unmarshalAccount r.2, 0 ≤ a.Balance) :
    AccountsNonneg demoCodec (stubOf records).state :=
  forall_account_stubOf (fun a => 0 ≤ a.Balance) records h

theorem refundTotal_cons (highest : Int) (bid : Bid) (rest : List Bid) :
    refundTotal highest (bid :: rest) =
      (if bid.Amount < highest then bid.Amount else 0) + refundTotal highest rest := by
  unfold refundTotal
  by_cases h : bid.Amount < highest <;> simp [List.filter_cons, h]

/-- The loop of `payout_bid` keeps all balances non-negative when the sum of every refund it
writes is not negative and does not overflow `int64`. -/
theorem payout_loop_nonneg (J : Codec β) (hJ : J.RoundTrip) (highest : Int) :
    ∀ (bids : List Bid) (stub : ChaincodeStub β),
      AccountsNonneg J stub.state → refundsFit J highest bids stub = true →
      AccountsNonneg J (payout_loop J highest bids stub).2.state
  | [], _, hnn, _ => hnn
  | bid :: rest, stub, hnn, hfit => by
    by_cases hlt : bid.Amount < highest
    · by_cases f0 : stub.faults stub.clock = true
      · intro k a ha
        simp only [payout_loop, hlt, if_true, GetState, f0] at ha
        exact hnn k a ha
      simp only [Bool.not_eq_true] at f0
      cases ha0 : J.decodeAccount (stub.state bid.Username) with
      | none =>
        intro k a ha
        simp only [payout_loop, hlt, if_true, GetState, f0, ha0, Bool.false_eq_true,
          if_false] at ha
        exact hnn k a ha
      | some a0 =>
      by_cases f1 : stub.faults (stub.clock + 1) = true
      · intro k a ha
        simp only [payout_loop, hlt, if_true, GetState, f0, ha0, PutState, f1,
          Bool.false_eq_true, if_false] at ha
        exact hnn k a ha
      simp only [Bool.not_eq_true] at f1
      simp only [refundsFit, hlt, if_true, GetState, f0, ha0, PutState, f1,
        Bool.false_eq_true, if_false, Bool.and_eq_true, decide_eq_true_eq] at hfit
      obtain ⟨⟨hamt, hmax⟩, hfit'⟩ := hfit
      have hstep : payout_loop J highest (bid :: rest) stub =
          payout_loop J highest rest
            { state := fun k => if k = a0.Username then
                some (J.marshalAccount { a0 with Balance := add64 a0.Balance bid.Amount })
                else stub.state k
              faults := stub.faults
              clock := stub.clock + 1 + 1 } := by
        simp only [payout_loop, hlt, if_true, GetState, f0, ha0, PutState, f1,
          Bool.false_eq_true, if_false]
      rw [hstep]
      have hadd : add64 a0.Balance bid.Amount = a0.Balance + bid.Amount := by
        apply wrap64_of_inInt64
        unfold InInt64
        omega
      apply payout_loop_nonneg J hJ highest rest _ _ hfit'
      intro k a ha
      by_cases hk : k = a0.Username
      · simp only [hk, if_true, Codec.decodeAccount, hJ.account, Option.some.injEq] at ha
        subst ha
        simp only [hadd]
        omega
      · simp only [hk, if_false] at ha
        exact hnn k a ha
    · have hstep : payout_loop J highest (bid :: rest) stub = payout_loop J highest rest stub := by
        simp only [payout_loop, hlt, if_false]
      rw [hstep]
      simp only [refundsFit, hlt, if_false] at hfit
      exact payout_loop_nonneg J hJ highest rest stub hnn hfit

theorem jsonCodec_roundTrip : jsonCodec.RoundTrip :=
  ⟨fun _ => rfl, fun _ => rfl, fun _ => rfl⟩

/-- What holds of every listed key and record that reads as an account holds of every key
and account of the listed store of the second encoding. -/
theorem forall_keyed_account_jsonStub (P : String → Account → Prop)
    (records : List (String × Json))
    (h : ∀ r ∈ records, ∀ a ∈ jsonCodec.unmarshalAccount r.2, P r.1 a) :
    ∀ k a, jsonCodec.decodeAccount ((jsonStub records).state k) = some a → P k a := by
  intro k a ha
  simp only [jsonStub] at ha
  cases hfind : records.find? (fun r => decide (r.1 = k)) with
  | none => simp [hfind, Codec.decodeAccount] at ha
  | some r =>
    rw [hfind] at ha
    have hk : r.1 = k := by simpa using List.find?_some hfind
    rw [← hk]
    exact h r (List.mem_of_find?_eq_some hfind) a (by simpa [Codec.decodeAccount] using ha)

theorem jsonCodec_noNegativeStray : jsonCodec.NoNegativeStray :=
  ⟨fun _ _ h => by
      simp only [jsonCodec, JsonObject.toAccount, JsonObject.empty, Option.map_some',
        Option.some.injEq] at h
      subst h
      exact le_refl _,
    fun _ _ h => by simp [jsonCodec] at h⟩

/-- C6 (as stated, refuted): in `richStore`, in `atMaxStore` and in `negativeRefundStore`
every account has a balance that is not negative. A successful `place_bid` on the first (a
bid of `-1` over a stored highest amount of `-2`) and a successful `payout_bid` on the
second (a refund of 1 to a balance of `2^63 - 1`) both leave alice with the balance
`-2^63`; a successful `payout_bid` on the third (a refund of `-5` to a balance of 3, nothing
overflowing) leaves alice with the balance `-2`. In `scenarioAJson`, in the encoding that
reads every object as an account, every record reads with a balance that is not negative; a
successful `place_bid` of 50 whose payload carries a `balance` field of `-5` stores that
payload under the bid's id, where it reads as an account with the balance `-5`. -/
theorem balance_becomes_negative :
    (AccountsNonneg demoCodec richStore.state ∧
      (place_bid demoCodec richStore ["b1", "b1,s1,-1,,alice"]).1 = .ok none ∧
      ¬ AccountsNonneg demoCodec
        (place_bid demoCodec richStore ["b1", "b1,s1,-1,,alice"]).2.state) ∧
    (AccountsNonneg demoCodec atMaxStore.state ∧
      (payout_bid demoCodec atMaxStore ["s1"]).1 = .ok none ∧
      ¬ AccountsNonneg demoCodec (payout_bid demoCodec atMaxStore ["s1"]).2.state) ∧
    (AccountsNonneg demoCodec negativeRefundStore.state ∧
      (payout_bid demoCodec negativeRefundStore ["s1"]).1 = .ok none ∧
      demoCodec.decodeAccount ((payout_bid demoCodec negativeRefundStore ["s1"]).2.state "alice")
        = some (mkAccount "alice" (-2)) ∧
      ¬ AccountsNonneg demoCodec (payout_bid demoCodec negativeRefundStore ["s1"]).2.state) ∧
    (AccountsNonneg jsonCodec scenarioAJson.state ∧
      (place_bid jsonCodec scenarioAJson
        ["b1", "id=b1;slotId=s1;amount=50;username=alice;balance=-5"]).1 = .ok none ∧
      jsonCodec.decodeAccount
        ((place_bid jsonCodec scenarioAJson
          ["b1", "id=b1;slotId=s1;amount=50;username=alice;balance=-5"]).2.state "b1")
        = some (mkAccount "alice" (-5)) ∧
      ¬ AccountsNonneg jsonCodec
        (place_bid jsonCodec scenarioAJson
          ["b1", "id=b1;slotId=s1;amount=50;username=alice;balance=-5"]).2.state) := by
  refine ⟨⟨accountsNonneg_stubOf _ (by decide), by decide, fun h => ?_⟩,
    ⟨accountsNonneg_stubOf _ (by decide), by decide, fun h => ?_⟩,
    ⟨accountsNonneg_stubOf _ (by decide), by decide, by decide, fun h => ?_⟩,
    ⟨forall_keyed_account_jsonStub (fun _ a => 0 ≤ a.Balance) _ (by decide), by decide,
      by decide, fun h => ?_⟩⟩
  · exact absurd (h "alice" { mkAccount "alice" (-9223372036854775808) with
      Bids := [mkBid "b1" "s1" (-1) "alice"] } (by decide)) (by decide)
  · exact absurd (h "alice" (mkAccount "alice" (-9223372036854775808)) (by decide))
      (by decide)
  · exact absurd (h "alice" (mkAccount "alice" (-2)) (by decide)) (by decide)
  · exact absurd (h "b1" (mkAccount "alice" (-5)) (by decide)) (by decide)

/-- C6 (amended): in a store all of whose accounts have a balance that is not negative,
(1) after a successful `place_bid` whose debit does not overflow `int64` and whose payload
does not itself read as an account with a negative balance, and (2) after a `payout_bid`
in every written refund of which the sum of the balance read and the amount added is not
negative and does not overflow `int64`, every account of the store still has a balance that
is not negative. Nothing is asked of the accounts that are not refunded. -/
theorem balances_stay_nonneg (J : Codec β) (hJ : J.RoundTrip) (hstray : J.NoNegativeStray)
    (stub : ChaincodeStub β) (hnn : AccountsNonneg J stub.state) :
    (∀ arg0 arg1 rest b a v,
      J.unmarshalBid (J.bytes arg1) = some b →
      J.decodeAccount (stub.state b.Username) = some a →
      InInt64 (a.Balance - b.Amount) →
      (∀ a', J.unmarshalAccount (J.bytes arg1) = some a' → 0 ≤ a'.Balance) →
      (place_bid J stub (arg0 :: arg1 :: rest)).1 = .ok v →
      AccountsNonneg J (place_bid J stub (arg0 :: arg1 :: rest)).2.state) ∧
    (∀ args, payoutFits J stub args = true →
      AccountsNonneg J (payout_bid J stub args).2.state) := by
  constructor
  · intro arg0 arg1 rest b a v hb ha hov hpay hok
    obtain ⟨_, arg1', _, b', a', s', hargs, hb', ha', hs', h1, h2, hst, _⟩ :=
      place_bid_ok_inv J stub _ _ hok
    have e1 : arg1' = arg1 := ((List.cons.inj (List.cons.inj hargs).2).1).symm
    subst e1
    rw [hb] at hb'
    cases hb'
    rw [ha] at ha'
    cases ha'
    rw [hst]
    intro k x hx
    simp only [placedState] at hx
    by_cases hk1 : k = a.Username
    · rw [if_pos hk1] at hx
      simp only [Codec.decodeAccount, hJ.account, Option.some.injEq] at hx
      subst hx
      simp only [sub64, wrap64_of_inInt64 hov]
      omega
    · rw [if_neg hk1] at hx
      by_cases hk2 : k = s'.Id
      · rw [if_pos hk2] at hx
        exact hstray.slot _ _ hx
      · rw [if_neg hk2] at hx
        by_cases hk3 : k = b.Id
        · rw [if_pos hk3] at hx
          exact hpay _ hx
        · rw [if_neg hk3] at hx
          by_cases hk4 : k = bidIndexStr
          · rw [if_pos hk4] at hx
            exact hstray.index _ _ hx
          · rw [if_neg hk4] at hx
            exact hnn k x hx
  · intro args hfit
    match args with
    | [] => exact hnn
    | slotId :: rest =>
      by_cases f0 : stub.faults stub.clock = true
      · intro k a ha
        simp only [payout_bid, GetState, f0, if_true] at ha
        exact hnn k a ha
      simp only [Bool.not_eq_true] at f0
      cases hs : J.decodeSlot (stub.state slotId) with
      | error e =>
        intro k a ha
        simp only [payout_bid, GetState, f0, hs, Bool.false_eq_true, if_false] at ha
        exact hnn k a ha
      | ok s =>
        have hrun : payout_bid J stub (slotId :: rest) =
            payout_loop J s.HighestBidAmount s.Bids { stub with clock := stub.clock + 1 } := by
          simp only [payout_bid, GetState, f0, hs, Bool.false_eq_true, if_false]
        simp only [payoutFits, GetState, f0, hs, Bool.false_eq_true, if_false] at hfit
        rw [hrun]
        exact payout_loop_nonneg J hJ s.HighestBidAmount s.Bids _ hnn hfit

/-- C6 (witness): alice's bid of 50 in scenario A, in both encodings, and the payout of slot
`s1` in scenario C extended by carol, who holds `2^63 - 1` and is not refunded. -/
theorem balances_stay_nonneg_witness :
    AccountsNonneg demoCodec
      (place_bid demoCodec scenarioA ["b1", "b1,s1,50,,alice"]).2.state ∧
    AccountsNonneg jsonCodec
      (place_bid jsonCodec scenarioAJson
        ["b1", "id=b1;slotId=s1;amount=50;username=alice"]).2.state ∧
    demoCodec.decodeAccount (bystanderStore.state "carol")
      = some (mkAccount "carol" 9223372036854775807) ∧
    (payout_bid demoCodec bystanderStore ["s1"]).1 = .ok none ∧
    AccountsNonneg demoCodec (payout_bid demoCodec bystanderStore ["s1"]).2.state :=
  ⟨(balances_stay_nonneg demoCodec demoCodec_roundTrip demoCodec_noNegativeStray scenarioA
      (accountsNonneg_stubOf _ (by decide))).1 "b1" "b1,s1,50,,alice" []
      (mkBid "b1" "s1" 50 "alice") (mkAccount "alice" 100) none (by decide) (by decide)
      (by decide) (by decide) (by decide),
    (balances_stay_nonneg jsonCodec jsonCodec_roundTrip jsonCodec_noNegativeStray
      scenarioAJson
      (forall_keyed_account_jsonStub (fun _ a => 0 ≤ a.Balance) _ (by decide))).1 "b1"
      "id=b1;slotId=s1;amount=50;username=alice" []
      (mkBid "b1" "s1" 50 "alice") (mkAccount "alice" 100) none (by decide) (by decide)
      (by decide) (by decide) (by decide),
    by decide, by decide,
    (balances_stay_nonneg demoCodec demoCodec_roundTrip demoCodec_noNegativeStray
      bystanderStore (accountsNonneg_stubOf _ (by decide))).2 ["s1"] (by decide)⟩

/-! ## Keys an invocation leaves alone -/

theorem GetState_state (stub : ChaincodeStub β) (key : String) :
    (GetState stub key).2.state = stub.state := by
  unfold GetState
  split <;> rfl

theorem PutState_state_of_ne (stub : ChaincodeStub β) (key : String) (value : β) (k : String)
    (hk : k ≠ key) : (PutState stub key value).2.state k = stub.state k := by
  unfold PutState
  split
  · rfl
  · simp [hk]

theorem append_id_state_of_ne (J : Codec β) (stub : ChaincodeStub β) (indexStr id : String)
    (create : Bool) (k : String) (hk : k ≠ indexStr) :
    (append_id J stub indexStr id create).2.state k = stub.state k := by
  unfold append_id
  rcases hg : GetState stub indexStr with ⟨r, stub1⟩
  have h1 : stub1.state = stub.state := by
    have := GetState_state stub indexStr
    rw [hg] at this
    exact this
  cases r with
  | error e => simp [h1]
  | ok indexAsBytes =>
    simp only
    rcases hp : PutState stub1 indexStr
      (J.marshalIndex (J.decodeIndex indexAsBytes ++
        [if create = true then id ++ toString ((J.decodeIndex indexAsBytes).length + 1)
          else id])) with ⟨e, stub2⟩
    have h2 := congrArg (fun p => p.2.state k) hp
    simp only [PutState_state_of_ne _ _ _ _ hk] at h2
    cases e <;> simp [← h2, h1]

/-- A successful `append_id` that creates no identifier returns the identifier it was
given. -/
theorem append_id_ok_id (J : Codec β) (stub : ChaincodeStub β) (indexStr id newId : String)
    (h : (append_id J stub indexStr id false).1 = .ok newId) : newId = id := by
  unfold append_id at h
  rcases hg : GetState stub indexStr with ⟨r, stub1⟩
  rw [hg] at h
  cases r with
  | error e => simp at h
  | ok indexAsBytes =>
    simp only at h
    rcases hp : PutState stub1 indexStr
      (J.marshalIndex (J.decodeIndex indexAsBytes ++ [if false = true then
        id ++ toString ((J.decodeIndex indexAsBytes).length + 1) else id])) with ⟨e, stub2⟩
    rw [hp] at h
    cases e with
    | some _ => simp at h
    | none => simpa using h.symm

/-- A successful `append_id` that creates no identifier has written the extended index,
and nothing else. -/
theorem append_id_ok_state (J : Codec β) (stub : ChaincodeStub β) (indexStr id newId : String)
    (h : (append_id J stub indexStr id false).1 = .ok newId) :
    (append_id J stub indexStr id false).2.state = fun k =>
      if k = indexStr then some (J.marshalIndex (J.decodeIndex (stub.state indexStr) ++ [id]))
      else stub.state k := by
  by_cases f0 : stub.faults stub.clock = true
  · simp [append_id, GetState, f0] at h
  by_cases f1 : stub.faults (stub.clock + 1) = true
  · simp [append_id, GetState, f0, PutState, f1] at h
  simp [append_id, GetState, f0, PutState, f1]

theorem add_account_state_of_ne (J : Codec β) (stub : ChaincodeStub β) (args : List String)
    (k : String) (hk : k ≠ accountIndexStr) (hid : args.head? ≠ some k) :
    (add_account J stub args).2.state k = stub.state k := by
  match args with
  | [] => rfl
  | [arg0] =>
    simp only [add_account]
    rcases ha : append_id J stub accountIndexStr arg0 false with ⟨r, stub1⟩
    have h1 := congrArg (fun p => p.2.state k) ha
    simp only [append_id_state_of_ne _ _ _ _ _ _ hk] at h1
    cases r <;> simp [ha, h1]
  | arg0 :: arg1 :: _ =>
    have hne : k ≠ arg0 := fun h => hid (by simp [h])
    simp only [add_account]
    rcases ha : append_id J stub accountIndexStr arg0 false with ⟨r, stub1⟩
    have h1 := congrArg (fun p => p.2.state k) ha
    simp only [append_id_state_of_ne _ _ _ _ _ _ hk] at h1
    cases r with
    | error e => simp [ha, h1]
    | ok id =>
      have hidEq : id = arg0 := append_id_ok_id J stub accountIndexStr arg0 id (by rw [ha])
      subst hidEq
      simp only
      rcases hp : PutState stub1 id (J.bytes arg1) with ⟨e, stub2⟩
      try rw [hp] at hok
      have h2 := congrArg (fun p => p.2.state k) hp
      simp only [PutState_state_of_ne _ _ _ _ hne] at h2
      cases e <;> simp [hp, h1, h2]

/-- A successful `add_account` has appended its first argument to the index of its kind. -/
theorem add_account_ok_index (J : Codec β) (hJ : J.RoundTrip) (stub : ChaincodeStub β)
    (args : List String) (hok : (add_account J stub args).1.isOk = true)
    (hid : args.head? ≠ some accountIndexStr) :
    ∃ arg0 rest, args = arg0 :: rest ∧
      J.decodeIndex ((add_account J stub args).2.state accountIndexStr)
        = J.decodeIndex (stub.state accountIndexStr) ++ [arg0] := by
  match args with
  | [] => simp [add_account, Reply.isOk] at hok
  | [arg0] =>
    simp only [add_account] at hok
    rcases ha : append_id J stub accountIndexStr arg0 false with ⟨r, stub1⟩
    rw [ha] at hok
    cases r <;> simp [Reply.isOk] at hok
  | arg0 :: arg1 :: rest =>
    refine ⟨arg0, arg1 :: rest, rfl, ?_⟩
    have hne : accountIndexStr ≠ arg0 := fun h => hid (by simp [h])
    simp only [add_account] at hok ⊢
    rcases ha : append_id J stub accountIndexStr arg0 false with ⟨r, stub1⟩
    rw [ha] at hok
    cases r with
    | error e => simp [Reply.isOk] at hok
    | ok id =>
      have hidEq : id = arg0 := append_id_ok_id J stub accountIndexStr arg0 id (by rw [ha])
      subst hidEq
      have h1 : stub1.state accountIndexStr
          = some (J.marshalIndex (J.decodeIndex (stub.state accountIndexStr) ++ [id])) := by
        have := congrArg (fun f => f accountIndexStr)
          (append_id_ok_state J stub accountIndexStr id id (by rw [ha]))
        rw [ha] at this
        simpa using this
      simp only at hok ⊢
      rcases hp : PutState stub1 id (J.bytes arg1) with ⟨e, stub2⟩
      try rw [hp] at hok
      have h2 := congrArg (fun p => p.2.state accountIndexStr) hp
      simp only [PutState_state_of_ne _ _ _ _ hne] at h2
      cases e with
      | some _ => simp [Reply.isOk] at hok
      | none =>
        simp only [← h2, h1, Codec.decodeIndex, hJ.index]

theorem add_slot_state_of_ne (J : Codec β) (stub : ChaincodeStub β) (args : List String)
    (k : String) (hk : k ≠ slotIndexStr) (hid : args.head? ≠ some k) :
    (add_slot J stub args).2.state k = stub.state k := by
  match args with
  | [] => rfl
  | [arg0] =>
    simp only [add_slot]
    rcases ha : append_id J stub slotIndexStr arg0 false with ⟨r, stub1⟩
    have h1 := congrArg (fun p => p.2.state k) ha
    simp only [append_id_state_of_ne _ _ _ _ _ _ hk] at h1
    cases r <;> simp [ha, h1]
  | arg0 :: arg1 :: _ =>
    have hne : k ≠ arg0 := fun h => hid (by simp [h])
    simp only [add_slot]
    rcases ha : append_id J stub slotIndexStr arg0 false with ⟨r, stub1⟩
    have h1 := congrArg (fun p => p.2.state k) ha
    simp only [append_id_state_of_ne _ _ _ _ _ _ hk] at h1
    cases r with
    | error e => simp [ha, h1]
    | ok id =>
      have hidEq : id = arg0 := append_id_ok_id J stub slotIndexStr arg0 id (by rw [ha])
      subst hidEq
      simp only
      rcases hp : PutState stub1 id (J.bytes arg1) with ⟨e, stub2⟩
      try rw [hp] at hok
      have h2 := congrArg (fun p => p.2.state k) hp
      simp only [PutState_state_of_ne _ _ _ _ hne] at h2
      cases e <;> simp [hp, h1, h2]

/-- A successful `add_slot` has appended its first argument to the index of its kind. -/
theorem add_slot_ok_index (J : Codec β) (hJ : J.RoundTrip) (stub : ChaincodeStub β)
    (args : List String) (hok : (add_slot J stub args).1.isOk = true)
    (hid : args.head? ≠ some slotIndexStr) :
    ∃ arg0 rest, args = arg0 :: rest ∧
      J.decodeIndex ((add_slot J stub args).2.state slotIndexStr)
        = J.decodeIndex (stub.state slotIndexStr) ++ [arg0] := by
  match args with
  | [] => simp [add_slot, Reply.isOk] at hok
  | [arg0] =>
    simp only [add_slot] at hok
    rcases ha : append_id J stub slotIndexStr arg0 false with ⟨r, stub1⟩
    rw [ha] at hok
    cases r <;> simp [Reply.isOk] at hok
  | arg0 :: arg1 :: rest =>
    refine ⟨arg0, arg1 :: rest, rfl, ?_⟩
    have hne : slotIndexStr ≠ arg0 := fun h => hid (by simp [h])
    simp only [add_slot] at hok ⊢
    rcases ha : append_id J stub slotIndexStr arg0 false with ⟨r, stub1⟩
    rw [ha] at hok
    cases r with
    | error e => simp [Reply.isOk] at hok
    | ok id =>
      have hidEq : id = arg0 := append_id_ok_id J stub slotIndexStr arg0 id (by rw [ha])
      subst hidEq
      have h1 : stub1.state slotIndexStr
          = some (J.marshalIndex (J.decodeIndex (stub.state slotIndexStr) ++ [id])) := by
        have := congrArg (fun f => f slotIndexStr)
          (append_id_ok_state J stub slotIndexStr id id (by rw [ha]))
        rw [ha] at this
        simpa using this
      simp only at hok ⊢
      rcases hp : PutState stub1 id (J.bytes arg1) with ⟨e, stub2⟩
      try rw [hp] at hok
      have h2 := congrArg (fun p => p.2.state slotIndexStr) hp
      simp only [PutState_state_of_ne _ _ _ _ hne] at h2
      cases e with
      | some _ => simp [Reply.isOk] at hok
      | none =>
        simp only [← h2, h1, Codec.decodeIndex, hJ.index]

theorem add_device_state_of_ne (J : Codec β) (stub : ChaincodeStub β) (args : List String)
    (k : String) (hk : k ≠ deviceIndexStr) (hid : args.head? ≠ some k) :
    (add_device J stub args).2.state k = stub.state k := by
  match args with
  | [] => rfl
  | [arg0] =>
    simp only [add_device]
    rcases ha : append_id J stub deviceIndexStr arg0 false with ⟨r, stub1⟩
    have h1 := congrArg (fun p => p.2.state k) ha
    simp only [append_id_state_of_ne _ _ _ _ _ _ hk] at h1
    cases r <;> simp [ha, h1]
  | arg0 :: arg1 :: _ =>
    have hne : k ≠ arg0 := fun h => hid (by simp [h])
    simp only [add_device]
    rcases ha : append_id J stub deviceIndexStr arg0 false with ⟨r, stub1⟩
    have h1 := congrArg (fun p => p.2.state k) ha
    simp only [append_id_state_of_ne _ _ _ _ _ _ hk] at h1
    cases r with
    | error e => simp [ha, h1]
    | ok id =>
      have hidEq : id = arg0 := append_id_ok_id J stub deviceIndexStr arg0 id (by rw [ha])
      subst hidEq
      simp only
      rcases hp : PutState stub1 id (J.bytes arg1) with ⟨e, stub2⟩
      try rw [hp] at hok
      have h2 := congrArg (fun p => p.2.state k) hp
      simp only [PutState_state_of_ne _ _ _ _ hne] at h2
      cases e <;> simp [hp, h1, h2]

/-- A successful `add_device` has appended its first argument to the index of its kind. -/
theorem add_device_ok_index (J : Codec β) (hJ : J.RoundTrip) (stub : ChaincodeStub β)
    (args : List String) (hok : (add_device J stub args).1.isOk = true)
    (hid : args.head? ≠ some deviceIndexStr) :
    ∃ arg0 rest, args = arg0 :: rest ∧
      J.decodeIndex ((add_device J stub args).2.state deviceIndexStr)
        = J.decodeIndex (stub.state deviceIndexStr) ++ [arg0] := by
  match args with
  | [] => simp [add_device, Reply.isOk] at hok
  | [arg0] =>
    simp only [add_device] at hok
    rcases ha : append_id J stub deviceIndexStr arg0 false with ⟨r, stub1⟩
    rw [ha] at hok
    cases r <;> simp [Reply.isOk] at hok
  | arg0 :: arg1 :: rest =>
    refine ⟨arg0, arg1 :: rest, rfl, ?_⟩
    have hne : deviceIndexStr ≠ arg0 := fun h => hid (by simp [h])
    simp only [add_device] at hok ⊢
    rcases ha : append_id J stub deviceIndexStr arg0 false with ⟨r, stub1⟩
    rw [ha] at hok
    cases r with
    | error e => simp [Reply.isOk] at hok
    | ok id =>
      have hidEq : id = arg0 := append_id_ok_id J stub deviceIndexStr arg0 id (by rw [ha])
      subst hidEq
      have h1 : stub1.state deviceIndexStr
          = some (J.marshalIndex (J.decodeIndex (stub.state deviceIndexStr) ++ [id])) := by
        have := congrArg (fun f => f deviceIndexStr)
          (append_id_ok_state J stub deviceIndexStr id id (by rw [ha]))
        rw [ha] at this
        simpa using this
      simp only at hok ⊢
      rcases hp : PutState stub1 id (J.bytes arg1) with ⟨e, stub2⟩
      try rw [hp] at hok
      have h2 := congrArg (fun p => p.2.state deviceIndexStr) hp
      simp only [PutState_state_of_ne _ _ _ _ hne] at h2
      cases e with
      | some _ => simp [Reply.isOk] at hok
      | none =>
        simp only [← h2, h1, Codec.decodeIndex, hJ.index]

/-- Whether it succeeds or fails, `place_bid` changes no key other than the bid index and
the keys of its three records. -/
theorem place_bid_state_of_avoids (J : Codec β) (stub : ChaincodeStub β) (args : List String)
    (k : String) (hk : k ≠ bidIndexStr) (h : placeAvoids J stub k args) :
    (place_bid J stub args).2.state k = stub.state k := by
  match args with
  | [] => rfl
  | [_] => rfl
  | arg0 :: arg1 :: rest =>
    cases hb : J.unmarshalBid (J.bytes arg1) with
    | none => simp [place_bid, hb]
    | some b =>
    by_cases f0 : stub.faults stub.clock = true
    · simp [place_bid, hb, GetState, f0]
    cases ha : J.decodeAccount (stub.state b.Username) with
    | none => simp [place_bid, hb, GetState, f0, ha]
    | some a =>
    by_cases f1 : stub.faults (stub.clock + 1) = true
    · simp [place_bid, hb, GetState, f0, ha, f1]
    cases hs : J.decodeSlot (stub.state b.SlotId) with
    | error e => simp [place_bid, hb, GetState, f0, ha, f1, hs]
    | ok s =>
    simp only [placeAvoids, hb, ha, hs] at h
    obtain ⟨h1, h2, h3⟩ := h
    by_cases hbal : a.Balance < b.Amount
    · simp [place_bid, hb, GetState, f0, ha, f1, hs, hbal]
    by_cases hhigh : s.HighestBidAmount ≥ b.Amount
    · simp [place_bid, hb, GetState, f0, ha, f1, hs, hbal, hhigh]
    by_cases f2 : stub.faults (stub.clock + 1 + 1) = true
    · simp [place_bid, hb, GetState, f0, ha, f1, hs, hbal, hhigh, append_id, f2]
    by_cases f3 : stub.faults (stub.clock + 1 + 1 + 1) = true
    · simp [place_bid, hb, GetState, f0, ha, f1, hs, hbal, hhigh, append_id, f2, PutState,
        f3]
    by_cases f4 : stub.faults (stub.clock + 1 + 1 + 1 + 1) = true
    · simp [place_bid, hb, GetState, f0, ha, f1, hs, hbal, hhigh, append_id, f2, PutState,
        f3, f4, hk]
    by_cases f5 : stub.faults (stub.clock + 1 + 1 + 1 + 1 + 1) = true
    · simp [place_bid, hb, GetState, f0, ha, f1, hs, hbal, hhigh, append_id, f2, PutState,
        f3, f4, f5, hk, h1]
    by_cases f6 : stub.faults (stub.clock + 1 + 1 + 1 + 1 + 1 + 1) = true
    · simp [place_bid, hb, GetState, f0, ha, f1, hs, hbal, hhigh, append_id, f2, PutState,
        f3, f4, f5, f6, hk, h1, h2]
    simp [place_bid, hb, GetState, f0, ha, f1, hs, hbal, hhigh, append_id, f2, PutState,
      f3, f4, f5, f6, hk, h1, h2, h3]

/-- Whether it succeeds or fails, the loop of `payout_bid` changes no key other than the
usernames carried by the accounts it refunds. -/
theorem payout_loop_state_of_avoids (J : Codec β) (hJ : J.RoundTrip) (highest : Int)
    (k : String) :
    ∀ (bids : List Bid) (stub : ChaincodeStub β),
      (∀ bid ∈ bids, bid.Amount < highest →
        ∀ a, J.decodeAccount (stub.state bid.Username) = some a → k ≠ a.Username) →
      (payout_loop J highest bids stub).2.state k = stub.state k
  | [], _, _ => rfl
  | bid :: rest, stub, h => by
    by_cases hlt : bid.Amount < highest
    · by_cases f0 : stub.faults stub.clock = true
      · simp [payout_loop, hlt, GetState, f0]
      cases ha0 : J.decodeAccount (stub.state bid.Username) with
      | none => simp [payout_loop, hlt, GetState, f0, ha0]
      | some a0 =>
      have hne : k ≠ a0.Username := h bid (List.mem_cons_self _ _) hlt a0 ha0
      by_cases f1 : stub.faults (stub.clock + 1) = true
      · simp [payout_loop, hlt, GetState, f0, ha0, PutState, f1]
      simp only [Bool.not_eq_true] at f0 f1
      have hstep : payout_loop J highest (bid :: rest) stub =
          payout_loop J highest rest
            { state := fun k => if k = a0.Username then
                some (J.marshalAccount { a0 with Balance := add64 a0.Balance bid.Amount })
                else stub.state k
              faults := stub.faults
              clock := stub.clock + 1 + 1 } := by
        simp only [payout_loop, hlt, if_true, GetState, f0, ha0, PutState, f1,
          Bool.false_eq_true, if_false]
      rw [hstep, payout_loop_state_of_avoids J hJ highest k rest]
      · simp [hne]
      · intro bid' hmem hlt' a ha
        by_cases hk' : bid'.Username = a0.Username
        · simp only [hk', if_true, Codec.decodeAccount, hJ.account, Option.some.injEq] at ha
          subst ha
          exact hne
        · simp only [hk', if_false] at ha
          exact h bid' (List.mem_cons_of_mem _ hmem) hlt' a ha
    · have hstep : payout_loop J highest (bid :: rest) stub = payout_loop J highest rest stub := by
        simp only [payout_loop, hlt, if_false]
      rw [hstep]
      exact payout_loop_state_of_avoids J hJ highest k rest stub
        (fun bid' hmem => h bid' (List.mem_cons_of_mem _ hmem))

theorem payout_bid_state_of_avoids (J : Codec β) (hJ : J.RoundTrip) (stub : ChaincodeStub β)
    (args : List String) (k : String) (h : payoutAvoids J stub k args) :
    (payout_bid J stub args).2.state k = stub.state k := by
  match args with
  | [] => rfl
  | slotId :: rest =>
    by_cases f0 : stub.faults stub.clock = true
    · simp [payout_bid, GetState, f0]
    cases hs : J.decodeSlot (stub.state slotId) with
    | error e => simp [payout_bid, GetState, f0, hs]
    | ok s =>
    simp only [payoutAvoids, hs] at h
    simp only [Bool.not_eq_true] at f0
    have hrun : payout_bid J stub (slotId :: rest) =
        payout_loop J s.HighestBidAmount s.Bids { stub with clock := stub.clock + 1 } := by
      simp only [payout_bid, GetState, f0, hs, Bool.false_eq_true, if_false]
    rw [hrun, payout_loop_state_of_avoids J hJ s.HighestBidAmount k s.Bids]
    intro bid hmem hlt a ha
    have := h bid hmem hlt
    simp only at ha
    rw [ha] at this
    exact this

/-- An invocation changes no key that it avoids. -/
theorem Invoke_state_of_avoids (J : Codec β) (hJ : J.RoundTrip) (stub : ChaincodeStub β)
    (function : String) (args : List String) (k : String)
    (h : Avoids J k stub function args) :
    (Invoke J stub function args).2.state k = stub.state k := by
  obtain ⟨hidx, hrec⟩ := h
  unfold Invoke
  unfold indexKey at hidx
  unfold RecordsAvoid at hrec
  by_cases h0 : function = "init"
  · simp [h0, Init]
  by_cases h1 : function = "add_slot"
  · subst h1
    simp only [if_true] at hidx
    simp only [if_neg h0, if_true]
    refine add_slot_state_of_ne J stub args k (fun e => hidx (by rw [e])) ?_
    simpa using hrec
  by_cases h2 : function = "place_bid"
  · subst h2
    simp only [if_neg h1, if_true] at hidx
    simp only [if_neg h0, if_neg h1, if_true]
    refine place_bid_state_of_avoids J stub args k (fun e => hidx (by rw [e])) ?_
    simpa using hrec
  by_cases h3 : function = "payout_bid"
  · subst h3
    simp only [if_neg h0, if_neg h1, if_neg h2, if_true]
    refine payout_bid_state_of_avoids J hJ stub args k ?_
    simpa using hrec
  by_cases h4 : function = "add_device"
  · subst h4
    simp only [if_neg h1, if_neg h2, if_true] at hidx
    simp only [if_neg h0, if_neg h1, if_neg h2, if_neg h3, if_true]
    refine add_device_state_of_ne J stub args k (fun e => hidx (by rw [e])) ?_
    simpa using hrec
  by_cases h5 : function = "add_account"
  · subst h5
    simp only [if_neg h1, if_neg h2, if_neg h4, if_true] at hidx
    simp only [if_neg h0, if_neg h1, if_neg h2, if_neg h3, if_neg h4, if_true]
    refine add_account_state_of_ne J stub args k (fun e => hidx (by rw [e])) ?_
    simpa using hrec
  simp only [if_neg h0, if_neg h1, if_neg h2, if_neg h3, if_neg h4, if_neg h5]

/-- A sequence of invocations changes no key that each of them avoids. -/
theorem invokeAll_state_of_avoids (J : Codec β) (hJ : J.RoundTrip) (k : String) :
    ∀ (calls : List (String × List String)) (stub : ChaincodeStub β),
      Along J (Avoids J k) stub calls → (invokeAll J stub calls).state k = stub.state k
  | [], _, _ => rfl
  | c :: rest, stub, h => by
    rw [invokeAll, invokeAll_state_of_avoids J hJ k rest _ h.2,
      Invoke_state_of_avoids J hJ stub c.1 c.2 k h.1]

/-! ## Bid records -/

/-- C10 (as stated, refuted): after alice's successful bid `b1` in scenario A, a successful
`add_slot` with the identifier `b1` replaces the bid record stored under `b1`. -/
theorem bid_record_overwritten :
    (place_bid demoCodec scenarioA ["b1", "b1,s1,50,,alice"]).1 = .ok none ∧
    (place_bid demoCodec scenarioA ["b1", "b1,s1,50,,alice"]).2.state "b1"
      = some (.text "b1,s1,50,,alice") ∧
    (Invoke demoCodec (place_bid demoCodec scenarioA ["b1", "b1,s1,50,,alice"]).2
      "add_slot" ["b1", "b1,,0"]).1 = .ok none ∧
    (Invoke demoCodec (place_bid demoCodec scenarioA ["b1", "b1,s1,50,,alice"]).2
      "add_slot" ["b1", "b1,,0"]).2.state "b1"
      ≠ (place_bid demoCodec scenarioA ["b1", "b1,s1,50,,alice"]).2.state "b1" := by
  decide

/-- C10 (amended): once a successful `place_bid` has stored the bid payload under `bid.id`
(a key other than those of its slot and account), the value stored under that key is the
same after every later sequence of invocations, successful or not, none of which writes an
index or a record under `bid.id`. -/
theorem bid_record_kept (J : Codec β) (hJ : J.RoundTrip) (stub : ChaincodeStub β)
    (arg0 arg1 : String) (rest : List String) (b : Bid) (a : Account) (s : Slot)
    (v : Option β)
    (hb : J.unmarshalBid (J.bytes arg1) = some b)
    (ha : J.decodeAccount (stub.state b.Username) = some a)
    (hs : J.decodeSlot (stub.state b.SlotId) = .ok s)
    (hid : b.Id ≠ s.Id ∧ b.Id ≠ a.Username)
    (hok : (place_bid J stub (arg0 :: arg1 :: rest)).1 = .ok v)
    (calls : List (String × List String))
    (hav : Along J (Avoids J b.Id) (place_bid J stub (arg0 :: arg1 :: rest)).2 calls) :
    (place_bid J stub (arg0 :: arg1 :: rest)).2.state b.Id = some (J.bytes arg1) ∧
    (invokeAll J (place_bid J stub (arg0 :: arg1 :: rest)).2 calls).state b.Id
      = some (J.bytes arg1) := by
  have hput : (place_bid J stub (arg0 :: arg1 :: rest)).2.state b.Id = some (J.bytes arg1) := by
    obtain ⟨_, arg1', _, b', a', s', hargs, hb', ha', hs', _, _, hst, _⟩ :=
      place_bid_ok_inv J stub _ _ hok
    have e1 : arg1' = arg1 := ((List.cons.inj (List.cons.inj hargs).2).1).symm
    subst e1
    rw [hb] at hb'
    cases hb'
    rw [ha] at ha'
    cases ha'
    rw [hs] at hs'
    cases hs'
    rw [hst]
    simp [placedState, hid.1, hid.2]
  exact ⟨hput, by rw [invokeAll_state_of_avoids J hJ b.Id calls _ hav, hput]⟩

/-- C10 (witness): alice's bid `b1` of scenario A is still stored after a new account,
bob's higher bid and the payout of the slot. -/
theorem bid_record_kept_witness :
    (place_bid demoCodec scenarioA ["b1", "b1,s1,50,,alice"]).2.state "b1"
      = some (demoCodec.bytes "b1,s1,50,,alice") ∧
    (invokeAll demoCodec (place_bid demoCodec scenarioA ["b1", "b1,s1,50,,alice"]).2
      laterCalls).state "b1" = some (demoCodec.bytes "b1,s1,50,,alice") :=
  bid_record_kept demoCodec demoCodec_roundTrip scenarioA "b1" "b1,s1,50,,alice" []
    (mkBid "b1" "s1" 50 "alice") (mkAccount "alice" 100) (mkSlot "s1" [] 0) none
    (by decide) (by decide) (by decide) (by decide) (by decide) laterCalls (by decide)

/-! ## Indexes -/

/-- A successful invocation none of whose records goes under `ik` extends the index stored
under `ik` by what it appends to it. -/
theorem Invoke_index (J : Codec β) (hJ : J.RoundTrip) (stub : ChaincodeStub β)
    (function : String) (args : List String) (ik : String)
    (hok : Succeeds J stub function args) (hrec : RecordsAvoid J ik stub function args) :
    J.decodeIndex ((Invoke J stub function args).2.state ik)
      = J.decodeIndex (stub.state ik) ++ appended J ik function args := by
  by_cases hidx : indexKey function = some ik
  · have happ : appended J ik function args = (storedId J function args).toList := by
      simp [appended, hidx]
    rw [happ]
    unfold Succeeds Invoke at hok
    unfold Invoke
    unfold RecordsAvoid at hrec
    unfold storedId
    unfold indexKey at hidx
    by_cases h0 : function = "init"
    · subst h0; simp at hidx
    by_cases h1 : function = "add_slot"
    · subst h1
      simp only [if_true, Option.some.injEq] at hidx
      subst hidx
      rw [if_neg h0, if_pos rfl] at hok ⊢
      obtain ⟨arg0, rest, hargs, hres⟩ := add_slot_ok_index J hJ stub args hok
        (by simpa using hrec)
      subst hargs
      simpa using hres
    by_cases h2 : function = "place_bid"
    · subst h2
      simp only [if_neg h1, if_true, Option.some.injEq] at hidx
      subst hidx
      rw [if_neg h0, if_neg h1, if_pos rfl] at hok ⊢
      simp only [if_true] at hrec
      cases hr : (place_bid J stub args).1 with
      | err msg => simp [hr, Reply.isOk] at hok
      | crash => simp [hr, Reply.isOk] at hok
      | ok v =>
        obtain ⟨arg0, arg1, rest, b, a, s, hargs, hb, ha, hs, _, _, hst, _⟩ :=
          place_bid_ok_inv J stub args v hr
        subst hargs
        simp only [placeAvoids, hb, ha, hs] at hrec
        obtain ⟨r1, r2, r3⟩ := hrec
        rw [hst]
        simp [placedState, r1, r2, r3, hb, Codec.decodeIndex, hJ.index]
    by_cases h3 : function = "payout_bid"
    · subst h3; simp at hidx
    by_cases h4 : function = "add_device"
    · subst h4
      simp only [if_neg h1, if_neg h2, if_true, Option.some.injEq] at hidx
      subst hidx
      rw [if_neg h0, if_neg h1, if_neg h2, if_neg h3, if_pos rfl] at hok ⊢
      obtain ⟨arg0, rest, hargs, hres⟩ := add_device_ok_index J hJ stub args hok
        (by simpa using hrec)
      subst hargs
      simpa using hres
    by_cases h5 : function = "add_account"
    · subst h5
      simp only [if_neg h1, if_neg h2, if_neg h4, if_true, Option.some.injEq] at hidx
      subst hidx
      rw [if_neg h0, if_neg h1, if_neg h2, if_neg h3, if_neg h4, if_pos rfl] at hok ⊢
      obtain ⟨arg0, rest, hargs, hres⟩ := add_account_ok_index J hJ stub args hok
        (by simpa using hrec)
      subst hargs
      simpa using hres
    simp [h1, h2, h4, h5] at hidx
  · rw [Invoke_state_of_avoids J hJ stub function args ik ⟨hidx, hrec⟩]
    simp [appended, hidx]

/-- A sequence of successful invocations none of whose records goes under `ik` extends the
index stored under `ik` by the identifiers it stores for that index, in order. -/
theorem invokeAll_index (J : Codec β) (hJ : J.RoundTrip) (ik : String) :
    ∀ (calls : List (String × List String)) (stub : ChaincodeStub β),
      Along J (Succeeds J) stub calls → Along J (RecordsAvoid J ik) stub calls →
      J.decodeIndex ((invokeAll J stub calls).state ik)
        = J.decodeIndex (stub.state ik) ++ idsFor J ik calls
  | [], _, _, _ => by simp [invokeAll, idsFor]
  | c :: rest, stub, hok, hav => by
    rw [invokeAll, invokeAll_index J hJ ik rest _ hok.2 hav.2,
      Invoke_index J hJ stub c.1 c.2 ik hok.1 hav.1, idsFor, List.append_assoc]

/-- C9 (as stated, refuted): from the empty store, two successful `add_account` calls with
the same username leave that username twice in the account index. -/
theorem index_holds_identifier_twice :
    (Invoke demoCodec emptyStub "add_account" ["alice", "h,s,alice,100"]).1 = .ok none ∧
    (Invoke demoCodec (Invoke demoCodec emptyStub "add_account" ["alice", "h,s,alice,100"]).2
      "add_account" ["alice", "h,s,alice,5"]).1 = .ok none ∧
    demoCodec.decodeIndex
      ((invokeAll demoCodec emptyStub
        [("add_account", ["alice", "h,s,alice,100"]),
          ("add_account", ["alice", "h,s,alice,5"])]).state accountIndexStr)
      = ["alice", "alice"] ∧
    List.count "alice" ["alice", "alice"] ≠ 1 := by
  decide

/-- C9 (amended): starting from an empty store, after any finite sequence of successful
invocations none of which stores a record under one of the four index keys, each of the
four indexes holds the identifiers stored for its kind, one entry for every successful
call, in the order of the calls. -/
theorem indexes_list_stored_ids (J : Codec β) (hJ : J.RoundTrip) (stub : ChaincodeStub β)
    (hempty : ∀ k, stub.state k = none) (calls : List (String × List String))
    (hok : Along J (Succeeds J) stub calls)
    (hav : ∀ ik ∈ indexKeys, Along J (RecordsAvoid J ik) stub calls) :
    ∀ ik ∈ indexKeys,
      J.decodeIndex ((invokeAll J stub calls).state ik) = idsFor J ik calls := by
  intro ik hik
  rw [invokeAll_index J hJ ik calls stub hok (hav ik hik), hempty ik]
  simp [Codec.decodeIndex]

/-- C9 (witness): the set-up of scenario A from the empty store and alice's bid leave the
account index `[alice, bob]`, the slot index `[s1]`, the bid index `[b1]` and an empty
device index. -/
theorem indexes_list_stored_ids_witness :
    demoCodec.decodeIndex ((invokeAll demoCodec emptyStub setupCalls).state accountIndexStr)
      = ["alice", "bob"] ∧
    demoCodec.decodeIndex ((invokeAll demoCodec emptyStub setupCalls).state slotIndexStr)
      = ["s1"] ∧
    demoCodec.decodeIndex ((invokeAll demoCodec emptyStub setupCalls).state bidIndexStr)
      = ["b1"] ∧
    demoCodec.decodeIndex ((invokeAll demoCodec emptyStub setupCalls).state deviceIndexStr)
      = [] :=
  ⟨(indexes_list_stored_ids demoCodec demoCodec_roundTrip emptyStub (fun _ => rfl) setupCalls
      (by decide) (by decide) accountIndexStr (by decide)).trans (by decide),
    (indexes_list_stored_ids demoCodec demoCodec_roundTrip emptyStub (fun _ => rfl) setupCalls
      (by decide) (by decide) slotIndexStr (by decide)).trans (by decide),
    (indexes_list_stored_ids demoCodec demoCodec_roundTrip emptyStub (fun _ => rfl) setupCalls
      (by decide) (by decide) bidIndexStr (by decide)).trans (by decide),
    (indexes_list_stored_ids demoCodec demoCodec_roundTrip emptyStub (fun _ => rfl) setupCalls
      (by decide) (by decide) deviceIndexStr (by decide)).trans (by decide)⟩

/-! ## The highest bid amount of a slot -/

theorem maxAmount_append (bids : List Bid) (b : Bid) :
    maxAmount (bids ++ [b]) = if bids = [] then b.Amount else max (maxAmount bids) b.Amount := by
  induction bids with
  | nil => simp [maxAmount]
  | cons x rest ih =>
    cases rest with
    | nil => simp [maxAmount]
    | cons y rest' =>
      have h1 : maxAmount (x :: y :: rest' ++ [b])
          = max x.Amount (maxAmount (y :: rest' ++ [b])) := by
        simp [maxAmount]
      have h2 : maxAmount (x :: y :: rest') = max x.Amount (maxAmount (y :: rest')) := by
        simp [maxAmount]
      rw [h1, ih, h2]
      simp [max_assoc]

/-- C5: if the slot stored under `sid` (under its own id) has a highest bid amount equal to
the maximum of the amounts of its bids (zero without bids), then so it has after any finite
sequence of successful invocations, each of which either writes nothing under `sid` or is a
`place_bid` on that slot whose account is written under another key. -/
theorem highest_tracks_max (J : Codec β) (hJ : J.RoundTrip) (sid : String)
    (calls : List (String × List String)) (stub : ChaincodeStub β)
    (hinv : SlotTracksMax J stub.state sid)
    (hok : Along J (Succeeds J) stub calls)
    (hsafe : Along J (SlotCall J sid) stub calls) :
    SlotTracksMax J (invokeAll J stub calls).state sid := by
  induction calls generalizing stub with
  | nil => exact hinv
  | cons c rest ih =>
    refine ih (Invoke J stub c.1 c.2).2 ?_ hok.2 hsafe.2
    rcases hsafe.1 with hav | ⟨hfn, hplace⟩
    · unfold SlotTracksMax
      rw [Invoke_state_of_avoids J hJ stub c.1 c.2 sid hav]
      exact hinv
    · obtain ⟨s, hs, hsid, hmax⟩ := hinv
      have hsucc : (Invoke J stub c.1 c.2).1.isOk = true := hok.1
      have hinvoke : Invoke J stub c.1 c.2 = place_bid J stub c.2 := by
        simp [Invoke, hfn]
      rw [hinvoke] at hsucc ⊢
      cases hr : (place_bid J stub c.2).1 with
      | err msg => simp [hr, Reply.isOk] at hsucc
      | crash => simp [hr, Reply.isOk] at hsucc
      | ok v =>
        obtain ⟨arg0, arg1, rest', b, a, s', hargs, hb, ha, hs', _, hhigh, hst, _⟩ :=
          place_bid_ok_inv J stub c.2 v hr
        rw [hargs] at hplace
        simp only [placeOnSlot, hb, ha] at hplace
        obtain ⟨hslot, hacc⟩ := hplace
        rw [hslot, hs] at hs'
        cases hs'
        refine ⟨{ s with HighestBidAmount := b.Amount, Bids := s.Bids ++ [b] }, ?_, hsid, ?_⟩
        · rw [hst]
          simp [placedState, hacc, hsid, Codec.decodeSlot, hJ.slot]
        · simp only [maxAmount_append]
          split
          · rfl
          · rw [← hmax]
            exact (max_eq_right (le_of_lt hhigh)).symm

/-- C5 (witness): the slot `s1` of scenario A through both bids and the payout. -/
theorem highest_tracks_max_witness :
    SlotTracksMax demoCodec (invokeAll demoCodec scenarioA auctionCalls).state "s1" :=
  highest_tracks_max demoCodec demoCodec_roundTrip "s1" auctionCalls scenarioA
    ⟨mkSlot "s1" [] 0, by decide, by decide, by decide⟩ (by decide) (by decide)

/-! ## `append_id` -/

/-- C14: when no storage call fails, `append_id` returns the candidate id if `create` is
false and the candidate id followed by the decimal digits of the length of the current
index plus one if `create` is true; afterwards the index under the kind's key is the
previous index followed by the returned id, and no other key is changed. An index key never
written counts as the empty index, so the index becomes the returned id alone. -/
theorem append_id_contract (J : Codec β) (hJ : J.RoundTrip) (stub : ChaincodeStub β)
    (indexStr id : String) (create : Bool) (hf : stub.NoFault) :
    (create = false → (append_id J stub indexStr id create).1 = .ok id) ∧
    (create = true → (append_id J stub indexStr id create).1 =
      .ok (id ++ String.mk
        (Nat.toDigits 10 ((J.decodeIndex (stub.state indexStr)).length + 1)))) ∧
    (∀ finalId, (append_id J stub indexStr id create).1 = .ok finalId →
      J.decodeIndex ((append_id J stub indexStr id create).2.state indexStr)
        = J.decodeIndex (stub.state indexStr) ++ [finalId] ∧
      (stub.state indexStr = none →
        J.decodeIndex ((append_id J stub indexStr id create).2.state indexStr) = [finalId])) ∧
    (∀ k, k ≠ indexStr → (append_id J stub indexStr id create).2.state k = stub.state k) := by
  have hf' : ∀ n, stub.faults n = false := hf
  have hrun : append_id J stub indexStr id create =
      (.ok (if create = true then
          id ++ toString ((J.decodeIndex (stub.state indexStr)).length + 1) else id),
        { state := fun k => if k = indexStr then
            some (J.marshalIndex (J.decodeIndex (stub.state indexStr) ++
              [if create = true then
                id ++ toString ((J.decodeIndex (stub.state indexStr)).length + 1) else id]))
            else stub.state k
          faults := stub.faults
          clock := stub.clock + 1 + 1 }) := by
    simp only [append_id, GetState, hf', PutState, Bool.false_eq_true, if_false]
  rw [hrun]
  refine ⟨fun hc => by simp [hc], fun hc => ?_, fun finalId hfin => ?_, fun k hk => by simp [hk]⟩
  · simp only [hc, if_true]
    rfl
  · simp only [Except.ok.injEq] at hfin
    subst hfin
    have hdec : J.decodeIndex
        (some (J.marshalIndex (J.decodeIndex (stub.state indexStr) ++
          [if create = true then
            id ++ toString ((J.decodeIndex (stub.state indexStr)).length + 1) else id])))
        = J.decodeIndex (stub.state indexStr) ++
          [if create = true then
            id ++ toString ((J.decodeIndex (stub.state indexStr)).length + 1) else id] := by
      simp [Codec.decodeIndex, hJ.index]
    refine ⟨by simpa using hdec, fun hnone => ?_⟩
    simp only [if_true]
    rw [hdec, hnone]
    simp [Codec.decodeIndex]

/-- C14 (witness): creating an id in an account index that lists alice and bob returns
`acc3` and extends the index by it. -/
theorem append_id_contract_witness :
    (true = false → (append_id demoCodec indexedStub accountIndexStr "acc" true).1 = .ok "acc") ∧
    (true = true → (append_id demoCodec indexedStub accountIndexStr "acc" true).1 =
      .ok ("acc" ++ String.mk (Nat.toDigits 10
        ((demoCodec.decodeIndex (indexedStub.state accountIndexStr)).length + 1)))) ∧
    (∀ finalId, (append_id demoCodec indexedStub accountIndexStr "acc" true).1 = .ok finalId →
      demoCodec.decodeIndex
          ((append_id demoCodec indexedStub accountIndexStr "acc" true).2.state accountIndexStr)
        = demoCodec.decodeIndex (indexedStub.state accountIndexStr) ++ [finalId] ∧
      (indexedStub.state accountIndexStr = none →
        demoCodec.decodeIndex
          ((append_id demoCodec indexedStub accountIndexStr "acc" true).2.state
            accountIndexStr) = [finalId])) ∧
    (∀ k, k ≠ accountIndexStr →
      (append_id demoCodec indexedStub accountIndexStr "acc" true).2.state k
        = indexedStub.state k) :=
  append_id_contract demoCodec demoCodec_roundTrip indexedStub accountIndexStr "acc" true
    (fun _ => rfl)

/-! ## Queries -/

/-- With a single argument the query `get_account` panics, on every store: `Query` hands
`args[1]` to `get_account`. -/
theorem Query_get_account_single (J : Codec β) (stub : ChaincodeStub β) (u : String) :
    Query J stub "get_account" [u] = (.crash, stub) := by
  simp [Query]

/-- C15 (the code at the failing input): in scenario A, where alice's account is stored
under `alice`, the query `get_account` with the single argument `alice` panics instead of
returning the stored bytes, which it returns only when the username comes second; the
queries `get_slot` and `get_device` return the bytes stored under their single argument. -/
theorem get_account_reads_second_argument :
    scenarioA.state "alice" = some (.account (mkAccount "alice" 100)) ∧
    (Query demoCodec scenarioA "get_account" ["alice"]).1 = .crash ∧
    (Query demoCodec scenarioA "get_account" ["", "alice"]).1 = .ok (scenarioA.state "alice") ∧
    (Query demoCodec scenarioA "get_slot" ["s1"]).1 = .ok (scenarioA.state "s1") ∧
    (Query demoCodec scenarioA "get_device" ["s1"]).1 = .ok (scenarioA.state "s1") := by
  decide

/-! ## The order of the checks of `place_bid` -/

theorem unmarshal_account_msg_ne (u : String) :
    "Failed to unmarshal account of " ++ u ≠ "Bid is not high enough" := by
  intro h
  have h2 := congrArg String.data h
  simp [String.data_append] at h2

theorem unmarshal_slot_msg_ne (u : String) :
    "Error unmarshalling slot with ID: " ++ u ≠ "Bid is not high enough" := by
  intro h
  have h2 := congrArg String.data h
  simp [String.data_append] at h2

theorem append_id_msg_ne (u : String) :
    "Error creating new slot with id " ++ u ≠ "Bid is not high enough" := by
  intro h
  have h2 := congrArg String.data h
  simp [String.data_append] at h2

/-- C16: for a bid that decodes, `place_bid` reports the first failing precondition in the
order account, slot, balance, bid height. An account that cannot be loaded (the read fails
or the record is missing or does not decode) gives an account error whatever is stored for
the slot; a loaded account and a slot that cannot be loaded give a slot error whatever the
amounts; account and slot loaded, a balance below the amount gives the insufficient-balance
error whatever the highest amount; and the bid-too-low error is returned only when the
three earlier checks have passed. -/
theorem place_bid_error_order (J : Codec β) (stub : ChaincodeStub β) (arg0 arg1 : String)
    (rest : List String) (b : Bid)
    (hb : J.unmarshalBid (J.bytes arg1) = some b) :
    ((stub.faults stub.clock = true ∨ J.decodeAccount (stub.state b.Username) = none) →
      ((place_bid J stub (arg0 :: arg1 :: rest)).1
          = .err "Could not retrieve information for this account" ∨
        (place_bid J stub (arg0 :: arg1 :: rest)).1
          = .err ("Failed to unmarshal account of " ++ b.Username))) ∧
    (∀ a, stub.faults stub.clock = false →
      J.decodeAccount (stub.state b.Username) = some a →
      (stub.faults (stub.clock + 1) = true ∨
        ∃ e, J.decodeSlot (stub.state b.SlotId) = .error e) →
      ((place_bid J stub (arg0 :: arg1 :: rest)).1 = .err "Could not retrieve slot" ∨
        (place_bid J stub (arg0 :: arg1 :: rest)).1
          = .err ("Error unmarshalling slot with ID: " ++ b.SlotId))) ∧
    (∀ a s, stub.faults stub.clock = false →
      J.decodeAccount (stub.state b.Username) = some a →
      stub.faults (stub.clock + 1) = false →
      J.decodeSlot (stub.state b.SlotId) = .ok s → a.Balance < b.Amount →
      (place_bid J stub (arg0 :: arg1 :: rest)).1 = .err "Unsufficient balance to place bid.") ∧
    ((place_bid J stub (arg0 :: arg1 :: rest)).1 = .err "Bid is not high enough" →
      stub.faults stub.clock = false ∧ stub.faults (stub.clock + 1) = false ∧
      ∃ a s, J.decodeAccount (stub.state b.Username) = some a ∧
        J.decodeSlot (stub.state b.SlotId) = .ok s ∧
        a.Balance ≥ b.Amount ∧ b.Amount ≤ s.HighestBidAmount) := by
  refine ⟨fun hmiss => ?_, fun a h0 ha hmiss => ?_, fun a s h0 ha h1 hs hbal => ?_,
    fun hres => ?_⟩
  · by_cases h0 : stub.faults stub.clock = true
    · left
      simp [place_bid, hb, GetState, h0]
    · rcases hmiss with h | ha
      · exact absurd h h0
      · right
        simp [place_bid, hb, GetState, h0, ha]
  · by_cases h1 : stub.faults (stub.clock + 1) = true
    · left
      simp [place_bid, hb, GetState, h0, ha, h1]
    · rcases hmiss with h | ⟨e, hs⟩
      · exact absurd h h1
      · right
        simp [place_bid, hb, GetState, h0, ha, h1, hs]
  · simp [place_bid, hb, GetState, h0, ha, h1, hs, hbal]
  · by_cases h0 : stub.faults stub.clock = true
    · simp [place_bid, hb, GetState, h0] at hres
    cases ha : J.decodeAccount (stub.state b.Username) with
    | none =>
      simp [place_bid, hb, GetState, h0, ha] at hres
      exact absurd hres (unmarshal_account_msg_ne _)
    | some a =>
    by_cases h1 : stub.faults (stub.clock + 1) = true
    · simp [place_bid, hb, GetState, h0, ha, h1] at hres
    cases hs : J.decodeSlot (stub.state b.SlotId) with
    | error e =>
      simp [place_bid, hb, GetState, h0, ha, h1, hs] at hres
      exact absurd hres (unmarshal_slot_msg_ne _)
    | ok s =>
    by_cases hbal : a.Balance < b.Amount
    · simp [place_bid, hb, GetState, h0, ha, h1, hs, hbal] at hres
    by_cases hhigh : s.HighestBidAmount ≥ b.Amount
    · exact ⟨by simpa using h0, by simpa using h1, a, s, rfl, rfl, not_lt.mp hbal, hhigh⟩
    exfalso
    by_cases f2 : stub.faults (stub.clock + 1 + 1) = true
    · simp [place_bid, hb, GetState, h0, ha, h1, hs, hbal, hhigh, append_id, f2] at hres
      exact absurd hres (append_id_msg_ne _)
    by_cases f3 : stub.faults (stub.clock + 1 + 1 + 1) = true
    · simp [place_bid, hb, GetState, h0, ha, h1, hs, hbal, hhigh, append_id, f2, PutState,
        f3] at hres
      exact absurd hres (append_id_msg_ne _)
    by_cases f4 : stub.faults (stub.clock + 1 + 1 + 1 + 1) = true
    · simp [place_bid, hb, GetState, h0, ha, h1, hs, hbal, hhigh, append_id, f2, PutState,
        f3, f4] at hres
    by_cases f5 : stub.faults (stub.clock + 1 + 1 + 1 + 1 + 1) = true
    · simp [place_bid, hb, GetState, h0, ha, h1, hs, hbal, hhigh, append_id, f2, PutState,
        f3, f4, f5] at hres
    by_cases f6 : stub.faults (stub.clock + 1 + 1 + 1 + 1 + 1 + 1) = true
    · simp [place_bid, hb, GetState, h0, ha, h1, hs, hbal, hhigh, append_id, f2, PutState,
        f3, f4, f5, f6] at hres
    simp [place_bid, hb, GetState, h0, ha, h1, hs, hbal, hhigh, append_id, f2, PutState,
      f3, f4, f5, f6] at hres

/-- C16 (witness): a bid of 150 from bob, who holds 100, on the missing slot `s9` of
scenario A is reported as a slot error; on `s1` it would be the balance error. -/
theorem place_bid_error_order_witness :
    ((scenarioA.faults scenarioA.clock = true ∨
        demoCodec.decodeAccount (scenarioA.state (mkBid "b7" "s9" 150 "bob").Username) = none) →
      ((place_bid demoCodec scenarioA ["b7", "b7,s9,150,,bob"]).1
          = .err "Could not retrieve information for this account" ∨
        (place_bid demoCodec scenarioA ["b7", "b7,s9,150,,bob"]).1
          = .err ("Failed to unmarshal account of " ++ (mkBid "b7" "s9" 150 "bob").Username))) ∧
    (∀ a, scenarioA.faults scenarioA.clock = false →
      demoCodec.decodeAccount (scenarioA.state (mkBid "b7" "s9" 150 "bob").Username) = some a →
      (scenarioA.faults (scenarioA.clock + 1) = true ∨
        ∃ e, demoCodec.decodeSlot (scenarioA.state (mkBid "b7" "s9" 150 "bob").SlotId)
          = .error e) →
      ((place_bid demoCodec scenarioA ["b7", "b7,s9,150,,bob"]).1
          = .err "Could not retrieve slot" ∨
        (place_bid demoCodec scenarioA ["b7", "b7,s9,150,,bob"]).1
          = .err ("Error unmarshalling slot with ID: " ++
              (mkBid "b7" "s9" 150 "bob").SlotId))) ∧
    (∀ a s, scenarioA.faults scenarioA.clock = false →
      demoCodec.decodeAccount (scenarioA.state (mkBid "b7" "s9" 150 "bob").Username) = some a →
      scenarioA.faults (scenarioA.clock + 1) = false →
      demoCodec.decodeSlot (scenarioA.state (mkBid "b7" "s9" 150 "bob").SlotId) = .ok s →
      a.Balance < (mkBid "b7" "s9" 150 "bob").Amount →
      (place_bid demoCodec scenarioA ["b7", "b7,s9,150,,bob"]).1
        = .err "Unsufficient balance to place bid.") ∧
    ((place_bid demoCodec scenarioA ["b7", "b7,s9,150,,bob"]).1
        = .err "Bid is not high enough" →
      scenarioA.faults scenarioA.clock = false ∧
      scenarioA.faults (scenarioA.clock + 1) = false ∧
      ∃ a s, demoCodec.decodeAccount (scenarioA.state (mkBid "b7" "s9" 150 "bob").Username)
          = some a ∧
        demoCodec.decodeSlot (scenarioA.state (mkBid "b7" "s9" 150 "bob").SlotId) = .ok s ∧
        a.Balance ≥ (mkBid "b7" "s9" 150 "bob").Amount ∧
        (mkBid "b7" "s9" 150 "bob").Amount ≤ s.HighestBidAmount) :=
  place_bid_error_order demoCodec scenarioA "b7" "b7,s9,150,,bob" []
    (mkBid "b7" "s9" 150 "bob") (by decide)

/-! ## Partial effects of a failing `place_bid` -/

/-- C11: on a store satisfying the success preconditions of `place_bid`, when the reads and
the first `k - 1` writes succeed and the `k`-th write (in the order index, bid, slot,
account) fails, `place_bid` returns an error and exactly the first `k - 1` writes are in the
store: each of the keys `_bids`, `bid.id`, `bid.slotId` holds the written value if its write
came before the `k`-th and its old value otherwise, and the account record and every other
key are unchanged. So, when the write of the account fails, the store holds the extended
index, the bid record and the slot with the new highest amount and the bid appended, while
the account is neither debited nor extended. -/
theorem place_bid_no_rollback (J : Codec β) (hJ : J.RoundTrip) (stub : ChaincodeStub β)
    (arg0 arg1 : String) (rest : List String) (b : Bid) (a : Account) (s : Slot) (k : Nat)
    (hb : J.unmarshalBid (J.bytes arg1) = some b)
    (ha : J.decodeAccount (stub.state b.Username) = some a)
    (hs : J.decodeSlot (stub.state b.SlotId) = .ok s)
    (hsi : s.Id = b.SlotId)
    (hk1 : b.Id ≠ b.SlotId) (hk2 : b.Id ≠ b.Username) (hk3 : b.Id ≠ bidIndexStr)
    (hk4 : b.SlotId ≠ b.Username) (hk5 : b.SlotId ≠ bidIndexStr)
    (hk6 : b.Username ≠ bidIndexStr)
    (hbal : a.Balance ≥ b.Amount) (hhigh : b.Amount > s.HighestBidAmount)
    (hk : 1 ≤ k ∧ k ≤ 4)
    (hpre : ∀ n < 2 + k, stub.faults (stub.clock + n) = false)
    (hfail : stub.faults (stub.clock + (2 + k)) = true) :
    (∃ msg, (place_bid J stub (arg0 :: arg1 :: rest)).1 = .err msg) ∧
    (place_bid J stub (arg0 :: arg1 :: rest)).2.state bidIndexStr
      = (if 1 < k then
          some (J.marshalIndex (J.decodeIndex (stub.state bidIndexStr) ++ [b.Id]))
        else stub.state bidIndexStr) ∧
    (place_bid J stub (arg0 :: arg1 :: rest)).2.state b.Id
      = (if 2 < k then some (J.bytes arg1) else stub.state b.Id) ∧
    (place_bid J stub (arg0 :: arg1 :: rest)).2.state b.SlotId
      = (if 3 < k then
          some (J.marshalSlot { s with HighestBidAmount := b.Amount, Bids := s.Bids ++ [b] })
        else stub.state b.SlotId) ∧
    (place_bid J stub (arg0 :: arg1 :: rest)).2.state b.Username = stub.state b.Username ∧
    (∀ key, key ≠ bidIndexStr → key ≠ b.Id → key ≠ b.SlotId → key ≠ b.Username →
      (place_bid J stub (arg0 :: arg1 :: rest)).2.state key = stub.state key) ∧
    (k = 4 →
      J.decodeIndex ((place_bid J stub (arg0 :: arg1 :: rest)).2.state bidIndexStr)
        = J.decodeIndex (stub.state bidIndexStr) ++ [b.Id] ∧
      J.decodeSlot ((place_bid J stub (arg0 :: arg1 :: rest)).2.state b.SlotId)
        = .ok { s with HighestBidAmount := b.Amount, Bids := s.Bids ++ [b] } ∧
      J.decodeAccount ((place_bid J stub (arg0 :: arg1 :: rest)).2.state b.Username)
        = some a) := by
  have hbal' : ¬ a.Balance < b.Amount := not_lt.mpr hbal
  have hhigh' : ¬ s.HighestBidAmount ≥ b.Amount := not_le.mpr hhigh
  have f0 : stub.faults stub.clock = false := by simpa using hpre 0 (by omega)
  have f1 : stub.faults (stub.clock + 1) = false := hpre 1 (by omega)
  have f2 : stub.faults (stub.clock + 1 + 1) = false := by
    simpa [Nat.add_assoc] using hpre 2 (by omega)
  obtain ⟨hlo, hhi⟩ := hk
  interval_cases k
  · -- the write of the index fails
    have f3 : stub.faults (stub.clock + 1 + 1 + 1) = true := by
      simpa [Nat.add_assoc] using hfail
    simp [place_bid, hb, GetState, f0, ha, f1, hs, hbal', hhigh', append_id, f2, PutState, f3]
  · -- the write of the bid fails
    have f3 : stub.faults (stub.clock + 1 + 1 + 1) = false := by
      simpa [Nat.add_assoc] using hpre 3 (by omega)
    have f4 : stub.faults (stub.clock + 1 + 1 + 1 + 1) = true := by
      simpa [Nat.add_assoc] using hfail
    simp [place_bid, hb, GetState, f0, ha, f1, hs, hbal', hhigh', append_id, f2, PutState, f3,
      f4, hk3, hk5, hk6]
    intro key h1 _ _ _
    simp [h1]
  · -- the write of the slot fails
    have f3 : stub.faults (stub.clock + 1 + 1 + 1) = false := by
      simpa [Nat.add_assoc] using hpre 3 (by omega)
    have f4 : stub.faults (stub.clock + 1 + 1 + 1 + 1) = false := by
      simpa [Nat.add_assoc] using hpre 4 (by omega)
    have f5 : stub.faults (stub.clock + 1 + 1 + 1 + 1 + 1) = true := by
      simpa [Nat.add_assoc] using hfail
    simp [place_bid, hb, GetState, f0, ha, f1, hs, hbal', hhigh', append_id, f2, PutState, f3,
      f4, f5, hk1.symm, hk2.symm, hk3.symm, hk5, hk6]
    intro key h1 h2 _ _
    simp [h1, h2]
  · -- the write of the account fails
    have f3 : stub.faults (stub.clock + 1 + 1 + 1) = false := by
      simpa [Nat.add_assoc] using hpre 3 (by omega)
    have f4 : stub.faults (stub.clock + 1 + 1 + 1 + 1) = false := by
      simpa [Nat.add_assoc] using hpre 4 (by omega)
    have f5 : stub.faults (stub.clock + 1 + 1 + 1 + 1 + 1) = false := by
      simpa [Nat.add_assoc] using hpre 5 (by omega)
    have f6 : stub.faults (stub.clock + 1 + 1 + 1 + 1 + 1 + 1) = true := by
      simpa [Nat.add_assoc] using hfail
    have hrun : place_bid J stub (arg0 :: arg1 :: rest) =
        (.err "Error putting Account back on ledger after placing bid",
          { state := fun key =>
              if key = s.Id then
                some (J.marshalSlot
                  { s with HighestBidAmount := b.Amount, Bids := s.Bids ++ [b] })
              else if key = b.Id then some (J.bytes arg1)
              else if key = bidIndexStr then
                some (J.marshalIndex (J.decodeIndex (stub.state bidIndexStr) ++ [b.Id]))
              else stub.state key
            faults := stub.faults
            clock := stub.clock + 1 + 1 + 1 + 1 + 1 + 1 + 1 }) := by
      simp only [place_bid, hb, GetState, f0, ha, f1, hs, hbal', hhigh', append_id, f2,
        PutState, f3, f4, f5, f6, Bool.false_eq_true, if_false, if_true]
    rw [hrun]
    refine ⟨⟨_, rfl⟩, ?_, ?_, ?_, ?_, ?_, fun _ => ⟨?_, ?_, ?_⟩⟩
    · simp [hsi, hk5.symm, hk3.symm]
    · simp [hsi, hk1]
    · simp [hsi]
    · simp [hsi, hk4.symm, hk2.symm, hk6]
    · intro key h1 h2 h3 _
      simp [hsi, h1, h2, h3]
    · simp [hsi, hk5.symm, hk3.symm, Codec.decodeIndex, hJ.index]
    · simp [hsi, Codec.decodeSlot, hJ.slot]
    · simpa [hsi, hk4.symm, hk2.symm, hk6] using ha

/-- C11 (witness): alice's bid of 50 in scenario A when the write of the account fails: the
index, the bid and the slot are written, alice still holds 100. -/
theorem place_bid_no_rollback_witness :
    (∃ msg, (place_bid demoCodec scenarioAFailing ["b1", "b1,s1,50,,alice"]).1 = .err msg) ∧
    (place_bid demoCodec scenarioAFailing ["b1", "b1,s1,50,,alice"]).2.state bidIndexStr
      = (if 1 < 4 then
          some (demoCodec.marshalIndex
            (demoCodec.decodeIndex (scenarioAFailing.state bidIndexStr) ++ ["b1"]))
        else scenarioAFailing.state bidIndexStr) ∧
    (place_bid demoCodec scenarioAFailing ["b1", "b1,s1,50,,alice"]).2.state "b1"
      = (if 2 < 4 then some (demoCodec.bytes "b1,s1,50,,alice")
        else scenarioAFailing.state "b1") ∧
    (place_bid demoCodec scenarioAFailing ["b1", "b1,s1,50,,alice"]).2.state "s1"
      = (if 3 < 4 then
          some (demoCodec.marshalSlot
            { mkSlot "s1" [] 0 with
              HighestBidAmount := 50, Bids := [] ++ [mkBid "b1" "s1" 50 "alice"] })
        else scenarioAFailing.state "s1") ∧
    (place_bid demoCodec scenarioAFailing ["b1", "b1,s1,50,,alice"]).2.state "alice"
      = scenarioAFailing.state "alice" ∧
    (∀ key, key ≠ bidIndexStr → key ≠ "b1" → key ≠ "s1" → key ≠ "alice" →
      (place_bid demoCodec scenarioAFailing ["b1", "b1,s1,50,,alice"]).2.state key
        = scenarioAFailing.state key) ∧
    (4 = 4 →
      demoCodec.decodeIndex
          ((place_bid demoCodec scenarioAFailing ["b1", "b1,s1,50,,alice"]).2.state bidIndexStr)
        = demoCodec.decodeIndex (scenarioAFailing.state bidIndexStr) ++ ["b1"] ∧
      demoCodec.decodeSlot
          ((place_bid demoCodec scenarioAFailing ["b1", "b1,s1,50,,alice"]).2.state "s1")
        = .ok { mkSlot "s1" [] 0 with
            HighestBidAmount := 50, Bids := [] ++ [mkBid "b1" "s1" 50 "alice"] } ∧
      demoCodec.decodeAccount
          ((place_bid demoCodec scenarioAFailing ["b1", "b1,s1,50,,alice"]).2.state "alice")
        = some (mkAccount "alice" 100)) :=
  place_bid_no_rollback demoCodec demoCodec_roundTrip scenarioAFailing "b1" "b1,s1,50,,alice"
    [] (mkBid "b1" "s1" 50 "alice") (mkAccount "alice" 100) (mkSlot "s1" [] 0) 4
    (by decide) (by decide) (by decide) (by decide) (by decide) (by decide) (by decide)
    (by decide) (by decide) (by decide) (by decide) (by decide) (by decide) (by decide)
    (by decide)

/-! ## One key space, and keys taken from the records -/

/-- C19: there is a store in which an account with username field `u` is stored under a key
`k` other than `u`, and (1) a successful `place_bid` with `bid.username = k` leaves the
record under `k` as it was and replaces what was stored under `u` by the debited account;
(2) a successful `payout_bid` refunding a bid with username `k` leaves the record under `k`
as it was and stores the credited account under `u`; (3) a successful `place_bid` on a slot
stored under `bid.slotId` with another id field leaves the record under `bid.slotId` as it
was and stores the updated slot under the id field. -/
theorem records_written_under_inner_id :
    (∃ (stub : ChaincodeStub Stored) (k u : String) (a : Account) (arg0 arg1 : String)
        (b : Bid),
      demoCodec.decodeAccount (stub.state k) = some a ∧ a.Username = u ∧ u ≠ k ∧
      demoCodec.unmarshalBid (demoCodec.bytes arg1) = some b ∧ b.Username = k ∧
      (place_bid demoCodec stub [arg0, arg1]).1 = .ok none ∧
      (place_bid demoCodec stub [arg0, arg1]).2.state k = stub.state k ∧
      (place_bid demoCodec stub [arg0, arg1]).2.state u ≠ stub.state u ∧
      demoCodec.decodeAccount ((place_bid demoCodec stub [arg0, arg1]).2.state u)
        = some { a with Balance := a.Balance - b.Amount, Bids := a.Bids ++ [b] }) ∧
    (∃ (stub : ChaincodeStub Stored) (k u slotId : String) (a : Account) (s : Slot) (bid : Bid),
      demoCodec.decodeAccount (stub.state k) = some a ∧ a.Username = u ∧ u ≠ k ∧
      demoCodec.decodeSlot (stub.state slotId) = .ok s ∧ bid ∈ s.Bids ∧
      bid.Amount < s.HighestBidAmount ∧ bid.Username = k ∧
      (payout_bid demoCodec stub [slotId]).1 = .ok none ∧
      (payout_bid demoCodec stub [slotId]).2.state k = stub.state k ∧
      (payout_bid demoCodec stub [slotId]).2.state u ≠ stub.state u ∧
      demoCodec.decodeAccount ((payout_bid demoCodec stub [slotId]).2.state u)
        = some { a with Balance := a.Balance + bid.Amount }) ∧
    (∃ (stub : ChaincodeStub Stored) (s : Slot) (arg0 arg1 : String) (b : Bid),
      demoCodec.unmarshalBid (demoCodec.bytes arg1) = some b ∧
      demoCodec.decodeSlot (stub.state b.SlotId) = .ok s ∧ s.Id ≠ b.SlotId ∧
      (place_bid demoCodec stub [arg0, arg1]).1 = .ok none ∧
      (place_bid demoCodec stub [arg0, arg1]).2.state b.SlotId = stub.state b.SlotId ∧
      (place_bid demoCodec stub [arg0, arg1]).2.state s.Id ≠ stub.state s.Id ∧
      demoCodec.decodeSlot ((place_bid demoCodec stub [arg0, arg1]).2.state s.Id)
        = .ok { s with HighestBidAmount := b.Amount, Bids := s.Bids ++ [b] }) :=
  ⟨⟨misKeyedStore, "k1", "u1", strayAccount, "b3", "b3,s1,50,,k1", mkBid "b3" "s1" 50 "k1",
      by decide⟩,
    ⟨misKeyedStore, "k1", "u1", "s1", strayAccount, straySlot, mkBid "b1" "s1" 1 "k1",
      by decide⟩,
    ⟨misKeyedStore, straySlot, "b3", "b3,s1,50,,k1", mkBid "b3" "s1" 50 "k1", by decide⟩⟩

/-- With two arguments and no storage failure, `add_slot`, `add_device` and `add_account`
succeed on every store and leave the payload under their first argument. -/
theorem add_record_ok (J : Codec β) (stub : ChaincodeStub β) (arg0 arg1 : String)
    (rest : List String) (hf : stub.NoFault) :
    ((add_slot J stub (arg0 :: arg1 :: rest)).1 = .ok none ∧
      (add_slot J stub (arg0 :: arg1 :: rest)).2.state arg0 = some (J.bytes arg1)) ∧
    ((add_device J stub (arg0 :: arg1 :: rest)).1 = .ok none ∧
      (add_device J stub (arg0 :: arg1 :: rest)).2.state arg0 = some (J.bytes arg1)) ∧
    ((add_account J stub (arg0 :: arg1 :: rest)).1 = .ok none ∧
      (add_account J stub (arg0 :: arg1 :: rest)).2.state arg0 = some (J.bytes arg1)) := by
  have hf' : ∀ n, stub.faults n = false := hf
  refine ⟨?_, ?_, ?_⟩ <;>
    simp [add_slot, add_device, add_account, append_id, GetState, PutState, hf']

/-- C20: there is a store holding an account under a key `u` on which `add_slot`,
`add_device`, `add_account` and a `place_bid` whose `bid.id` is `u` each succeed and leave
their payload under `u`, so that the account stored there, with its balance and bids, is
gone; and on every store, whatever is stored under the identifier, the three `add_*`
operations succeed when given two arguments and no storage call fails, and `place_bid`
succeeds when the bid, the account and the slot decode, both amount checks pass and no
storage call fails. -/
theorem shared_key_space :
    (∃ (stub : ChaincodeStub Stored) (u : String) (a : Account),
      demoCodec.decodeAccount (stub.state u) = some a ∧
      ((add_slot demoCodec stub [u, "x,,0"]).1 = .ok none ∧
        (add_slot demoCodec stub [u, "x,,0"]).2.state u = some (demoCodec.bytes "x,,0") ∧
        demoCodec.decodeAccount ((add_slot demoCodec stub [u, "x,,0"]).2.state u) = none) ∧
      ((add_device demoCodec stub [u, "device"]).1 = .ok none ∧
        (add_device demoCodec stub [u, "device"]).2.state u
          = some (demoCodec.bytes "device") ∧
        demoCodec.decodeAccount ((add_device demoCodec stub [u, "device"]).2.state u)
          = none) ∧
      ((add_account demoCodec stub [u, "h,s,alice,0"]).1 = .ok none ∧
        (add_account demoCodec stub [u, "h,s,alice,0"]).2.state u
          = some (demoCodec.bytes "h,s,alice,0") ∧
        demoCodec.decodeAccount ((add_account demoCodec stub [u, "h,s,alice,0"]).2.state u)
          ≠ some a) ∧
      (∃ b, demoCodec.unmarshalBid (demoCodec.bytes "alice,s1,50,,bob") = some b ∧ b.Id = u ∧
        (place_bid demoCodec stub ["alice", "alice,s1,50,,bob"]).1 = .ok none ∧
        (place_bid demoCodec stub ["alice", "alice,s1,50,,bob"]).2.state u
          = some (demoCodec.bytes "alice,s1,50,,bob") ∧
        demoCodec.decodeAccount
          ((place_bid demoCodec stub ["alice", "alice,s1,50,,bob"]).2.state u) = none)) ∧
    (∀ (γ : Type) (J : Codec γ) (stub : ChaincodeStub γ) (arg0 arg1 : String)
        (rest : List String), stub.NoFault →
      (add_slot J stub (arg0 :: arg1 :: rest)).1 = .ok none ∧
      (add_device J stub (arg0 :: arg1 :: rest)).1 = .ok none ∧
      (add_account J stub (arg0 :: arg1 :: rest)).1 = .ok none) ∧
    (∀ (γ : Type) (J : Codec γ) (stub : ChaincodeStub γ) (arg0 arg1 : String)
        (rest : List String) (b : Bid) (a : Account) (s : Slot), stub.NoFault →
      J.unmarshalBid (J.bytes arg1) = some b →
      J.decodeAccount (stub.state b.Username) = some a →
      J.decodeSlot (stub.state b.SlotId) = .ok s →
      a.Balance ≥ b.Amount → b.Amount > s.HighestBidAmount →
      (place_bid J stub (arg0 :: arg1 :: rest)).1 = .ok none) := by
  refine ⟨⟨scenarioA, "alice", mkAccount "alice" 100, by decide, by decide, by decide,
    by decide, ⟨mkBid "alice" "s1" 50 "bob", by decide⟩⟩, ?_, ?_⟩
  · intro γ J stub arg0 arg1 rest hf
    have h := add_record_ok J stub arg0 arg1 rest hf
    exact ⟨h.1.1, h.2.1.1, h.2.2.1⟩
  · intro γ J stub arg0 arg1 rest b a s hf hb ha hs hbal hhigh
    rw [place_bid_accept J stub arg0 arg1 rest b a s hf hb ha hs hbal hhigh]

/-! ## What a successful `payout_bid` touches -/

/-- What holds of every listed key and record that reads as an account holds of every key
and account of the listed store. -/
theorem forall_keyed_account_stubOf (P : String → Account → Prop)
    (records : List (String × Stored))
    (h : ∀ r ∈ records, ∀ a ∈ demoCodec.unmarshalAccount r.2, P r.1 a) :
    ∀ k a, demoCodec.decodeAccount ((stubOf records).state k) = some a → P k a := by
  intro k a ha
  simp only [stubOf] at ha
  cases hfind : records.find? (fun r => decide (r.1 = k)) with
  | none => simp [hfind, Codec.decodeAccount] at ha
  | some r =>
    rw [hfind] at ha
    have hk : r.1 = k := by simpa using List.find?_some hfind
    rw [← hk]
    exact h r (List.mem_of_find?_eq_some hfind) a (by simpa [Codec.decodeAccount] using ha)

/-- Whatever the fault schedule, a loop of `payout_bid` that returns without error, on a
store whose refunded accounts carry the username they are stored under, has loaded the
account of every bid below the highest amount, has left alone the keys of no such bid, and
has given every account stored under its username the balance `refundFold` computes. -/
theorem payout_loop_of_ok (J : Codec β) (hJ : J.RoundTrip) (highest : Int) :
    ∀ (bids : List Bid) (stub : ChaincodeStub β) (v : Option β),
      (∀ bid ∈ bids, bid.Amount < highest →
        ∀ a, J.decodeAccount (stub.state bid.Username) = some a → a.Username = bid.Username) →
      (payout_loop J highest bids stub).1 = .ok v →
      (∀ bid ∈ bids, bid.Amount < highest →
        ∃ a, J.decodeAccount (stub.state bid.Username) = some a) ∧
      (∀ k, (∀ bid ∈ bids, ¬ bid.refundedTo k highest) →
        (payout_loop J highest bids stub).2.state k = stub.state k) ∧
      (∀ k a, J.decodeAccount (stub.state k) = some a → a.Username = k →
        J.decodeAccount ((payout_loop J highest bids stub).2.state k)
          = some { a with Balance := refundFold k highest a.Balance bids })
  | [], stub, v, _, _ => by
    refine ⟨fun bid hmem => absurd hmem (List.not_mem_nil _), fun _ _ => rfl, ?_⟩
    intro k a ha _
    simpa [payout_loop, refundFold] using ha
  | bid :: rest, stub, v, hkeyed, hok => by
    by_cases hlt : bid.Amount < highest
    · by_cases f0 : stub.faults stub.clock = true
      · simp [payout_loop, hlt, GetState, f0] at hok
      cases ha0 : J.decodeAccount (stub.state bid.Username) with
      | none => simp [payout_loop, hlt, GetState, f0, ha0] at hok
      | some a0 =>
      by_cases f1 : stub.faults (stub.clock + 1) = true
      · simp [payout_loop, hlt, GetState, f0, ha0, PutState, f1] at hok
      simp only [Bool.not_eq_true] at f0 f1
      have hu0 : a0.Username = bid.Username := hkeyed bid (List.mem_cons_self _ _) hlt a0 ha0
      have hstep : payout_loop J highest (bid :: rest) stub =
          payout_loop J highest rest
            { state := fun k => if k = bid.Username then
                some (J.marshalAccount { a0 with Balance := add64 a0.Balance bid.Amount })
                else stub.state k
              faults := stub.faults
              clock := stub.clock + 1 + 1 } := by
        simp only [payout_loop, hlt, if_true, GetState, f0, ha0, PutState, f1, hu0,
          Bool.false_eq_true, if_false]
      rw [hstep] at hok ⊢
      obtain ⟨ih1, ih2, ih3⟩ := payout_loop_of_ok J hJ highest rest _ v (by
          intro bid' hmem hlt' a ha
          by_cases hk : bid'.Username = bid.Username
          · simp only [hk, if_true, Codec.decodeAccount, hJ.account, Option.some.injEq] at ha
            subst ha
            simpa [hk] using hu0
          · simp only [hk, if_false] at ha
            exact hkeyed bid' (List.mem_cons_of_mem _ hmem) hlt' a ha) hok
      refine ⟨?_, ?_, ?_⟩
      · intro bid' hmem hlt'
        rcases List.mem_cons.mp hmem with rfl | hmem'
        · exact ⟨a0, ha0⟩
        · by_cases hk : bid'.Username = bid.Username
          · exact ⟨a0, by rw [hk]; exact ha0⟩
          · obtain ⟨a, ha⟩ := ih1 bid' hmem' hlt'
            exact ⟨a, by simpa [hk] using ha⟩
      · intro k hk
        have hne : k ≠ bid.Username := fun h =>
          hk bid (List.mem_cons_self _ _) ⟨h.symm, hlt⟩
        rw [ih2 k (fun bid' hmem => hk bid' (List.mem_cons_of_mem _ hmem))]
        simp [hne]
      · intro k a ha hu
        by_cases hk : k = bid.Username
        · subst hk
          rw [ha0] at ha
          cases ha
          rw [ih3 bid.Username { a0 with Balance := add64 a0.Balance bid.Amount }
            (by simp [Codec.decodeAccount, hJ.account]) hu]
          simp [refundFold, Bid.refundedTo, hlt]
        · rw [ih3 k a (by simpa [hk] using ha) hu]
          have hnr : ¬ bid.refundedTo k highest := fun h => hk h.1.symm
          simp [refundFold, hnr]
    · have hstep : payout_loop J highest (bid :: rest) stub = payout_loop J highest rest stub := by
        simp only [payout_loop, hlt, if_false]
      rw [hstep] at hok ⊢
      obtain ⟨ih1, ih2, ih3⟩ := payout_loop_of_ok J hJ highest rest stub v
        (fun bid' hmem hlt' => hkeyed bid' (List.mem_cons_of_mem _ hmem) hlt') hok
      have hnr : ∀ u, ¬ bid.refundedTo u highest := fun u h => hlt h.2
      refine ⟨?_, ?_, ?_⟩
      · intro bid' hmem hlt'
        rcases List.mem_cons.mp hmem with rfl | hmem'
        · exact absurd hlt' hlt
        · exact ih1 bid' hmem' hlt'
      · intro k hk
        exact ih2 k (fun bid' hmem => hk bid' (List.mem_cons_of_mem _ hmem))
      · intro k a ha hu
        rw [ih3 k a ha hu]
        simp [refundFold, hnr k]

/-- A `payout_bid` that returns without error has decoded the slot and run its loop. -/
theorem payout_bid_ok_inv (J : Codec β) (stub : ChaincodeStub β) (args : List String)
    (v : Option β) (hok : (payout_bid J stub args).1 = .ok v) :
    ∃ slotId rest s, args = slotId :: rest ∧ J.decodeSlot (stub.state slotId) = .ok s ∧
      payout_bid J stub args =
        payout_loop J s.HighestBidAmount s.Bids { stub with clock := stub.clock + 1 } := by
  match args with
  | [] => simp [payout_bid] at hok
  | slotId :: rest =>
    by_cases f0 : stub.faults stub.clock = true
    · simp [payout_bid, GetState, f0] at hok
    cases hs : J.decodeSlot (stub.state slotId) with
    | error e => simp [payout_bid, GetState, f0, hs] at hok
    | ok s =>
      simp only [Bool.not_eq_true] at f0
      exact ⟨slotId, rest, s, rfl, hs, by
        simp only [payout_bid, GetState, f0, hs, Bool.false_eq_true, if_false]⟩

/-- C13 (as stated, refuted): `doubleStore` holds two records, and each of them reads as an
account whose username field is the key it is stored under. The record under `s1` also
reads as the slot `s1` with highest amount 80, a losing bid of 50 in the name of `s1` and
the winning bid of bob. The `payout_bid` of `s1` succeeds, and it replaces the record under
`s1`: the refund of the losing bid is written there as an encoded account, which no longer
has the id and the highest bid amount of the slot. -/
theorem payout_bid_overwrites_slot :
    (∀ k a, jsonCodec.decodeAccount (doubleStore.state k) = some a → a.Username = k) ∧
    jsonCodec.decodeAccount (doubleStore.state "s1")
      = some { mkAccount "s1" 5 with Bids := bidsOnOwnKey } ∧
    jsonCodec.decodeSlot (doubleStore.state "s1") = .ok (mkSlot "s1" bidsOnOwnKey 80) ∧
    (payout_bid jsonCodec doubleStore ["s1"]).1 = .ok none ∧
    (payout_bid jsonCodec doubleStore ["s1"]).2.state "s1" ≠ doubleStore.state "s1" ∧
    (payout_bid jsonCodec doubleStore ["s1"]).2.state "s1"
      = some (jsonCodec.marshalAccount { mkAccount "s1" 55 with Bids := bidsOnOwnKey }) ∧
    jsonCodec.decodeSlot ((payout_bid jsonCodec doubleStore ["s1"]).2.state "s1")
      = .ok (mkSlot "" bidsOnOwnKey 0) :=
  ⟨forall_keyed_account_jsonStub (fun k a => a.Username = k) _ (by decide),
    by decide, by decide, by decide, by decide, by decide, by decide⟩

/-- C13 (amended): after a successful `payout_bid` in which the account read for each bid
below the slot's highest amount carries the username it is stored under, (1) the slot
record is unchanged byte for byte provided no bid below the highest amount names the key
of the slot as its username; (2) every record under a key that no bid below the highest
amount names as its username is unchanged: bid records, indexes, devices, and the accounts
that own no such bid are not written; (3) every record that does not read as an account is
unchanged; (4) every account differs from its previous value at most in its balance. -/
theorem payout_bid_changes_balances_only (J : Codec β) (hJ : J.RoundTrip)
    (stub : ChaincodeStub β) (slotId : String) (rest : List String) (v : Option β) (s : Slot)
    (hs : J.decodeSlot (stub.state slotId) = .ok s)
    (hkeyed : ∀ bid ∈ s.Bids, bid.Amount < s.HighestBidAmount →
      ∀ a, J.decodeAccount (stub.state bid.Username) = some a → a.Username = bid.Username)
    (hok : (payout_bid J stub (slotId :: rest)).1 = .ok v) :
    ((∀ bid ∈ s.Bids, bid.Amount < s.HighestBidAmount → bid.Username ≠ slotId) →
      (payout_bid J stub (slotId :: rest)).2.state slotId = stub.state slotId) ∧
    (∀ k, (∀ bid ∈ s.Bids, bid.Username = k → ¬ bid.Amount < s.HighestBidAmount) →
      (payout_bid J stub (slotId :: rest)).2.state k = stub.state k) ∧
    (∀ k, J.decodeAccount (stub.state k) = none →
      (payout_bid J stub (slotId :: rest)).2.state k = stub.state k) ∧
    (∀ k a, J.decodeAccount (stub.state k) = some a →
      ∃ bal, J.decodeAccount ((payout_bid J stub (slotId :: rest)).2.state k)
        = some { a with Balance := bal }) := by
  obtain ⟨slotId', rest', s', hargs, hs', hrun⟩ := payout_bid_ok_inv J stub _ v hok
  obtain ⟨rfl, rfl⟩ := List.cons.inj hargs
  rw [hs] at hs'
  cases hs'
  rw [hrun] at hok ⊢
  obtain ⟨h1, h2, h3⟩ := payout_loop_of_ok J hJ s.HighestBidAmount s.Bids
    { stub with clock := stub.clock + 1 } v hkeyed hok
  have hframe : ∀ k, (∀ bid ∈ s.Bids, bid.Username = k → ¬ bid.Amount < s.HighestBidAmount) →
      (payout_loop J s.HighestBidAmount s.Bids
        { stub with clock := stub.clock + 1 }).2.state k = stub.state k :=
    fun k hk => h2 k (fun bid hmem hr => hk bid hmem hr.1 hr.2)
  refine ⟨?_, hframe, ?_, ?_⟩
  · intro hne
    exact hframe _ (fun bid hmem hu hlt => hne bid hmem hlt hu)
  · intro k hnone
    apply h2 k
    intro bid hmem hr
    obtain ⟨a, ha⟩ := h1 bid hmem hr.2
    rw [hr.1] at ha
    simp only at ha
    rw [hnone] at ha
    cases ha
  · intro k a ha
    by_cases hnamed : ∃ bid ∈ s.Bids, bid.Username = k ∧ bid.Amount < s.HighestBidAmount
    · obtain ⟨bid, hmem, hu, hlt⟩ := hnamed
      have hau : a.Username = k := by
        have := hkeyed bid hmem hlt a (by rw [hu]; exact ha)
        rw [this, hu]
      exact ⟨_, h3 k a ha hau⟩
    · refine ⟨a.Balance, ?_⟩
      rw [hframe k (fun bid hmem hu hlt => hnamed ⟨bid, hmem, hu, hlt⟩)]
      exact ha

/-- C13 (witness): the payout of slot `s1` in scenario C, in the encoding that reads every
object as an account: the slot record, the record of the bid `b1` and the index of the bids
are unchanged, and alice is refunded her 50. -/
theorem payout_bid_changes_balances_only_witness :
    (payout_bid jsonCodec scenarioCJson ["s1"]).1 = .ok none ∧
    jsonCodec.decodeAccount ((payout_bid jsonCodec scenarioCJson ["s1"]).2.state "alice")
      = some { mkAccount "alice" 100 with Bids := [mkBid "b1" "s1" 50 "alice"] } ∧
    (payout_bid jsonCodec scenarioCJson ["s1"]).2.state "s1" = scenarioCJson.state "s1" ∧
    (∀ k, (∀ bid ∈ slotC.Bids, bid.Username = k → ¬ bid.Amount < slotC.HighestBidAmount) →
      (payout_bid jsonCodec scenarioCJson ["s1"]).2.state k = scenarioCJson.state k) ∧
    (∀ k, jsonCodec.decodeAccount (scenarioCJson.state k) = none →
      (payout_bid jsonCodec scenarioCJson ["s1"]).2.state k = scenarioCJson.state k) ∧
    (∀ k a, jsonCodec.decodeAccount (scenarioCJson.state k) = some a →
      ∃ bal, jsonCodec.decodeAccount ((payout_bid jsonCodec scenarioCJson ["s1"]).2.state k)
        = some { a with Balance := bal }) :=
  have h := payout_bid_changes_balances_only jsonCodec jsonCodec_roundTrip scenarioCJson
    "s1" [] none slotC (by decide)
    (by
      intro bid hmem hlt a ha
      simp only [slotC, mkSlot, List.mem_cons, List.mem_singleton, List.not_mem_nil,
        or_false] at hmem
      rcases hmem with h | h
      · subst h
        have hal : jsonCodec.decodeAccount (scenarioCJson.state "alice")
            = some { mkAccount "alice" 50 with Bids := [mkBid "b1" "s1" 50 "alice"] } := by
          decide
        have ha' : jsonCodec.decodeAccount (scenarioCJson.state "alice") = some a := ha
        rw [hal] at ha'
        cases ha'
        rfl
      · subst h
        exact absurd hlt (by decide))
    (by decide)
  ⟨by decide, by decide, h.1 (by decide), h.2.1, h.2.2.1, h.2.2.2⟩

/-! ## Partial effects of a failing `payout_bid` -/

theorem countBelow_cons (highest : Int) (bid : Bid) (rest : List Bid) :
    countBelow highest (bid :: rest)
      = (if bid.Amount < highest then 1 else 0) + countBelow highest rest := by
  unfold countBelow
  by_cases h : bid.Amount < highest <;> simp [List.filter_cons, h, Nat.add_comm]

/-- The loop of `payout_bid` on bids whose refunded accounts are stored under their own
username, when the two storage calls of each refund do not fail: it returns success after
two storage calls for each bid below the highest amount, leaves the keys of no refunded
bidder alone and gives every account stored under its username the balance `refundFold`
computes. Later entries of the fault schedule are not consulted. -/
theorem payout_loop_run (J : Codec β) (hJ : J.RoundTrip) (highest : Int) :
    ∀ (bids : List Bid) (stub : ChaincodeStub β),
      (∀ n < 2 * countBelow highest bids, stub.faults (stub.clock + n) = false) →
      (∀ bid ∈ bids, bid.Amount < highest →
        ∃ a, J.decodeAccount (stub.state bid.Username) = some a ∧ a.Username = bid.Username) →
      (payout_loop J highest bids stub).1 = .ok none ∧
      (payout_loop J highest bids stub).2.faults = stub.faults ∧
      (payout_loop J highest bids stub).2.clock = stub.clock + 2 * countBelow highest bids ∧
      (∀ u, (∀ bid ∈ bids, ¬ bid.refundedTo u highest) →
        (payout_loop J highest bids stub).2.state u = stub.state u) ∧
      (∀ u a, J.decodeAccount (stub.state u) = some a → a.Username = u →
        J.decodeAccount ((payout_loop J highest bids stub).2.state u)
          = some { a with Balance := refundFold u highest a.Balance bids })
  | [], stub, _, _ => by
    refine ⟨rfl, rfl, by simp [payout_loop, countBelow], fun _ _ => rfl, ?_⟩
    intro u a ha _
    simpa [payout_loop, refundFold] using ha
  | bid :: rest, stub, hf, hacc => by
    by_cases hlt : bid.Amount < highest
    · obtain ⟨a0, ha0, hu0⟩ := hacc bid (List.mem_cons_self _ _) hlt
      have hcount : countBelow highest (bid :: rest) = 1 + countBelow highest rest := by
        rw [countBelow_cons, if_pos hlt]
      have f0 : stub.faults stub.clock = false := by
        simpa using hf 0 (by omega)
      have f1 : stub.faults (stub.clock + 1) = false := hf 1 (by omega)
      have hstep : payout_loop J highest (bid :: rest) stub =
          payout_loop J highest rest
            { state := fun k => if k = bid.Username then
                some (J.marshalAccount { a0 with Balance := add64 a0.Balance bid.Amount })
                else stub.state k
              faults := stub.faults
              clock := stub.clock + 1 + 1 } := by
        simp only [payout_loop, hlt, if_true, GetState, f0, ha0, PutState, f1, hu0,
          Bool.false_eq_true, if_false]
      rw [hstep]
      obtain ⟨ih1, ih2, ih3, ih4, ih5⟩ := payout_loop_run J hJ highest rest
        { state := fun k => if k = bid.Username then
            some (J.marshalAccount { a0 with Balance := add64 a0.Balance bid.Amount })
            else stub.state k
          faults := stub.faults
          clock := stub.clock + 1 + 1 }
        (by
          intro n hn
          have := hf (n + 2) (by omega)
          simpa [Nat.add_assoc, Nat.add_comm n 2] using this)
        (by
          intro bid' hmem hlt'
          by_cases hk : bid'.Username = bid.Username
          · exact ⟨{ a0 with Balance := add64 a0.Balance bid.Amount },
              by simp [hk, Codec.decodeAccount, hJ.account], by simp [hu0, hk]⟩
          · obtain ⟨a', ha', hu'⟩ := hacc bid' (List.mem_cons_of_mem _ hmem) hlt'
            exact ⟨a', by simpa [hk] using ha', hu'⟩)
      refine ⟨ih1, ih2, ?_, ?_, ?_⟩
      · rw [ih3, hcount]
        simp only
        omega
      · intro u hu
        have hne : u ≠ bid.Username := fun h =>
          hu bid (List.mem_cons_self _ _) ⟨h.symm, hlt⟩
        rw [ih4 u (fun bid' hmem => hu bid' (List.mem_cons_of_mem _ hmem))]
        simp [hne]
      · intro u a ha hu
        by_cases hk : u = bid.Username
        · subst hk
          rw [ha0] at ha
          cases ha
          rw [ih5 bid.Username { a0 with Balance := add64 a0.Balance bid.Amount }
            (by simp [Codec.decodeAccount, hJ.account]) hu]
          simp [refundFold, Bid.refundedTo, hlt]
        · rw [ih5 u a (by simpa [hk] using ha) hu]
          have hnr : ¬ bid.refundedTo u highest := fun h => hk h.1.symm
          simp [refundFold, hnr]
    · have hcount : countBelow highest (bid :: rest) = countBelow highest rest := by
        rw [countBelow_cons, if_neg hlt, Nat.zero_add]
      have hstep : payout_loop J highest (bid :: rest) stub = payout_loop J highest rest stub := by
        simp only [payout_loop, hlt, if_false]
      rw [hstep]
      obtain ⟨ih1, ih2, ih3, ih4, ih5⟩ := payout_loop_run J hJ highest rest stub
        (fun n hn => hf n (by rw [hcount]; exact hn))
        (fun bid' hmem hlt' => hacc bid' (List.mem_cons_of_mem _ hmem) hlt')
      have hnr : ∀ u, ¬ bid.refundedTo u highest := fun u h => hlt h.2
      refine ⟨ih1, ih2, by rw [ih3, hcount], ?_, ?_⟩
      · intro u hu
        exact ih4 u (fun bid' hmem => hu bid' (List.mem_cons_of_mem _ hmem))
      · intro u a ha hu
        rw [ih5 u a ha hu]
        simp [refundFold, hnr u]

/-- A loop of `payout_bid` that gets through a first list of bids goes on with the rest on
the stub it has reached. -/
theorem payout_loop_append (J : Codec β) (highest : Int) (rest : List Bid) :
    ∀ (pre : List Bid) (stub : ChaincodeStub β),
      (payout_loop J highest pre stub).1 = .ok none →
      payout_loop J highest (pre ++ rest) stub
        = payout_loop J highest rest (payout_loop J highest pre stub).2
  | [], _, _ => rfl
  | bid :: pre, stub, hok => by
    by_cases hlt : bid.Amount < highest
    · by_cases f0 : stub.faults stub.clock = true
      · simp [payout_loop, hlt, GetState, f0] at hok
      cases ha0 : J.decodeAccount (stub.state bid.Username) with
      | none => simp [payout_loop, hlt, GetState, f0, ha0] at hok
      | some a0 =>
      by_cases f1 : stub.faults (stub.clock + 1) = true
      · simp [payout_loop, hlt, GetState, f0, ha0, PutState, f1] at hok
      simp only [Bool.not_eq_true] at f0 f1
      simp only [List.cons_append, payout_loop, hlt, if_true, GetState, f0, ha0, PutState, f1,
        Bool.false_eq_true, if_false] at hok ⊢
      exact payout_loop_append J highest rest pre _ hok
    · simp only [List.cons_append, payout_loop, hlt, if_false] at hok ⊢
      exact payout_loop_append J highest rest pre stub hok

/-- C12 (as stated, refuted): (1) in `chainedStore` no storage call fails, the account of
the first losing bid (key `x`) decodes and that of the second (key `y`) does not, so
position 1 is the first whose account cannot be decoded; yet `payout_bid` succeeds, because
the refund of the first bid is written under the username field `y` of the account read
from `x`. (2) In `abortStoreFailing` alice's account decodes and carol's is missing, so
again position 1 is the first whose account cannot be decoded; the write of alice's refund
fails, `payout_bid` returns an error, and the losing bid before position 1 has not been
refunded: alice still holds 10. -/
theorem payout_bid_abort_counterexample :
    (demoCodec.decodeAccount (chainedStore.state "x") = some (mkAccount "y" 10) ∧
      demoCodec.decodeAccount (chainedStore.state "y") = none ∧
      demoCodec.decodeSlot (chainedStore.state "s1") = .ok slotXY ∧
      (payout_bid demoCodec chainedStore ["s1"]).1 = .ok none) ∧
    (demoCodec.decodeAccount (abortStoreFailing.state "alice") = some (mkAccount "alice" 10) ∧
      demoCodec.decodeAccount (abortStoreFailing.state "carol") = none ∧
      demoCodec.decodeSlot (abortStoreFailing.state "s1") = .ok slotAbort ∧
      (payout_bid demoCodec abortStoreFailing ["s1"]).1
        = .err "Error putting Account back on ledger after paying back balance" ∧
      demoCodec.decodeAccount ((payout_bid demoCodec abortStoreFailing ["s1"]).2.state "alice")
        = some (mkAccount "alice" 10)) := by
  decide

/-- C12 (amended): let `bid` be a bid below the slot's highest amount at some position of
`slot.bids`, `pre` the bids before it. If the accounts of the bids of `pre` below the
highest amount are stored under their own username, the read of the slot and the reads and
writes of their refunds do not fail, and the read of the account of `bid` fails or no
account decodes under `bid.username`, then `payout_bid` returns an error, every account has
been credited the refunds of the bids of `pre`, in `int64` arithmetic, and nothing else is
changed: no bid at that position or later has been refunded. -/
theorem payout_bid_aborts (J : Codec β) (hJ : J.RoundTrip) (stub : ChaincodeStub β)
    (slotId : String) (rest : List String) (s : Slot) (pre : List Bid) (bid : Bid)
    (post : List Bid)
    (hs : J.decodeSlot (stub.state slotId) = .ok s)
    (hbids : s.Bids = pre ++ bid :: post)
    (hlt : bid.Amount < s.HighestBidAmount)
    (hcalls : ∀ n < 1 + 2 * countBelow s.HighestBidAmount pre,
      stub.faults (stub.clock + n) = false)
    (hacc : ∀ b ∈ pre, b.Amount < s.HighestBidAmount →
      ∃ a, J.decodeAccount (stub.state b.Username) = some a ∧ a.Username = b.Username)
    (hfail : stub.faults (stub.clock + (1 + 2 * countBelow s.HighestBidAmount pre)) = true ∨
      J.decodeAccount (stub.state bid.Username) = none) :
    (∃ msg, (payout_bid J stub (slotId :: rest)).1 = .err msg) ∧
    (∀ u a, J.decodeAccount (stub.state u) = some a → a.Username = u →
      J.decodeAccount ((payout_bid J stub (slotId :: rest)).2.state u)
        = some { a with Balance := refundFold u s.HighestBidAmount a.Balance pre }) ∧
    (∀ u, (∀ b ∈ pre, ¬ b.refundedTo u s.HighestBidAmount) →
      (payout_bid J stub (slotId :: rest)).2.state u = stub.state u) := by
  have f0 : stub.faults stub.clock = false := by simpa using hcalls 0 (by omega)
  have hrun : payout_bid J stub (slotId :: rest) =
      payout_loop J s.HighestBidAmount (pre ++ bid :: post)
        { stub with clock := stub.clock + 1 } := by
    simp only [payout_bid, GetState, f0, hs, hbids, Bool.false_eq_true, if_false]
  obtain ⟨r1, r2, r3, r4, r5⟩ := payout_loop_run J hJ s.HighestBidAmount pre
    { stub with clock := stub.clock + 1 }
    (by
      intro n hn
      have := hcalls (n + 1) (by omega)
      simpa [Nat.add_assoc, Nat.add_comm n 1] using this)
    hacc
  rw [hrun, payout_loop_append J s.HighestBidAmount (bid :: post) pre _ r1]
  -- the stub reached after the bids of `pre`
  generalize hreach : (payout_loop J s.HighestBidAmount pre
    { stub with clock := stub.clock + 1 }).2 = reached at r2 r3 r4 r5 ⊢
  have hstop : (∃ msg, (payout_loop J s.HighestBidAmount (bid :: post) reached).1 = .err msg) ∧
      (payout_loop J s.HighestBidAmount (bid :: post) reached).2.state = reached.state := by
    by_cases f : reached.faults reached.clock = true
    · simp [payout_loop, hlt, GetState, f]
    · have hnone : J.decodeAccount (reached.state bid.Username) = none := by
        rcases hfail with hfault | hnone
        · exfalso
          apply f
          rw [r2, r3]
          simpa [Nat.add_assoc] using hfault
        · rw [r4 bid.Username]
          · exact hnone
          · intro b hmem hr
            obtain ⟨a, ha, _⟩ := hacc b hmem hr.2
            rw [hr.1, hnone] at ha
            cases ha
      simp [payout_loop, hlt, GetState, f, hnone]
  refine ⟨hstop.1, ?_, ?_⟩
  · intro u a ha hu
    rw [hstop.2]
    exact r5 u a ha hu
  · intro u hu
    rw [hstop.2]
    exact r4 u hu

/-- C12 (witness): in `abortStore`, on a ledger without failures, the payout of `s1`
refunds alice's bid of 1 and aborts at carol's bid, whose account is missing. -/
theorem payout_bid_aborts_witness :
    (∃ msg, (payout_bid demoCodec abortStore ["s1"]).1 = .err msg) ∧
    (∀ u a, demoCodec.decodeAccount (abortStore.state u) = some a → a.Username = u →
      demoCodec.decodeAccount ((payout_bid demoCodec abortStore ["s1"]).2.state u)
        = some { a with
            Balance := refundFold u slotAbort.HighestBidAmount a.Balance
              [mkBid "b1" "s1" 1 "alice"] }) ∧
    (∀ u, (∀ b ∈ [mkBid "b1" "s1" 1 "alice"], ¬ b.refundedTo u slotAbort.HighestBidAmount) →
      (payout_bid demoCodec abortStore ["s1"]).2.state u = abortStore.state u) :=
  payout_bid_aborts demoCodec demoCodec_roundTrip abortStore "s1" [] slotAbort
    [mkBid "b1" "s1" 1 "alice"] (mkBid "b2" "s1" 2 "carol") [mkBid "b3" "s1" 5 "bob"]
    (by decide) (by decide) (by decide) (fun _ _ => rfl) (by decide) (Or.inr (by decide))

/-! ## Strictly increasing bids -/

/-- In strictly increasing bids every bid before the last has a smaller amount. -/
theorem amount_lt_last (init : List Bid) (last : Bid)
    (h : ((init ++ [last]).map fun bid => bid.Amount).Pairwise (· < ·)) :
    ∀ x ∈ init, x.Amount < last.Amount := by
  intro x hx
  rw [List.map_append, List.pairwise_append] at h
  exact h.2.2 x.Amount (List.mem_map.mpr ⟨x, hx, rfl⟩) last.Amount (by simp)

/-- The slot a successful `place_bid` writes keeps the bids strictly increasing. -/
theorem slotIncreasing_place (s : Slot) (b : Bid) (h : SlotIncreasing s)
    (hhigh : s.HighestBidAmount < b.Amount) :
    SlotIncreasing { s with HighestBidAmount := b.Amount, Bids := s.Bids ++ [b] } := by
  obtain ⟨hpair, hlast⟩ := h
  refine ⟨?_, by simp⟩
  simp only [List.map_append, List.map_cons, List.map_nil]
  rw [List.pairwise_append]
  refine ⟨hpair, List.pairwise_singleton _ _, ?_⟩
  intro x hx y hy
  simp only [List.mem_singleton] at hy
  subst hy
  obtain ⟨bid, hmem, rfl⟩ := List.mem_map.mp hx
  cases hl : s.Bids.getLast? with
  | none =>
    rw [List.getLast?_eq_none_iff] at hl
    rw [hl] at hmem
    cases hmem
  | some last =>
    rw [hl] at hlast
    simp only at hlast
    obtain ⟨init, hinit⟩ := List.getLast?_eq_some_iff.mp hl
    rw [hinit] at hpair hmem
    rcases List.mem_append.mp hmem with hin | hin
    · have := amount_lt_last init last hpair bid hin
      omega
    · simp only [List.mem_singleton] at hin
      subst hin
      omega

/-- On strictly increasing bids the loop's balance is the starting balance with every bid
of the account but the last bid credited. -/
theorem refundFold_init_last (u : String) (highest : Int) (last : Bid)
    (hlast : ¬ last.Amount < highest) :
    ∀ (init : List Bid) (bal : Int), (∀ x ∈ init, x.Amount < highest) →
      refundFold u highest bal (init ++ [last]) = creditFold u bal init
  | [], bal, _ => by
    simp [refundFold, creditFold, Bid.refundedTo, hlast]
  | x :: init, bal, h => by
    have hx := h x (List.mem_cons_self _ _)
    have ih := fun bal' => refundFold_init_last u highest last hlast init bal'
      (fun y hy => h y (List.mem_cons_of_mem _ hy))
    simp only [List.cons_append, refundFold, creditFold, Bid.refundedTo, hx, and_true]
    exact ih _

/-- C18 (as stated, refuted): in both encodings the store holds the slot `s1` without bids
and with highest amount 0, stored under its id, and under the key `k1` an account whose
username field is `s1`. The bid of 50 on `s1` in the name of `k1` is accepted. Afterwards
the key `s1` holds the debited account, written last, and no longer the slot: in the
encoding that reads every object as a slot it reads as a slot with the bid of 50 as its only
bid and highest amount 0, whose last amount is not its highest amount; in the first
encoding it does not read as a slot. -/
theorem place_bid_overwrites_slot :
    (jsonCodec.decodeSlot (slotNamedJson.state "s1") = .ok (mkSlot "s1" [] 0) ∧
      SlotIncreasing (mkSlot "s1" [] 0) ∧
      jsonCodec.decodeAccount (slotNamedJson.state "k1") = some (mkAccount "s1" 100) ∧
      (place_bid jsonCodec slotNamedJson ["b1", "id=b1;slotId=s1;amount=50;username=k1"]).1
        = .ok none ∧
      (place_bid jsonCodec slotNamedJson
          ["b1", "id=b1;slotId=s1;amount=50;username=k1"]).2.state "s1"
        = some (jsonCodec.marshalAccount
            { mkAccount "s1" 50 with Bids := [mkBid "b1" "s1" 50 "k1"] }) ∧
      jsonCodec.decodeSlot
          ((place_bid jsonCodec slotNamedJson
            ["b1", "id=b1;slotId=s1;amount=50;username=k1"]).2.state "s1")
        = .ok (mkSlot "" [mkBid "b1" "s1" 50 "k1"] 0) ∧
      ¬ SlotIncreasing (mkSlot "" [mkBid "b1" "s1" 50 "k1"] 0)) ∧
    (demoCodec.decodeSlot (slotNamedStore.state "s1") = .ok (mkSlot "s1" [] 0) ∧
      demoCodec.decodeAccount (slotNamedStore.state "k1") = some (mkAccount "s1" 100) ∧
      (place_bid demoCodec slotNamedStore ["b1", "b1,s1,50,,k1"]).1 = .ok none ∧
      demoCodec.decodeSlot
          ((place_bid demoCodec slotNamedStore ["b1", "b1,s1,50,,k1"]).2.state "s1")
        = .error "") := by
  decide

/-- C18 (amended): if the bids of the slot read by a successful `place_bid` are strictly
increasing in amount with the last amount equal to the slot's highest bid amount (or there
is no bid and the highest bid amount is not negative), then the slot `place_bid` writes,
the old slot with the bid appended and the bid's amount as highest amount, has the same
property, and it is the record left under the slot's id provided the account is not
written under that key. Consequently, for every slot with that property and a last bid: the
last bid has the highest amount and is the only bid that has it; the bids below the
highest amount are all bids except the last; and a `payout_bid` of the slot on which no
storage call fails, the account of every bid but the last being stored under its username,
returns without error, credits to every account stored under its username the amounts of
all its bids but the last bid of the slot, and writes under no other key. -/
theorem bids_strictly_increasing (J : Codec β) (hJ : J.RoundTrip) (stub : ChaincodeStub β)
    (arg0 arg1 : String) (rest : List String) (b : Bid) (a : Account) (s : Slot)
    (v : Option β)
    (hb : J.unmarshalBid (J.bytes arg1) = some b)
    (ha : J.decodeAccount (stub.state b.Username) = some a)
    (hs : J.decodeSlot (stub.state b.SlotId) = .ok s)
    (hinc : SlotIncreasing s)
    (hok : (place_bid J stub (arg0 :: arg1 :: rest)).1 = .ok v) :
    SlotIncreasing { s with HighestBidAmount := b.Amount, Bids := s.Bids ++ [b] } ∧
    (s.Id ≠ a.Username →
      J.decodeSlot ((place_bid J stub (arg0 :: arg1 :: rest)).2.state s.Id)
        = .ok { s with HighestBidAmount := b.Amount, Bids := s.Bids ++ [b] }) ∧
    (∀ (payStub : ChaincodeStub β) (slotId : String) (payRest : List String) (t : Slot)
        (last : Bid),
      payStub.NoFault → J.decodeSlot (payStub.state slotId) = .ok t → SlotIncreasing t →
      t.Bids.getLast? = some last →
      (∀ bid ∈ t.Bids.dropLast, ∃ acc,
        J.decodeAccount (payStub.state bid.Username) = some acc ∧
          acc.Username = bid.Username) →
      last.Amount = t.HighestBidAmount ∧
      t.Bids.filter (fun x => decide (x.Amount = t.HighestBidAmount)) = [last] ∧
      t.Bids.filter (fun x => decide (x.Amount < t.HighestBidAmount)) = t.Bids.dropLast ∧
      (payout_bid J payStub (slotId :: payRest)).1 = .ok none ∧
      (∀ k acc, J.decodeAccount (payStub.state k) = some acc → acc.Username = k →
        J.decodeAccount ((payout_bid J payStub (slotId :: payRest)).2.state k)
          = some { acc with Balance := creditFold k acc.Balance t.Bids.dropLast }) ∧
      (∀ k, (∀ bid ∈ t.Bids.dropLast, bid.Username ≠ k) →
        (payout_bid J payStub (slotId :: payRest)).2.state k = payStub.state k)) := by
  obtain ⟨_, arg1', _, b', a', s', hargs, hb', ha', hs', _, hhigh, hst, _⟩ :=
    place_bid_ok_inv J stub _ _ hok
  have e1 : arg1' = arg1 := ((List.cons.inj (List.cons.inj hargs).2).1).symm
  subst e1
  rw [hb] at hb'
  cases hb'
  rw [ha] at ha'
  cases ha'
  rw [hs] at hs'
  cases hs'
  refine ⟨slotIncreasing_place s b hinc hhigh, ?_, ?_⟩
  · intro hne
    rw [hst]
    simp [placedState, hne, Codec.decodeSlot, hJ.slot]
  · intro payStub slotId payRest t last hf ht htinc hl hacc
    obtain ⟨hpair, hlast⟩ := htinc
    rw [hl] at hlast
    simp only at hlast
    obtain ⟨init, hinit⟩ := List.getLast?_eq_some_iff.mp hl
    rw [hinit] at hpair
    have hlt := amount_lt_last init last hpair
    have hdrop : t.Bids.dropLast = init := by rw [hinit, List.dropLast_concat]
    rw [hdrop] at hacc ⊢
    have hlt' : ∀ x ∈ init, x.Amount < t.HighestBidAmount := fun x hx => by
      have := hlt x hx
      omega
    have hnot : ¬ last.Amount < t.HighestBidAmount := by omega
    have hfilt_eq : init.filter (fun x => decide (x.Amount = t.HighestBidAmount)) = [] := by
      rw [List.filter_eq_nil_iff]
      intro x hx
      have := hlt x hx
      simp only [decide_eq_true_eq]
      omega
    have hfilt_lt : init.filter (fun x => decide (x.Amount < t.HighestBidAmount)) = init := by
      rw [List.filter_eq_self]
      intro x hx
      simp only [decide_eq_true_eq]
      exact hlt' x hx
    have hacc' : ∀ bid ∈ t.Bids, bid.Amount < t.HighestBidAmount →
        ∃ acc, J.decodeAccount (payStub.state bid.Username) = some acc ∧
          acc.Username = bid.Username := by
      intro bid hmem hbl
      rw [hinit] at hmem
      rcases List.mem_append.mp hmem with h | h
      · exact hacc bid h
      · simp only [List.mem_singleton] at h
        subst h
        exact absurd hbl hnot
    obtain ⟨hok', _, hframe, hbal⟩ := payout_bid_run J hJ payStub slotId payRest t hf ht hacc'
    refine ⟨hlast, ?_, ?_, hok', ?_, ?_⟩
    · rw [hinit, List.filter_append, hfilt_eq]
      simp [hlast]
    · rw [hinit, List.filter_append, hfilt_lt]
      simp [hlast]
    · intro k acc hk hu
      rw [hbal k acc hk hu, hinit,
        refundFold_init_last k t.HighestBidAmount last hnot init acc.Balance hlt']
    · intro k hk
      apply hframe k
      intro bid hmem hr
      rw [hinit] at hmem
      rcases List.mem_append.mp hmem with h | h
      · exact hk bid h hr.1
      · simp only [List.mem_singleton] at h
        subst h
        exact hnot hr.2

/-- C18 (witness): bob's bid of 80 on the slot of scenario A after alice's bid of 50, and the
payout of the slot in scenario C, which credits alice's 50 and leaves bob's key alone. -/
theorem bids_strictly_increasing_witness :
    SlotIncreasing (mkSlot "s1" [mkBid "b1" "s1" 50 "alice"] 50) ∧
    (place_bid demoCodec (place_bid demoCodec scenarioA ["b1", "b1,s1,50,,alice"]).2
      ["b2", "b2,s1,80,,bob"]).1 = .ok none ∧
    SlotIncreasing (mkSlot "s1" [mkBid "b1" "s1" 50 "alice", mkBid "b2" "s1" 80 "bob"] 80) ∧
    demoCodec.decodeSlot
      ((place_bid demoCodec (place_bid demoCodec scenarioA ["b1", "b1,s1,50,,alice"]).2
        ["b2", "b2,s1,80,,bob"]).2.state "s1")
      = .ok (mkSlot "s1" [mkBid "b1" "s1" 50 "alice", mkBid "b2" "s1" 80 "bob"] 80) ∧
    (payout_bid demoCodec scenarioC ["s1"]).1 = .ok none ∧
    demoCodec.decodeAccount ((payout_bid demoCodec scenarioC ["s1"]).2.state "alice")
      = some { mkAccount "alice" 100 with Bids := [mkBid "b1" "s1" 50 "alice"] } ∧
    (payout_bid demoCodec scenarioC ["s1"]).2.state "bob" = scenarioC.state "bob" :=
  have h := bids_strictly_increasing demoCodec demoCodec_roundTrip
    (place_bid demoCodec scenarioA ["b1", "b1,s1,50,,alice"]).2 "b2" "b2,s1,80,,bob" []
    (mkBid "b2" "s1" 80 "bob") (mkAccount "bob" 100)
    (mkSlot "s1" [mkBid "b1" "s1" 50 "alice"] 50) none
    (by decide) (by decide) (by decide) (by decide) (by decide)
  have hpay := h.2.2 scenarioC "s1" [] slotC (mkBid "b2" "s1" 80 "bob") (fun _ => rfl)
    (by decide) (by decide) (by decide)
    (by
      intro bid hmem
      have hb1 : bid = mkBid "b1" "s1" 50 "alice" := by
        simpa [slotC, mkSlot, List.dropLast] using hmem
      subst hb1
      exact ⟨{ mkAccount "alice" 50 with Bids := [mkBid "b1" "s1" 50 "alice"] },
        by decide, by decide⟩)
  ⟨by decide, by decide, h.1, h.2.1 (by decide), hpay.2.2.2.1,
    hpay.2.2.2.2.1 "alice" { mkAccount "alice" 50 with Bids := [mkBid "b1" "s1" 50 "alice"] }
      (by decide) (by decide),
    hpay.2.2.2.2.2 "bob" (by decide)⟩

/-! ## Conservation of funds over an auction -/

theorem invokeAll_append (J : Codec β) :
    ∀ (l1 l2 : List (String × List String)) (stub : ChaincodeStub β),
      invokeAll J stub (l1 ++ l2) = invokeAll J (invokeAll J stub l1) l2
  | [], _, _ => rfl
  | c :: l1, l2, stub => by
    simp only [List.cons_append, invokeAll]
    exact invokeAll_append J l1 l2 _

theorem along_append (J : Codec β) (P : ChaincodeStub β → String → List String → Prop) :
    ∀ (l1 l2 : List (String × List String)) (stub : ChaincodeStub β),
      Along J P stub (l1 ++ l2) → Along J P stub l1 ∧ Along J P (invokeAll J stub l1) l2
  | [], _, _, h => ⟨trivial, h⟩
  | c :: l1, l2, stub, h => by
    simp only [List.cons_append, Along] at h
    have ih := along_append J P l1 l2 _ h.2
    exact ⟨⟨h.1, ih.1⟩, ih.2⟩

theorem owed_nil (u : String) : owed u [] = 0 := rfl

theorem owed_cons (u : String) (bid : Bid) (rest : List Bid) :
    owed u (bid :: rest) = (if bid.Username = u then bid.Amount else 0) + owed u rest := by
  unfold owed
  by_cases h : bid.Username = u <;> simp [List.filter_cons, h]

theorem owed_append (u : String) (l1 l2 : List Bid) :
    owed u (l1 ++ l2) = owed u l1 + owed u l2 := by
  unfold owed
  simp [List.filter_append]

theorem owed_nonneg (u : String) :
    ∀ bids : List Bid, (∀ bid ∈ bids, 0 < bid.Amount) → 0 ≤ owed u bids
  | [], _ => by simp [owed_nil]
  | bid :: rest, h => by
    have ih := owed_nonneg u rest (fun x hx => h x (List.mem_cons_of_mem _ hx))
    have hb := h bid (List.mem_cons_self _ _)
    rw [owed_cons]
    split <;> omega

/-- The refunds of `u` are the amounts of the bids of `u` among those below the highest. -/
theorem refundOf_eq_owed (u : String) (highest : Int) (bids : List Bid) :
    refundOf u highest bids = owed u (bids.filter fun bid => bid.Amount < highest) := by
  induction bids with
  | nil => rfl
  | cons bid rest ih =>
    rw [refundOf_cons, ih]
    by_cases hlt : bid.Amount < highest
    · rw [List.filter_cons_of_pos (by simpa using hlt), owed_cons]
      simp [Bid.refundedTo, hlt]
    · rw [List.filter_cons_of_neg (by simpa using hlt)]
      simp [Bid.refundedTo, hlt]

/-- When the bids are positive and the balance with all bids of `u` added fits in `int64`,
the loop's balance is the starting balance plus the refunds. -/
theorem refundFold_eq_add_of_pos (u : String) (highest : Int) :
    ∀ (bids : List Bid) (bal : Int), (∀ bid ∈ bids, 0 < bid.Amount) → 0 ≤ bal →
      bal + owed u bids ≤ 9223372036854775807 →
      refundFold u highest bal bids = bal + refundOf u highest bids
  | [], bal, _, _, _ => by simp [refundFold, refundOf_nil]
  | bid :: rest, bal, hpos, h0, hmax => by
    have hb := hpos bid (List.mem_cons_self _ _)
    have hrest : ∀ x ∈ rest, 0 < x.Amount := fun x hx => hpos x (List.mem_cons_of_mem _ hx)
    have hnn := owed_nonneg u rest hrest
    rw [owed_cons] at hmax
    by_cases hr : bid.refundedTo u highest
    · have hu : bid.Username = u := hr.1
      rw [if_pos hu] at hmax
      have hw : add64 bal bid.Amount = bal + bid.Amount :=
        wrap64_of_inInt64 ⟨by omega, by omega⟩
      have ih := refundFold_eq_add_of_pos u highest rest (bal + bid.Amount) hrest
        (by omega) (by omega)
      simp only [refundFold, if_pos hr, hw, ih, refundOf_cons]
      omega
    · have ih := refundFold_eq_add_of_pos u highest rest bal hrest h0 (by
        split at hmax <;> omega)
      simp only [refundFold, if_neg hr, ih, refundOf_cons]
      omega

theorem sum_map_const_zero (us : List String) : (us.map fun _ => (0 : Int)).sum = 0 := by
  induction us with
  | nil => rfl
  | cons u rest ih => simp

theorem sum_map_ite_eq (x : String) (d : Int) :
    ∀ us : List String, us.Nodup → x ∈ us →
      (us.map fun u => if x = u then d else 0).sum = d
  | [], _, h => absurd h (List.not_mem_nil _)
  | u :: rest, hnd, h => by
    rw [List.nodup_cons] at hnd
    by_cases hx : x = u
    · subst hx
      have hz : (rest.map fun u => if x = u then d else 0) = rest.map fun _ => (0 : Int) := by
        apply List.map_congr_left
        intro v hv
        have : x ≠ v := fun e => hnd.1 (e ▸ hv)
        simp [this]
      simp [hz]
    · have hr : x ∈ rest := by
        rcases List.mem_cons.mp h with e | e
        · exact absurd e hx
        · exact e
      simp [hx, sum_map_ite_eq x d rest hnd.2 hr]

/-- Summed over the accounts, the amounts of the bids of each account are the amounts of
all bids, when every bidder is one of the accounts. -/
theorem sum_owed (us : List String) (hnd : us.Nodup) :
    ∀ bids : List Bid, (∀ bid ∈ bids, bid.Username ∈ us) →
      (us.map fun u => owed u bids).sum = (bids.map fun bid => bid.Amount).sum
  | [], _ => by simp [owed_nil]
  | bid :: rest, h => by
    have ih := sum_owed us hnd rest (fun x hx => h x (List.mem_cons_of_mem _ hx))
    have hb := sum_map_ite_eq bid.Username bid.Amount us hnd (h bid (List.mem_cons_self _ _))
    have : (us.map fun u => owed u (bid :: rest)) =
        us.map fun u => (if bid.Username = u then bid.Amount else 0) + owed u rest := by
      apply List.map_congr_left
      intro u _
      exact owed_cons u bid rest
    rw [this, List.sum_map_add, hb, ih]
    simp

/-- The highest amount of a slot in a running auction is not negative. -/
theorem escrow_highest_nonneg (s : Slot) (hinc : SlotIncreasing s)
    (hpos : ∀ bid ∈ s.Bids, 0 < bid.Amount) : 0 ≤ s.HighestBidAmount := by
  obtain ⟨_, hlast⟩ := hinc
  cases hl : s.Bids.getLast? with
  | none =>
    rw [hl] at hlast
    exact hlast
  | some last =>
    rw [hl] at hlast
    simp only at hlast
    have := hpos last (List.mem_of_getLast?_eq_some hl)
    omega

/-- A successful `place_bid` of a bid on the slot of a running auction appends the bid to
the auction. -/
theorem escrow_place (J : Codec β) (hJ : J.RoundTrip) (us : List String) (sid : String)
    (start : String → Int) (stub : ChaincodeStub β) (bids : List Bid) (args : List String)
    (v : Option β) (hsid : sid ∉ us) (hidx : bidIndexStr ∉ us)
    (hin : ∀ u ∈ us, start u ≤ 9223372036854775807)
    (hE : Escrow J us sid start stub.state bids) (hon : BidOn J sid us args)
    (hok : (place_bid J stub args).1 = .ok v) :
    ∃ b, bidOf J args = some b ∧
      Escrow J us sid start (place_bid J stub args).2.state (bids ++ [b]) := by
  obtain ⟨arg0, arg1, rest, b, a, s, hargs, hb, ha, hs, hbal, hhigh, hst, _⟩ :=
    place_bid_ok_inv J stub args v hok
  subst hargs
  have hbo : bidOf J (arg0 :: arg1 :: rest) = some b := hb
  simp only [BidOn, hbo] at hon
  obtain ⟨hslotId, huser, hbid⟩ := hon
  obtain ⟨⟨s1, hs1, hid, hbids, hinc, _⟩, hpos, hacc⟩ := hE
  rw [hslotId, hs1] at hs
  cases hs
  obtain ⟨a1, ha1, hau, ha0, hsum⟩ := hacc b.Username huser
  rw [ha1] at ha
  cases ha
  have hh0 : 0 ≤ s.HighestBidAmount :=
    escrow_highest_nonneg s hinc (fun x hx => (hpos x (hbids ▸ hx)).1)
  have hb0 : 0 < b.Amount := by omega
  have hown := owed_nonneg b.Username bids (fun x hx => (hpos x hx).1)
  have hmax := hin b.Username huser
  have hsub : sub64 a.Balance b.Amount = a.Balance - b.Amount :=
    wrap64_of_inInt64 ⟨by omega, by omega⟩
  have hne1 : sid ≠ a.Username := fun e => hsid (e ▸ hau ▸ huser)
  refine ⟨b, hbo, ⟨{ s with HighestBidAmount := b.Amount, Bids := s.Bids ++ [b] }, ?_, hid,
    by simp [hbids], slotIncreasing_place s b hinc hhigh, by simp⟩, ?_, ?_⟩
  · rw [hst]
    simp [placedState, hne1, hid, Codec.decodeSlot, hJ.slot]
  · intro x hx
    rcases List.mem_append.mp hx with h | h
    · exact hpos x h
    · simp only [List.mem_singleton] at h
      subst h
      exact ⟨hb0, huser⟩
  · intro u hu
    rw [hst]
    by_cases hua : u = a.Username
    · refine ⟨{ a with Balance := sub64 a.Balance b.Amount, Bids := a.Bids ++ [b] }, ?_,
        by simpa using hua.symm, ?_, ?_⟩
      · simp [placedState, hua, Codec.decodeAccount, hJ.account]
      · simp only [hsub]
        omega
      · have hbu : b.Username = u := by rw [hua, hau]
        simp only [hsub, owed_append, owed_cons, owed_nil, if_pos hbu]
        rw [← hbu]
        omega
    · obtain ⟨a2, ha2, hau2, ha20, hsum2⟩ := hacc u hu
      have h1 : u ≠ s.Id := fun e => hsid (hid ▸ e ▸ hu)
      have h2 : u ≠ b.Id := fun e => hbid (e ▸ hu)
      have h3 : u ≠ bidIndexStr := fun e => hidx (e ▸ hu)
      have hbu : b.Username ≠ u := fun e => hua (by rw [hau, e])
      refine ⟨a2, ?_, hau2, ha20, ?_⟩
      · simp only [placedState, if_neg hua, if_neg h1, if_neg h2, if_neg h3]
        exact ha2
      · simp only [owed_append, owed_cons, owed_nil, if_neg hbu]
        omega

/-- A sequence of successful `place_bid` invocations on the slot of a running auction
appends the bids of the invocations to the auction, in their order. -/
theorem escrow_places (J : Codec β) (hJ : J.RoundTrip) (us : List String) (sid : String)
    (start : String → Int) (hsid : sid ∉ us) (hidx : bidIndexStr ∉ us)
    (hin : ∀ u ∈ us, start u ≤ 9223372036854775807) :
    ∀ (bidCalls : List (List String)) (stub : ChaincodeStub β) (bids : List Bid),
      Escrow J us sid start stub.state bids →
      (∀ args ∈ bidCalls, BidOn J sid us args) →
      Along J (Succeeds J) stub (bidCalls.map fun args => ("place_bid", args)) →
      Escrow J us sid start
        (invokeAll J stub (bidCalls.map fun args => ("place_bid", args))).state
        (bids ++ bidCalls.filterMap (bidOf J))
  | [], stub, bids, hE, _, _ => by simpa [invokeAll] using hE
  | args :: restCalls, stub, bids, hE, hon, hok => by
    simp only [List.map_cons, Along, Succeeds] at hok
    have hinv : Invoke J stub "place_bid" args = place_bid J stub args := by
      simp [Invoke]
    rw [hinv] at hok
    obtain ⟨hfst, hrest⟩ := hok
    cases hr : (place_bid J stub args).1 with
    | err msg => simp [hr, Reply.isOk] at hfst
    | crash => simp [hr, Reply.isOk] at hfst
    | ok v =>
      obtain ⟨b, hbo, hE'⟩ := escrow_place J hJ us sid start stub bids args v hsid hidx hin
        hE (hon args (List.mem_cons_self _ _)) hr
      have ih := escrow_places J hJ us sid start hsid hidx hin restCalls
        (place_bid J stub args).2 (bids ++ [b]) hE'
        (fun x hx => hon x (List.mem_cons_of_mem _ hx)) hrest
      simp only [List.map_cons, invokeAll, hinv, List.filterMap_cons, hbo]
      simpa [List.append_assoc] using ih

/-- In a slot with strictly increasing bids, all amounts but the highest are refunded. -/
theorem refundTotal_of_increasing (s : Slot) (hinc : SlotIncreasing s)
    (h0 : s.Bids = [] → s.HighestBidAmount = 0) :
    (s.Bids.map fun bid => bid.Amount).sum - refundTotal s.HighestBidAmount s.Bids
      = s.HighestBidAmount := by
  obtain ⟨hpair, hlast⟩ := hinc
  cases hl : s.Bids.getLast? with
  | none =>
    have hnil := List.getLast?_eq_none_iff.mp hl
    rw [h0 hnil, hnil]
    rfl
  | some last =>
    rw [hl] at hlast
    simp only at hlast
    obtain ⟨init, hinit⟩ := List.getLast?_eq_some_iff.mp hl
    rw [hinit] at hpair
    have hlt := amount_lt_last init last hpair
    have hfilt : (init ++ [last]).filter (fun x => decide (x.Amount < s.HighestBidAmount))
        = init := by
      rw [List.filter_append]
      have h1 : init.filter (fun x => decide (x.Amount < s.HighestBidAmount)) = init := by
        rw [List.filter_eq_self]
        intro x hx
        have := hlt x hx
        simp only [decide_eq_true_eq]
        omega
      rw [h1]
      simp [hlast]
    unfold refundTotal
    rw [hinit, hfilt]
    simp [hlast]

theorem sum_map_sub_add (f g h : String → Int) (us : List String) :
    (us.map fun u => f u - g u + h u).sum
      = (us.map f).sum - (us.map g).sum + (us.map h).sum := by
  induction us with
  | nil => rfl
  | cons u rest ih =>
    simp only [List.map_cons, List.sum_cons, ih]
    omega

/-- A successful `payout_bid` of the slot of a running auction leaves the slot as it is and
gives every account its starting balance less the amounts of its bids that are not below
the highest amount; the balances then add up to the starting balances less the highest
amount. -/
theorem escrow_payout (J : Codec β) (hJ : J.RoundTrip) (us : List String) (sid : String)
    (start : String → Int) (stub : ChaincodeStub β) (bids : List Bid) (rest : List String)
    (v : Option β) (hnd : us.Nodup) (hsid : sid ∉ us)
    (hin : ∀ u ∈ us, start u ≤ 9223372036854775807)
    (hE : Escrow J us sid start stub.state bids)
    (hok : (payout_bid J stub (sid :: rest)).1 = .ok v) :
    ∃ s, J.decodeSlot ((payout_bid J stub (sid :: rest)).2.state sid) = .ok s ∧
      s.Bids = bids ∧ SlotIncreasing s ∧
      (∀ u ∈ us, ∃ a, J.decodeAccount ((payout_bid J stub (sid :: rest)).2.state u) = some a ∧
        a.Username = u ∧
        a.Balance = start u - owed u bids + refundOf u s.HighestBidAmount bids) ∧
      totalBalance J (payout_bid J stub (sid :: rest)).2.state us
        = (us.map start).sum - s.HighestBidAmount := by
  obtain ⟨slotId, rest', s, hargs, hs, hrun⟩ := payout_bid_ok_inv J stub _ v hok
  have e1 : slotId = sid := ((List.cons.inj hargs).1).symm
  subst e1
  obtain ⟨⟨s1, hs1, hid, hbids, hinc, hzero⟩, hpos, hacc⟩ := hE
  rw [hs1] at hs
  cases hs
  rw [hrun] at hok ⊢
  have hkeyed : ∀ bid ∈ s.Bids, bid.Amount < s.HighestBidAmount →
      ∀ a, J.decodeAccount (stub.state bid.Username) = some a →
        a.Username = bid.Username := by
    intro bid hbid _ a ha
    obtain ⟨a0, ha0, hau, _⟩ := hacc bid.Username (hpos bid (hbids ▸ hbid)).2
    rw [ha0] at ha
    cases ha
    exact hau
  obtain ⟨_, hframe, hbalances⟩ := payout_loop_of_ok J hJ s.HighestBidAmount s.Bids
    { stub with clock := stub.clock + 1 } v hkeyed hok
  have hslot : (payout_loop J s.HighestBidAmount s.Bids
      { stub with clock := stub.clock + 1 }).2.state slotId = stub.state slotId := by
    apply hframe
    intro bid hbid hr
    exact hsid (hr.1 ▸ (hpos bid (hbids ▸ hbid)).2)
  have hper : ∀ u ∈ us, ∃ a, J.decodeAccount ((payout_loop J s.HighestBidAmount s.Bids
        { stub with clock := stub.clock + 1 }).2.state u) = some a ∧ a.Username = u ∧
      a.Balance = start u - owed u bids + refundOf u s.HighestBidAmount bids := by
    intro u hu
    obtain ⟨a, ha, hau, ha0, hsum⟩ := hacc u hu
    have hfold := refundFold_eq_add_of_pos u s.HighestBidAmount s.Bids a.Balance
      (fun x hx => (hpos x (hbids ▸ hx)).1) ha0 (by
        rw [hbids, hsum]
        exact hin u hu)
    refine ⟨{ a with Balance := refundFold u s.HighestBidAmount a.Balance s.Bids },
      hbalances u a ha hau, hau, ?_⟩
    rw [← hbids] at hsum ⊢
    simp only [hfold]
    omega
  refine ⟨s, ?_, hbids, hinc, hper, ?_⟩
  · rw [hslot]
    exact hs1
  · have hmap : us.map (balanceAt J (payout_loop J s.HighestBidAmount s.Bids
          { stub with clock := stub.clock + 1 }).2.state)
        = us.map fun u => start u - owed u bids
            + owed u (bids.filter fun bid => bid.Amount < s.HighestBidAmount) := by
      apply List.map_congr_left
      intro u hu
      obtain ⟨a, ha, _, hbal⟩ := hper u hu
      simp only [balanceAt, ha, hbal, refundOf_eq_owed]
    have hall : ∀ bid ∈ bids, bid.Username ∈ us := fun x hx => (hpos x hx).2
    have hsome : ∀ bid ∈ bids.filter (fun bid => bid.Amount < s.HighestBidAmount),
        bid.Username ∈ us := fun x hx => hall x (List.mem_of_mem_filter hx)
    have htot := refundTotal_of_increasing s hinc (fun h => hzero (hbids ▸ h))
    unfold refundTotal at htot
    rw [hbids] at htot
    unfold totalBalance
    rw [hmap, sum_map_sub_add, sum_owed us hnd bids hall, sum_owed us hnd _ hsome]
    omega

/-- C17 (as stated, refuted): the store is set up through `add_account` and `add_slot`,
the slot added under the key `s1` carrying the id `s2`. Alice's account is stored under her
username with balance 100, the slot under `s1` has no bids and highest amount 0, and no
other key holds an account. Alice's bid of 50 on `s1` and the payout of `s1` both succeed;
afterwards the slot under `s1` still has no bids and highest amount 0, alice is still the
only account, and the balances add up to 50, not to 100 - 0: the bid was debited, the slot
under `s1` was never updated (the updated slot went under `s2`), and nothing was refunded. -/
theorem funds_not_conserved :
    demoCodec.decodeAccount (otherIdStore.state "alice") = some (mkAccount "alice" 100) ∧
    demoCodec.decodeSlot (otherIdStore.state "s1") = .ok (mkSlot "s2" [] 0) ∧
    (∀ k ∈ ["s1", "s2", "b1", accountIndexStr, slotIndexStr, bidIndexStr],
      demoCodec.decodeAccount (otherIdStore.state k) = none) ∧
    Along demoCodec (Succeeds demoCodec) otherIdStore
      (auctionOn "s1" [["b1", "b1,s1,50,,alice"]]) ∧
    demoCodec.decodeSlot
      ((invokeAll demoCodec otherIdStore (auctionOn "s1" [["b1", "b1,s1,50,,alice"]])).state
        "s1") = .ok (mkSlot "s2" [] 0) ∧
    (∀ k ∈ ["s1", "s2", "b1", accountIndexStr, slotIndexStr, bidIndexStr],
      demoCodec.decodeAccount
        ((invokeAll demoCodec otherIdStore
          (auctionOn "s1" [["b1", "b1,s1,50,,alice"]])).state k) = none) ∧
    totalBalance demoCodec otherIdStore.state ["alice"] = 100 ∧
    totalBalance demoCodec
      (invokeAll demoCodec otherIdStore (auctionOn "s1" [["b1", "b1,s1,50,,alice"]])).state
      ["alice"] = 50 := by
  decide

/-- C17 (amended): let `us` be distinct keys, each holding an account with that username and
a balance that is not negative, and let the slot stored under `sid`, a key other than those
of `us` (as is the key of the bid index), carry the id `sid`, no bids and highest amount 0.
After any sequence of successful `place_bid` invocations of bids on `sid` by accounts of
`us`, with bid ids that are none of the keys of `us`, followed by a successful `payout_bid`
of `sid`, the slot under `sid` holds the bids of the invocations in their order, strictly
increasing with the last amount as highest amount; every key of `us` holds an account with
its starting balance less its bids plus its bids below the highest amount; and the balances
of `us` add up to their sum at the start less the slot's highest amount. -/
theorem funds_conserved (J : Codec β) (hJ : J.RoundTrip) (stub : ChaincodeStub β)
    (sid : String) (us : List String) (s0 : Slot) (bidCalls : List (List String))
    (hnd : us.Nodup)
    (hacc : ∀ u ∈ us, ∃ a, J.decodeAccount (stub.state u) = some a ∧ a.Username = u ∧
      0 ≤ a.Balance ∧ InInt64 a.Balance)
    (hslot : J.decodeSlot (stub.state sid) = .ok s0) (hid : s0.Id = sid)
    (hbids : s0.Bids = []) (hhigh : s0.HighestBidAmount = 0)
    (hsid : sid ∉ us) (hidx : bidIndexStr ∉ us)
    (hon : ∀ args ∈ bidCalls, BidOn J sid us args)
    (hok : Along J (Succeeds J) stub (auctionOn sid bidCalls)) :
    ∃ sF, J.decodeSlot ((invokeAll J stub (auctionOn sid bidCalls)).state sid) = .ok sF ∧
      sF.Bids = bidCalls.filterMap (bidOf J) ∧ SlotIncreasing sF ∧
      (∀ u ∈ us, ∃ a,
        J.decodeAccount ((invokeAll J stub (auctionOn sid bidCalls)).state u) = some a ∧
        a.Username = u ∧
        a.Balance = balanceAt J stub.state u - owed u sF.Bids
          + refundOf u sF.HighestBidAmount sF.Bids) ∧
      totalBalance J (invokeAll J stub (auctionOn sid bidCalls)).state us
        = totalBalance J stub.state us - sF.HighestBidAmount := by
  have hin : ∀ u ∈ us, balanceAt J stub.state u ≤ 9223372036854775807 := by
    intro u hu
    obtain ⟨a, ha, _, _, hr⟩ := hacc u hu
    simp only [balanceAt, ha]
    exact hr.2
  have hE0 : Escrow J us sid (balanceAt J stub.state) stub.state [] := by
    refine ⟨⟨s0, hslot, hid, hbids, ⟨?_, ?_⟩, fun _ => hhigh⟩, ?_, ?_⟩
    · rw [hbids]
      exact List.Pairwise.nil
    · rw [hbids]
      simp [hhigh]
    · intro bid hbid
      cases hbid
    · intro u hu
      obtain ⟨a, ha, hau, h0, _⟩ := hacc u hu
      exact ⟨a, ha, hau, h0, by simp [balanceAt, ha, owed_nil]⟩
  unfold auctionOn at hok ⊢
  obtain ⟨hok1, hok2⟩ := along_append J (Succeeds J) _ _ stub hok
  have hE1 := escrow_places J hJ us sid (balanceAt J stub.state) hsid hidx hin bidCalls stub []
    hE0 hon hok1
  rw [List.nil_append] at hE1
  rw [invokeAll_append]
  have hinv : ∀ st : ChaincodeStub β,
      Invoke J st "payout_bid" [sid] = payout_bid J st [sid] := by
    intro st
    simp [Invoke]
  simp only [Along, Succeeds, hinv] at hok2
  simp only [invokeAll, hinv]
  cases hr : (payout_bid J
      (invokeAll J stub (bidCalls.map fun args => ("place_bid", args))) [sid]).1 with
  | err msg => simp [hr, Reply.isOk] at hok2
  | crash => simp [hr, Reply.isOk] at hok2
  | ok v =>
    obtain ⟨sF, hsF, hb, hinc, hper, htot⟩ := escrow_payout J hJ us sid
      (balanceAt J stub.state) _ _ [] v hnd hsid hin hE1 hr
    refine ⟨sF, hsF, hb, hinc, ?_, htot⟩
    intro u hu
    obtain ⟨a, ha, hau, hbal⟩ := hper u hu
    exact ⟨a, ha, hau, by rw [hb]; exact hbal⟩

/-- C17 (witness): the auction of scenario A, alice's bid of 50 and bob's bid of 80 on the
slot `s1` followed by the payout: the balances add up to 200 before and to 120 after. -/
theorem funds_conserved_witness :
    Along demoCodec (Succeeds demoCodec) scenarioA
      (auctionOn "s1" [["b1", "b1,s1,50,,alice"], ["b2", "b2,s1,80,,bob"]]) ∧
    totalBalance demoCodec scenarioA.state ["alice", "bob"] = 200 ∧
    totalBalance demoCodec
      (invokeAll demoCodec scenarioA
        (auctionOn "s1" [["b1", "b1,s1,50,,alice"], ["b2", "b2,s1,80,,bob"]])).state
      ["alice", "bob"] = 120 ∧
    ∃ sF, demoCodec.decodeSlot ((invokeAll demoCodec scenarioA
        (auctionOn "s1" [["b1", "b1,s1,50,,alice"], ["b2", "b2,s1,80,,bob"]])).state "s1")
          = .ok sF ∧
      sF.Bids = [["b1", "b1,s1,50,,alice"], ["b2", "b2,s1,80,,bob"]].filterMap
        (bidOf demoCodec) ∧ SlotIncreasing sF ∧
      (∀ u ∈ ["alice", "bob"], ∃ a,
        demoCodec.decodeAccount ((invokeAll demoCodec scenarioA
          (auctionOn "s1" [["b1", "b1,s1,50,,alice"], ["b2", "b2,s1,80,,bob"]])).state u)
            = some a ∧
        a.Username = u ∧
        a.Balance = balanceAt demoCodec scenarioA.state u - owed u sF.Bids
          + refundOf u sF.HighestBidAmount sF.Bids) ∧
      totalBalance demoCodec (invokeAll demoCodec scenarioA
        (auctionOn "s1" [["b1", "b1,s1,50,,alice"], ["b2", "b2,s1,80,,bob"]])).state
        ["alice", "bob"]
        = totalBalance demoCodec scenarioA.state ["alice", "bob"] - sF.HighestBidAmount :=
  ⟨by decide, by decide, by decide,
    funds_conserved demoCodec demoCodec_roundTrip scenarioA "s1" ["alice", "bob"]
      (mkSlot "s1" [] 0) [["b1", "b1,s1,50,,alice"], ["b2", "b2,s1,80,,bob"]]
      (by decide)
      (by
        intro u hu
        simp only [List.mem_cons, List.mem_singleton, List.not_mem_nil, or_false] at hu
        rcases hu with h | h
        · subst h
          exact ⟨mkAccount "alice" 100, by decide, by decide, by decide, by decide⟩
        · subst h
          exact ⟨mkAccount "bob" 100, by decide, by decide, by decide, by decide⟩)
      (by decide) (by decide) (by decide) (by decide) (by decide) (by decide) (by decide)
      (by decide)⟩

end AdvertisementDemo
